import Mathlib

set_option maxHeartbeats 1000000

/-!
Verification development for the graph materialization and bounded traversal
engine of `backend/db/crud.py` (functions `get_graph_network`,
`get_entity_subgraph`, `_normalize_raci`, `_parse_node_id`, `_nid` and the
helper tables `_RACI_NAME` / `_RACI_INITIAL`).

The Python code is shallowly embedded: relational rows become structures, the
SQLAlchemy queries become list filters over an explicit `Store`, Python sets
used only for membership become lists with add-if-absent insertion, and the
two stateful adder closures (`add_node` / `add_edge`) become explicit
state-passing functions over `GState`.  Machine integers are `Nat` (all ids
are non-negative database keys produced by `\d+` parses).  Strings are
modelled with explicit character-list operations mirroring the Python string
methods used (`upper`, `capitalize`, `strip`, `startswith`, `split`, `str`,
`int`).
-/

namespace AIPMO

/-! ### Python string primitives -/

/-- Decimal digit character, as produced by Python `str` on an int digit. -/
def dChar (d : Nat) : Char :=
  if d = 0 then '0' else if d = 1 then '1' else if d = 2 then '2'
  else if d = 3 then '3' else if d = 4 then '4' else if d = 5 then '5'
  else if d = 6 then '6' else if d = 7 then '7' else if d = 8 then '8' else '9'

/-- Little-endian digit characters of `n` (fuel-based structural recursion;
`fuel ≥ n` suffices since `n / 10 < n` for `n > 0`). -/
def digitsRevAux : Nat → Nat → List Char
  | 0, _ => []
  | f + 1, n => if n = 0 then [] else dChar (n % 10) :: digitsRevAux f (n / 10)

/-- Python `str` on a non-negative int: decimal rendering. -/
def pyStr (n : Nat) : String :=
  if n = 0 then "0" else String.mk (digitsRevAux n n).reverse

/-- Numeric value of one digit character (Python `int` digit semantics). -/
def digitVal (c : Char) : Nat := c.toNat - '0'.toNat

/-- Python `int` on a string of decimal digit characters. -/
def pyIntChars (l : List Char) : Nat := l.foldl (fun acc c => acc * 10 + digitVal c) 0

/-- Python `str.lower` (ASCII). -/
def pyLower (s : String) : String := String.mk (s.data.map Char.toLower)

/-- Python `str.upper` (ASCII). -/
def pyUpper (s : String) : String := String.mk (s.data.map Char.toUpper)

/-- Python `str.capitalize`: first character uppercased, the rest lowercased. -/
def pyCapitalize (s : String) : String :=
  match s.data with
  | [] => ""
  | c :: cs => String.mk (c.toUpper :: cs.map Char.toLower)

/-- Python `str.strip` (whitespace strip at both ends). -/
def pyStrip (s : String) : String :=
  String.mk (((s.data.dropWhile Char.isWhitespace).reverse.dropWhile Char.isWhitespace).reverse)

/-- Python `s.startswith(p)`. -/
def pyStartsWith (s p : String) : Bool := p.data.isPrefixOf s.data

/-- Python truthy-or on an optional string: `s or d` (both `None` and `""` are
falsy). -/
def strOr (o : Option String) (d : String) : String :=
  match o with
  | none => d
  | some s => if s = "" then d else s

/-- Python `s[:1]`. -/
def pyTake1 (s : String) : String := String.mk (s.data.take 1)

/-! ### RACI tables and normalization (`_RACI_NAME`, `_RACI_INITIAL`,
`_normalize_raci`, and the edge-type suffix computation used at the
materialization call sites). -/

/-- `_RACI_NAME` lookup: single-letter code to full role word. -/
def raciName (s : String) : Option String :=
  if s = "R" then some "Responsible" else if s = "A" then some "Accountable"
  else if s = "C" then some "Consulted" else if s = "I" then some "Informed" else none

/-- `_RACI_INITIAL` lookup: full role word to single-letter code. -/
def raciInitial (s : String) : Option String :=
  if s = "Responsible" then some "R" else if s = "Accountable" then some "A"
  else if s = "Consulted" then some "C" else if s = "Informed" then some "I" else none

/-- `_normalize_raci(role)`.  `none` models an absent value; the Python
`if not role` branch also fires on the empty string. -/
def normalizeRaci (role : Option String) : String :=
  match role with
  | none => "Informed"
  | some s =>
    if s = "" then "Informed"
    else
      let r := pyStrip s
      let up := pyUpper r
      match raciName up with
      | some v => v
      | none =>
        let title := pyCapitalize r
        (raciName (pyUpper (pyTake1 title))).getD title

/-- The edge-type suffix computed at every RACI/ASSIGNEE edge emission site:
`_RACI_INITIAL.get(role, (role or 'R')[:1]).upper()`.  The subgraph builder
re-declares the same `initial` mapping inline; both call sites compute this
function of the stored role. -/
def raciSuffix (role : Option String) : String :=
  pyUpper ((role.bind raciInitial).getD (pyTake1 (strOr role "R")))

/-! ### Data model: relational rows and the store
(mirrors `db/models.py` as consumed by the two graph builders). -/

structure Person where
  id : Nat
  name : String
  email : Option String
deriving DecidableEq

structure Project where
  id : Nat
  name : String
  status : Option String
  description : Option String
deriving DecidableEq

structure Task where
  id : Nat
  name : String
  status : Option String
  description : Option String
  projectId : Option Nat
deriving DecidableEq

structure Group where
  id : Nat
  name : String
deriving DecidableEq

structure PersonRelation where
  fromPersonId : Nat
  toPersonId : Nat
  type : Option String
deriving DecidableEq

structure ProjectLead where
  projectId : Nat
  personId : Nat
  role : Option String
deriving DecidableEq

structure TaskAssignee where
  taskId : Nat
  personId : Nat
  role : Option String
deriving DecidableEq

/-- The relational entity store consumed by the graph builders.  Association
tables `person_group_table` and `project_group` are (person_id, group_id) and
(project_id, group_id) pairs. -/
structure Store where
  people : List Person
  projects : List Project
  tasks : List Task
  groups : List Group
  personRelations : List PersonRelation
  projectLeads : List ProjectLead
  taskAssignees : List TaskAssignee
  personGroup : List (Nat × Nat)
  projectGroup : List (Nat × Nat)
deriving DecidableEq

/-- `Task.task_assignees` relationship: the assignee rows of one task. -/
def taskAssigneesOf (db : Store) (tid : Nat) : List TaskAssignee :=
  db.taskAssignees.filter (fun a => decide (a.taskId = tid))

/-- Dict built as `{row.id: row for row in query}`: last write wins. -/
def personById (db : Store) (i : Nat) : Option Person :=
  (db.people.filter (fun p => decide (p.id = i))).getLast?

def projectById (db : Store) (i : Nat) : Option Project :=
  (db.projects.filter (fun p => decide (p.id = i))).getLast?

def taskById (db : Store) (i : Nat) : Option Task :=
  (db.tasks.filter (fun t => decide (t.id = i))).getLast?

def groupById (db : Store) (i : Nat) : Option Group :=
  (db.groups.filter (fun g => decide (g.id = i))).getLast?

/-! ### Graph output shape and the identity/dedup adders -/

/-- Rendered node payload (`{"data": {...}}`).  Optional fields model dict
keys that are present only for some kinds / non-null values. -/
structure NodeData where
  id : String
  type : String
  label : Option String
  status : Option String
  email : Option String
  detailDescription : Option String
deriving DecidableEq

/-- Rendered edge payload (`{"data": {...}}`).  `meta` models the `**meta`
keyword arguments; every call site in the two builders passes none. -/
structure EdgeData where
  source : String
  target : String
  type : String
  meta : List (String × String)
deriving DecidableEq

/-- The per-call mutable builder state: output arrays plus the seen-sets
(`seen_nodes`, `seen_edges`, `node_ids`). -/
structure GState where
  nodes : List NodeData
  edges : List EdgeData
  seenNodes : List (String × Nat)
  seenEdges : List (String × String × String)
  nodeIds : List String
deriving DecidableEq

def emptyG : GState := ⟨[], [], [], [], []⟩

/-- `nid` / `_nid`: canonical node id `f"{kind}_{id}"`. -/
def nid (kind : String) (i : Nat) : String := kind ++ "_" ++ pyStr i

/-- Row payload passed to `get_graph_network.add_node`. -/
inductive Row where
  | person (p : Person)
  | project (p : Project)
  | task (t : Task)
  | group (g : Group)
deriving DecidableEq

def rowId : Row → Nat
  | Row.person p => p.id
  | Row.project p => p.id
  | Row.task t => t.id
  | Row.group g => g.id

/-- The kind dispatch of `get_graph_network.add_node` that renders the node
payload.  An unknown kind appends nothing (Python `pass`); a kind/row
mismatch would be an `AttributeError` in Python and occurs at no call site
(every call passes a literal kind with the matching row type). -/
def netNodeData (kind : String) (row : Row) (nidStr : String) : List NodeData :=
  match kind, row with
  | "person", Row.person p =>
      [{ id := nidStr, type := "person", label := some p.name, status := none,
         email := p.email, detailDescription := none }]
  | "project", Row.project pr =>
      [{ id := nidStr, type := "project", label := some pr.name, status := pr.status,
         email := none, detailDescription := pr.description }]
  | "task", Row.task t =>
      [{ id := nidStr, type := "task", label := some t.name, status := t.status,
         email := none, detailDescription := t.description }]
  | "group", Row.group g =>
      [{ id := nidStr, type := "group", label := some g.name, status := none,
         email := none, detailDescription := none }]
  | _, _ => []

/-- `get_graph_network.add_node`: dedup on `(kind, id)`, no budget. -/
def addNodeNet (st : GState) (kind : String) (row : Row) : GState :=
  if (kind, rowId row) ∈ st.seenNodes then st
  else
    let nidStr := nid kind (rowId row)
    { st with
      seenNodes := st.seenNodes ++ [(kind, rowId row)]
      nodeIds := st.nodeIds ++ [nidStr]
      nodes := st.nodes ++ netNodeData kind row nidStr }

/-- `get_graph_network.add_edge`: endpoint check, then dedup on
`(src, dst, type)`, no budget. -/
def addEdgeNet (st : GState) (src dst etype : String) (meta : List (String × String)) : GState :=
  if src ∉ st.nodeIds ∨ dst ∉ st.nodeIds then st
  else if (src, dst, etype) ∈ st.seenEdges then st
  else
    { st with
      seenEdges := st.seenEdges ++ [(src, dst, etype)]
      edges := st.edges ++ [{ source := src, target := dst, type := etype, meta := meta }] }

/-- `get_entity_subgraph.add_node`: node budget check first, then dedup. -/
def addNodeSub (maxNodes : Nat) (st : GState) (kind : String) (objId : Nat)
    (label status email : Option String) : GState :=
  if maxNodes ≤ st.seenNodes.length then st
  else if (kind, objId) ∈ st.seenNodes then st
  else
    let nidStr := nid kind objId
    { st with
      seenNodes := st.seenNodes ++ [(kind, objId)]
      nodeIds := st.nodeIds ++ [nidStr]
      nodes := st.nodes ++ [{ id := nidStr, type := kind, label := label, status := status,
                              email := email, detailDescription := none }] }

/-- `get_entity_subgraph.add_edge`: edge budget check first, then endpoint
check, then dedup. -/
def addEdgeSub (maxEdges : Nat) (st : GState) (src dst etype : String)
    (meta : List (String × String)) : GState :=
  if maxEdges ≤ st.seenEdges.length then st
  else if src ∉ st.nodeIds ∨ dst ∉ st.nodeIds then st
  else if (src, dst, etype) ∈ st.seenEdges then st
  else
    { st with
      edges := st.edges ++ [{ source := src, target := dst, type := etype, meta := meta }]
      seenEdges := st.seenEdges ++ [(src, dst, etype)] }

/-! ### Full graph materializer (`get_graph_network`)
The function is split into its sequential phases; `getGraphNetwork` is their
composition in source order.  The Python function additionally wraps the
result as `{"schema": GRAPH_SCHEMA, "graph": {...}}`; the constant schema
carries no logic and is omitted from the state. -/

/-- Existence set `{p.id for p in people}` (and the analogous three). -/
def peopleIds (db : Store) : List Nat := db.people.map (fun p => p.id)

def projectIds (db : Store) : List Nat := db.projects.map (fun p => p.id)

def taskIds (db : Store) : List Nat := db.tasks.map (fun t => t.id)

def groupIds (db : Store) : List Nat := db.groups.map (fun g => g.id)

/-- Node emission phase: person, project, task, group, in that order. -/
def netNodesPhase (db : Store) (st : GState) : GState :=
  let st := db.people.foldl (fun s p => addNodeNet s "person" (Row.person p)) st
  let st := db.projects.foldl (fun s pr => addNodeNet s "project" (Row.project pr)) st
  let st := db.tasks.foldl (fun s t => addNodeNet s "task" (Row.task t)) st
  db.groups.foldl (fun s g => addNodeNet s "group" (Row.group g)) st

/-- Person-to-person relation edges (type = stored type uppercased, default
`REL`), guarded by the existence sets. -/
def netRelEdges (db : Store) (st : GState) : GState :=
  db.personRelations.foldl (fun s r =>
    if r.fromPersonId ∈ peopleIds db ∧ r.toPersonId ∈ peopleIds db then
      addEdgeNet s (nid "person" r.fromPersonId) (nid "person" r.toPersonId)
        (pyUpper (strOr r.type "REL")) []
    else s) st

/-- Person-to-project lead edges (`RACI:<code>`). -/
def netLeadEdges (db : Store) (st : GState) : GState :=
  db.projectLeads.foldl (fun s pl =>
    if pl.personId ∈ peopleIds db ∧ pl.projectId ∈ projectIds db then
      addEdgeNet s (nid "person" pl.personId) (nid "project" pl.projectId)
        ("RACI:" ++ raciSuffix pl.role) []
    else s) st

/-- Per-task loop: `PART_OF` (guarded by the Python truthiness of
`t.project_id`, so a 0 or NULL foreign key emits nothing) interleaved with
`ASSIGNEE:<code>` edges. -/
def netTaskEdges (db : Store) (st : GState) : GState :=
  db.tasks.foldl (fun s t =>
    let s1 :=
      match t.projectId with
      | some pid =>
          if pid ≠ 0 ∧ pid ∈ projectIds db then
            addEdgeNet s (nid "task" t.id) (nid "project" pid) "PART_OF" []
          else s
      | none => s
    (taskAssigneesOf db t.id).foldl (fun s2 ta =>
      if ta.personId ∈ peopleIds db then
        addEdgeNet s2 (nid "person" ta.personId) (nid "task" t.id)
          ("ASSIGNEE:" ++ raciSuffix ta.role) []
      else s2) s1) st

/-- Person-to-group membership edges. -/
def netMemberEdges (db : Store) (st : GState) : GState :=
  db.personGroup.foldl (fun s pg =>
    if pg.1 ∈ peopleIds db ∧ pg.2 ∈ groupIds db then
      addEdgeNet s (nid "person" pg.1) (nid "group" pg.2) "MEMBER_OF" []
    else s) st

/-- Project-to-group membership edges. -/
def netProjGroupEdges (db : Store) (st : GState) : GState :=
  db.projectGroup.foldl (fun s pg =>
    if pg.1 ∈ projectIds db ∧ pg.2 ∈ groupIds db then
      addEdgeNet s (nid "project" pg.1) (nid "group" pg.2) "IN_GROUP" []
    else s) st

/-- `defaultdict(list)` append: insertion-ordered keys, values appended. -/
def dinsertNat (m : List (Nat × List Nat)) (k v : Nat) : List (Nat × List Nat) :=
  match m with
  | [] => [(k, [v])]
  | (k1, vs) :: rest => if k1 = k then (k1, vs ++ [v]) :: rest else (k1, vs) :: dinsertNat rest k v

/-- `task_to_people`: task id to the person ids of its assignees that exist. -/
def taskToPeople (db : Store) : List (Nat × List Nat) :=
  db.tasks.foldl (fun m t =>
    (taskAssigneesOf db t.id).foldl (fun m2 ta =>
      if ta.personId ∈ peopleIds db then dinsertNat m2 t.id ta.personId else m2) m) []

/-- `proj_to_leads`: project id to the person ids of its leads, both guarded. -/
def projToLeads (db : Store) : List (Nat × List Nat) :=
  db.projectLeads.foldl (fun m pl =>
    if pl.personId ∈ peopleIds db ∧ pl.projectId ∈ projectIds db then
      dinsertNat m pl.projectId pl.personId
    else m) []

/-- Insertion sort on `Nat` (ascending), modelling Python `sorted`. -/
def insNat (x : Nat) : List Nat → List Nat
  | [] => [x]
  | y :: ys => if x ≤ y then x :: y :: ys else y :: insNat x ys

def sortNat (l : List Nat) : List Nat := l.foldr insNat []

/-- Python `sorted(set(l))`: the distinct elements in ascending order. -/
def sortedDedupNat (l : List Nat) : List Nat := sortNat l.dedup

/-- The `i < j` double loop over a list, calling `f` on every ordered pair of
positions. -/
def foldPairs {σ α : Type} (f : σ → α → α → σ) : σ → List α → σ
  | st, [] => st
  | st, a :: rest => foldPairs f (rest.foldl (fun s b => f s a b) st) rest

/-- Both-directions collaboration emission for one pair (full materializer). -/
def netCollabStep (etype : String) (s : GState) (a b : Nat) : GState :=
  addEdgeNet (addEdgeNet s (nid "person" a) (nid "person" b) etype [])
    (nid "person" b) (nid "person" a) etype []

/-- Task-based derived collaboration edges. -/
def netCollabTask (db : Store) (st : GState) : GState :=
  (taskToPeople db).foldl (fun s entry =>
    foldPairs (netCollabStep "COLLAB:TASK") s (sortedDedupNat entry.2)) st

/-- Project-based derived collaboration edges. -/
def netCollabProject (db : Store) (st : GState) : GState :=
  (projToLeads db).foldl (fun s entry =>
    foldPairs (netCollabStep "COLLAB:PROJECT") s (sortedDedupNat entry.2)) st

/-- `get_graph_network`: nodes first, then the explicit relational edges,
then the derived collaboration edges. -/
def getGraphNetwork (db : Store) : GState :=
  netCollabProject db (netCollabTask db (netProjGroupEdges db (netMemberEdges db
    (netTaskEdges db (netLeadEdges db (netRelEdges db (netNodesPhase db emptyG)))))))

/-! ### Node id parsing (`_parse_node_id`) -/

/-- Split a character list at its first underscore (Python
`s.split("_", 1)`); `none` when no underscore occurs. -/
def breakAtUnderscore : List Char → Option (List Char × List Char)
  | [] => none
  | c :: cs =>
    if c = '_' then some ([], cs)
    else
      match breakAtUnderscore cs with
      | some (pre, post) => some (c :: pre, post)
      | none => none

def KIND_ALIASES : List String :=
  ["person", "people", "project", "projects", "task", "tasks", "group", "groups"]

/-- The plural-to-singular normalization applied to the matched kind. -/
def toSingular (k : String) : String :=
  if k = "people" then "person" else if k = "projects" then "project"
  else if k = "tasks" then "task" else if k = "groups" then "group" else k

/-- `_parse_node_id`: the regex
`^(person|people|project|projects|task|tasks|group|groups)_(\d+)$`
(case-insensitive) applied to the stripped token; `none` models the raised
`ValueError`.  Digits are modelled as ASCII decimal digits. -/
def parseNodeId (token : String) : Option (String × Nat) :=
  match breakAtUnderscore (pyStrip token).data with
  | none => none
  | some (pre, post) =>
    let kindTok := pyLower (String.mk pre)
    if kindTok ∈ KIND_ALIASES ∧ post ≠ [] ∧ post.all Char.isDigit then
      some (toSingular kindTok, pyIntChars post)
    else none

/-! ### Bounded subgraph traversal (`get_entity_subgraph`) -/

/-- The per-kind BFS frontier (`frontier` dict of sets). -/
structure Frontier where
  project : List Nat
  task : List Nat
  person : List Nat
  group : List Nat
deriving DecidableEq

def emptyFrontier : Frontier := ⟨[], [], [], []⟩

/-- Python `set.add` on a set modelled as a duplicate-free list. -/
def sadd (s : List Nat) (x : Nat) : List Nat := if x ∈ s then s else s ++ [x]

/-- `not any(frontier.values())`. -/
def Frontier.isEmptyAll (f : Frontier) : Bool :=
  f.project.isEmpty && f.task.isEmpty && f.person.isEmpty && f.group.isEmpty

/-- Seed phase: parse every center token, ignoring invalid ones.  The parser
only ever returns one of the four singular kinds, so the final else branch is
unreachable. -/
def seedFrontier (centers : List String) : Frontier :=
  centers.foldl (fun fr token =>
    match parseNodeId token with
    | none => fr
    | some (kind, i) =>
      if kind = "project" then { fr with project := sadd fr.project i }
      else if kind = "task" then { fr with task := sadd fr.task i }
      else if kind = "person" then { fr with person := sadd fr.person i }
      else if kind = "group" then { fr with group := sadd fr.group i }
      else fr) emptyFrontier

/-- Center materialization: bulk-load each non-empty frontier set and add the
entities as nodes (projects, tasks, people, groups, in source order). -/
def materializeCenters (db : Store) (maxNodes : Nat) (fr : Frontier) (st : GState) : GState :=
  let st := (db.projects.filter (fun p => decide (p.id ∈ fr.project))).foldl
    (fun s pr => addNodeSub maxNodes s "project" pr.id (some pr.name) pr.status none) st
  let st := (db.tasks.filter (fun t => decide (t.id ∈ fr.task))).foldl
    (fun s t => addNodeSub maxNodes s "task" t.id (some t.name) t.status none) st
  let st := (db.people.filter (fun p => decide (p.id ∈ fr.person))).foldl
    (fun s p => addNodeSub maxNodes s "person" p.id (some p.name) none p.email) st
  (db.groups.filter (fun g => decide (g.id ∈ fr.group))).foldl
    (fun s g => addNodeSub maxNodes s "group" g.id (some g.name) none none) st

/-- Project frontier expansion: tasks (`PART_OF`), leads (`RACI:<code>`),
groups (`IN_GROUP`). -/
def projectExpansion (db : Store) (mn me : Nat) (projIds : List Nat)
    (s : GState × Frontier) : GState × Frontier :=
  let s := (db.tasks.filter (fun t =>
      match t.projectId with
      | some pid => decide (pid ∈ projIds)
      | none => false)).foldl (fun s2 t =>
    match t.projectId with
    | some pid =>
        (addEdgeSub me (addNodeSub mn s2.1 "task" t.id (some t.name) t.status none)
          (nid "task" t.id) (nid "project" pid) "PART_OF" [],
         { s2.2 with task := sadd s2.2.task t.id })
    | none => s2) s
  let s := (db.projectLeads.filter (fun pl => decide (pl.projectId ∈ projIds))).foldl
    (fun s2 pl =>
      match personById db pl.personId with
      | none => s2
      | some p =>
          (addEdgeSub me (addNodeSub mn s2.1 "person" p.id (some p.name) none p.email)
            (nid "person" p.id) (nid "project" pl.projectId)
            ("RACI:" ++ raciSuffix pl.role) [],
           { s2.2 with person := sadd s2.2.person p.id })) s
  (db.projectGroup.filter (fun pg => decide (pg.1 ∈ projIds))).foldl
    (fun s2 pg =>
      match groupById db pg.2 with
      | none => s2
      | some g =>
          (addEdgeSub me (addNodeSub mn s2.1 "group" g.id (some g.name) none none)
            (nid "project" pg.1) (nid "group" g.id) "IN_GROUP" [],
           { s2.2 with group := sadd s2.2.group g.id })) s

/-- The `{t.id: t.project_id for t in t_rows if t.project_id}` dict: insertion
ordered, last write wins, Python-falsy (NULL or 0) project ids dropped. -/
def dupsertNat (m : List (Nat × Nat)) (k v : Nat) : List (Nat × Nat) :=
  match m with
  | [] => [(k, v)]
  | (k1, v1) :: rest => if k1 = k then (k1, v) :: rest else (k1, v1) :: dupsertNat rest k v

def projForTask (db : Store) (tIds : List Nat) : List (Nat × Nat) :=
  (db.tasks.filter (fun t => decide (t.id ∈ tIds))).foldl (fun m t =>
    match t.projectId with
    | some pid => if pid ≠ 0 then dupsertNat m t.id pid else m
    | none => m) []

/-- Task frontier expansion: owning project (`PART_OF`), that project's leads
(`RACI:<code>`), assignees (`ASSIGNEE:<code>`). -/
def taskExpansion (db : Store) (mn me : Nat) (tIds : List Nat)
    (s : GState × Frontier) : GState × Frontier :=
  let pft := projForTask db tIds
  let projIds2 := pft.map (fun kv => kv.2)
  let s := pft.foldl (fun s2 kv =>
    match projectById db kv.2 with
    | none => s2
    | some pr =>
        (addEdgeSub me (addNodeSub mn s2.1 "project" pr.id (some pr.name) pr.status none)
          (nid "task" kv.1) (nid "project" pr.id) "PART_OF" [],
         { s2.2 with project := sadd s2.2.project pr.id })) s
  let s := (db.projectLeads.filter (fun pl => decide (pl.projectId ∈ projIds2))).foldl
    (fun s2 pl =>
      match personById db pl.personId with
      | none => s2
      | some p =>
          (addEdgeSub me (addNodeSub mn s2.1 "person" p.id (some p.name) none p.email)
            (nid "person" p.id) (nid "project" pl.projectId)
            ("RACI:" ++ raciSuffix pl.role) [],
           { s2.2 with person := sadd s2.2.person p.id })) s
  (db.taskAssignees.filter (fun a => decide (a.taskId ∈ tIds))).foldl
    (fun s2 a =>
      match personById db a.personId with
      | none => s2
      | some p =>
          (addEdgeSub me (addNodeSub mn s2.1 "person" p.id (some p.name) none p.email)
            (nid "person" a.personId) (nid "task" a.taskId)
            ("ASSIGNEE:" ++ raciSuffix a.role) [],
           { s2.2 with person := sadd s2.2.person p.id })) s

/-- Person frontier expansion: outbound and inbound relations, group
memberships, project leaderships, task assignments. -/
def personExpansion (db : Store) (mn me : Nat) (pIds : List Nat)
    (s : GState × Frontier) : GState × Frontier :=
  let s := (db.personRelations.filter (fun r => decide (r.fromPersonId ∈ pIds))).foldl
    (fun s2 r =>
      match personById db r.toPersonId with
      | none => s2
      | some tgt =>
          (addEdgeSub me (addNodeSub mn s2.1 "person" tgt.id (some tgt.name) none tgt.email)
            (nid "person" r.fromPersonId) (nid "person" r.toPersonId)
            (pyUpper (strOr r.type "REL")) [],
           { s2.2 with person := sadd s2.2.person tgt.id })) s
  let s := (db.personRelations.filter (fun r => decide (r.toPersonId ∈ pIds))).foldl
    (fun s2 r =>
      match personById db r.fromPersonId with
      | none => s2
      | some src =>
          (addEdgeSub me (addNodeSub mn s2.1 "person" src.id (some src.name) none src.email)
            (nid "person" r.fromPersonId) (nid "person" r.toPersonId)
            (pyUpper (strOr r.type "REL")) [],
           { s2.2 with person := sadd s2.2.person src.id })) s
  let s := (db.personGroup.filter (fun pg => decide (pg.1 ∈ pIds))).foldl
    (fun s2 pg =>
      match groupById db pg.2 with
      | none => s2
      | some g =>
          (addEdgeSub me (addNodeSub mn s2.1 "group" g.id (some g.name) none none)
            (nid "person" pg.1) (nid "group" g.id) "MEMBER_OF" [],
           { s2.2 with group := sadd s2.2.group g.id })) s
  let s := (db.projectLeads.filter (fun pl => decide (pl.personId ∈ pIds))).foldl
    (fun s2 pl =>
      match projectById db pl.projectId with
      | none => s2
      | some pr =>
          (addEdgeSub me (addNodeSub mn s2.1 "project" pr.id (some pr.name) pr.status none)
            (nid "person" pl.personId) (nid "project" pr.id)
            ("RACI:" ++ raciSuffix pl.role) [],
           { s2.2 with project := sadd s2.2.project pr.id })) s
  (db.taskAssignees.filter (fun a => decide (a.personId ∈ pIds))).foldl
    (fun s2 a =>
      match taskById db a.taskId with
      | none => s2
      | some t =>
          (addEdgeSub me (addNodeSub mn s2.1 "task" t.id (some t.name) t.status none)
            (nid "person" a.personId) (nid "task" t.id)
            ("ASSIGNEE:" ++ raciSuffix a.role) [],
           { s2.2 with task := sadd s2.2.task t.id })) s

/-- Group frontier expansion: members (`MEMBER_OF`) and member projects
(`IN_GROUP`). -/
def groupExpansion (db : Store) (mn me : Nat) (gIds : List Nat)
    (s : GState × Frontier) : GState × Frontier :=
  let s := (db.personGroup.filter (fun pg => decide (pg.2 ∈ gIds))).foldl
    (fun s2 pg =>
      match personById db pg.1 with
      | none => s2
      | some p =>
          (addEdgeSub me (addNodeSub mn s2.1 "person" p.id (some p.name) none p.email)
            (nid "person" p.id) (nid "group" pg.2) "MEMBER_OF" [],
           { s2.2 with person := sadd s2.2.person p.id })) s
  (db.projectGroup.filter (fun pg => decide (pg.2 ∈ gIds))).foldl
    (fun s2 pg =>
      match projectById db pg.1 with
      | none => s2
      | some pr =>
          (addEdgeSub me (addNodeSub mn s2.1 "project" pr.id (some pr.name) pr.status none)
            (nid "project" pr.id) (nid "group" pg.2) "IN_GROUP" [],
           { s2.2 with project := sadd s2.2.project pr.id })) s

/-- One BFS hop: the four expansions against the current frontier, producing
the next frontier from an empty one. -/
def expandHop (db : Store) (mn me : Nat) (s : GState × Frontier) : GState × Frontier :=
  let fr := s.2
  let s1 := projectExpansion db mn me fr.project (s.1, emptyFrontier)
  let s2 := taskExpansion db mn me fr.task s1
  let s3 := personExpansion db mn me fr.person s2
  groupExpansion db mn me fr.group s3

/-- The hop loop, `for _hop in range(1, max(0, degrees) + 1)`, with the two
early-termination checks. -/
def hopLoop (db : Store) (mn me : Nat) : Nat → GState × Frontier → GState
  | 0, s => s.1
  | fuel + 1, s =>
    if s.2.isEmptyAll then s.1
    else if mn ≤ s.1.seenNodes.length ∨ me ≤ s.1.seenEdges.length then s.1
    else hopLoop db mn me fuel (expandHop db mn me s)

/-- Python `i.split("_", 1)[1]` followed by `int(...)` as used to recover the
numeric id from a canonical node id.  Node ids present in any builder state
always match `kind_digits`, so the `getD 0` default is never exercised there. -/
def idNum (s : String) : Nat :=
  match breakAtUnderscore s.data with
  | some (_, post) => pyIntChars post
  | none => 0

/-- Python `set.add` on a string set modelled as a duplicate-free list. -/
def saddStr (s : List String) (x : String) : List String := if x ∈ s then s else s ++ [x]

/-- `defaultdict(set)` insertion keyed by strings. -/
def dinsertStr (m : List (String × List String)) (k v : String) : List (String × List String) :=
  match m with
  | [] => [(k, [v])]
  | (k1, vs) :: rest =>
      if k1 = k then (k1, saddStr vs v) :: rest else (k1, vs) :: dinsertStr rest k v

/-- `task_people`: for present tasks, the present person-node ids of their
assignees. -/
def subTaskPeople (db : Store) (present : List String) : List (String × List String) :=
  let tIds := (present.filter (fun i => pyStartsWith i "task_")).map idNum
  (db.taskAssignees.filter (fun a => decide (a.taskId ∈ tIds))).foldl (fun m a =>
    let pid := nid "person" a.personId
    let tid := nid "task" a.taskId
    if pid ∈ present ∧ tid ∈ present then dinsertStr m tid pid else m) []

/-- `proj_leads`: for present projects, the present person-node ids of their
leads. -/
def subProjLeads (db : Store) (present : List String) : List (String × List String) :=
  let prIds := (present.filter (fun i => pyStartsWith i "project_")).map idNum
  (db.projectLeads.filter (fun pl => decide (pl.projectId ∈ prIds))).foldl (fun m pl =>
    let pid := nid "person" pl.personId
    let prid := nid "project" pl.projectId
    if pid ∈ present ∧ prid ∈ present then dinsertStr m prid pid else m) []

/-- Lexicographic (code-point) strict order on strings, as used by Python
`sorted` on a set of node-id strings. -/
def charListLt : List Char → List Char → Bool
  | [], [] => false
  | [], _ :: _ => true
  | _ :: _, [] => false
  | a :: as, b :: bs => if a < b then true else if b < a then false else charListLt as bs

def insStr (x : String) : List String → List String
  | [] => [x]
  | y :: ys => if charListLt y.data x.data then y :: insStr x ys else x :: y :: ys

def sortStr (l : List String) : List String := l.foldr insStr []

/-- Both-directions collaboration emission for one pair (subgraph builder). -/
def subCollabStep (me : Nat) (etype : String) (s : GState) (a b : String) : GState :=
  addEdgeSub me (addEdgeSub me s a b etype []) b a etype []

/-- The optional collaboration post-pass, restricted to present node ids. -/
def collabPass (db : Store) (me : Nat) (includeCollab : Bool) (st : GState) : GState :=
  if includeCollab ∧ st.nodeIds ≠ [] then
    let present := st.nodeIds
    let st1 := (subTaskPeople db present).foldl (fun s entry =>
      foldPairs (subCollabStep me "COLLAB:TASK") s (sortStr entry.2)) st
    (subProjLeads db present).foldl (fun s entry =>
      foldPairs (subCollabStep me "COLLAB:PROJECT") s (sortStr entry.2)) st1
  else st

/-- `get_entity_subgraph`.  `degrees` is an `Int` because the Python function
accepts any int and clamps with `max(0, degrees)`; the budgets are the
non-negative ints of the documented interface.  The empty-frontier early
return happens before any store access. -/
def getEntitySubgraph (db : Store) (centers : List String) (degrees : Int)
    (maxNodes maxEdges : Nat) (includeCollab : Bool) : GState :=
  let fr := seedFrontier centers
  if fr.isEmptyAll then emptyG
  else
    let st := materializeCenters db maxNodes fr emptyG
    let st := hopLoop db maxNodes maxEdges (max 0 degrees).toNat (st, fr)
    collabPass db maxEdges includeCollab st

/-! ### Decimal rendering / parsing facts -/

theorem digitVal_dChar (d : Nat) (h : d < 10) : digitVal (dChar d) = d := by
  interval_cases d <;> decide

theorem pyIntChars_append (l : List Char) (c : Char) :
    pyIntChars (l ++ [c]) = pyIntChars l * 10 + digitVal c := by
  simp [pyIntChars, List.foldl_append]

theorem pyIntChars_digitsRevAux :
    ∀ n f : Nat, n ≤ f → pyIntChars (digitsRevAux f n).reverse = n := by
  intro n
  induction n using Nat.strong_induction_on with
  | _ n ih =>
    intro f hf
    match f with
    | 0 =>
      have hn : n = 0 := Nat.le_zero.mp hf
      subst hn
      simp [digitsRevAux, pyIntChars]
    | f + 1 =>
      by_cases h0 : n = 0
      · subst h0
        simp [digitsRevAux, pyIntChars]
      · have hlt : n / 10 < n := Nat.div_lt_self (Nat.pos_of_ne_zero h0) (by decide)
        have hf2 : n / 10 ≤ f := by omega
        rw [digitsRevAux, if_neg h0, List.reverse_cons, pyIntChars_append,
          ih (n / 10) hlt f hf2, digitVal_dChar (n % 10) (Nat.mod_lt n (by decide))]
        omega

theorem pyIntChars_pyStr (n : Nat) : pyIntChars (pyStr n).data = n := by
  by_cases h : n = 0
  · subst h
    rfl
  · rw [pyStr, if_neg h]
    exact pyIntChars_digitsRevAux n n le_rfl

theorem pyStr_data_inj {a b : Nat} (h : (pyStr a).data = (pyStr b).data) : a = b := by
  have h2 := congrArg pyIntChars h
  rwa [pyIntChars_pyStr, pyIntChars_pyStr] at h2

theorem nid_data (k : String) (i : Nat) :
    (nid k i).data = k.data ++ '_' :: (pyStr i).data := by
  simp [nid, String.data_append]

theorem nid_inj_num {k : String} {a b : Nat} (h : nid k a = nid k b) : a = b := by
  have hd := congrArg String.data h
  rw [nid_data, nid_data] at hd
  have h2 := List.append_cancel_left hd
  exact pyStr_data_inj (by injection h2)

theorem breakAtUnderscore_append (l r : List Char) (hl : '_' ∉ l) :
    breakAtUnderscore (l ++ '_' :: r) = some (l, r) := by
  induction l with
  | nil => rfl
  | cons c cs ih =>
    have hc : ¬ c = '_' := fun h => hl (h ▸ List.mem_cons_self c cs)
    have ih2 := ih (fun h => hl (List.mem_cons_of_mem c h))
    simp [breakAtUnderscore, hc, ih2]

theorem nid_inj_kind {k1 k2 : String} (h1 : '_' ∉ k1.data) (h2 : '_' ∉ k2.data)
    {a b : Nat} (h : nid k1 a = nid k2 b) : k1.data = k2.data ∧ a = b := by
  have hd := congrArg String.data h
  rw [nid_data, nid_data] at hd
  have e1 := breakAtUnderscore_append k1.data (pyStr a).data h1
  have e2 := breakAtUnderscore_append k2.data (pyStr b).data h2
  rw [hd, e2] at e1
  have e3 : k2.data = k1.data ∧ (pyStr b).data = (pyStr a).data := by
    injection e1 with e1
    exact ⟨congrArg Prod.fst e1, congrArg Prod.snd e1⟩
  exact ⟨e3.1.symm, (pyStr_data_inj e3.2).symm⟩

/-- Global injectivity of the seen-key to rendered-key map used by the
node dedup argument. -/
theorem nidKey_inj : Function.Injective (fun p : String × Nat => (p.1, nid p.1 p.2)) := by
  intro p q h
  have h0 : (p.1, nid p.1 p.2) = (q.1, nid q.1 q.2) := h
  rw [Prod.mk.injEq] at h0
  obtain ⟨h1, h2⟩ := h0
  rw [h1] at h2
  exact Prod.ext h1 (nid_inj_num h2)

theorem idNum_nid {k : String} (hk : '_' ∉ k.data) (i : Nat) : idNum (nid k i) = i := by
  simp only [idNum, nid_data, breakAtUnderscore_append k.data (pyStr i).data hk]
  exact pyIntChars_pyStr i

theorem no_underscore_person : '_' ∉ "person".data := by decide

theorem no_underscore_project : '_' ∉ "project".data := by decide

theorem no_underscore_task : '_' ∉ "task".data := by decide

theorem no_underscore_group : '_' ∉ "group".data := by decide

theorem isPrefixOf_append_self (l r : List Char) : l.isPrefixOf (l ++ r) = true := by
  induction l with
  | nil => simp [List.isPrefixOf]
  | cons c cs ih => simp [List.isPrefixOf, ih]

theorem startsWith_task_nid (i : Nat) : pyStartsWith (nid "task" i) "task_" = true := by
  have h : (nid "task" i).data = "task_".data ++ (pyStr i).data := by rw [nid_data]; rfl
  rw [pyStartsWith, h]
  exact isPrefixOf_append_self _ _

theorem startsWith_project_nid (i : Nat) :
    pyStartsWith (nid "project" i) "project_" = true := by
  have h : (nid "project" i).data = "project_".data ++ (pyStr i).data := by rw [nid_data]; rfl
  rw [pyStartsWith, h]
  exact isPrefixOf_append_self _ _

theorem startsWith_task_person (i : Nat) :
    pyStartsWith (nid "person" i) "task_" = false := by
  rw [pyStartsWith, nid_data]
  rfl

theorem startsWith_task_project (i : Nat) :
    pyStartsWith (nid "project" i) "task_" = false := by
  rw [pyStartsWith, nid_data]
  rfl

theorem startsWith_task_group (i : Nat) :
    pyStartsWith (nid "group" i) "task_" = false := by
  rw [pyStartsWith, nid_data]
  rfl

theorem startsWith_project_person (i : Nat) :
    pyStartsWith (nid "person" i) "project_" = false := by
  rw [pyStartsWith, nid_data]
  rfl

theorem startsWith_project_task (i : Nat) :
    pyStartsWith (nid "task" i) "project_" = false := by
  rw [pyStartsWith, nid_data]
  rfl

theorem startsWith_project_group (i : Nat) :
    pyStartsWith (nid "group" i) "project_" = false := by
  rw [pyStartsWith, nid_data]
  rfl

/-- The parser only produces the four singular kinds. -/
theorem parseNodeId_kind {t : String} {k : String} {i : Nat}
    (h : parseNodeId t = some (k, i)) :
    k = "person" ∨ k = "project" ∨ k = "task" ∨ k = "group" := by
  unfold parseNodeId at h
  cases hb : breakAtUnderscore (pyStrip t).data with
  | none => rw [hb] at h; cases h
  | some pr =>
    obtain ⟨pre, post⟩ := pr
    rw [hb] at h
    dsimp only at h
    split at h
    · rename_i hc
      have hk : toSingular (pyLower (String.mk pre)) = k := by
        injection h with h2
        exact congrArg Prod.fst h2
      have hmem := hc.1
      simp only [KIND_ALIASES, List.mem_cons, List.not_mem_nil, or_false] at hmem
      rcases hmem with h1 | h1 | h1 | h1 | h1 | h1 | h1 | h1 <;>
        (rw [h1] at hk; subst hk; decide)
    · cases h

/-! ### Append-only extension between builder states -/

structure Ext (a b : GState) : Prop where
  nodes : ∃ l, b.nodes = a.nodes ++ l
  edges : ∃ l, b.edges = a.edges ++ l
  seenNodes : ∃ l, b.seenNodes = a.seenNodes ++ l
  seenEdges : ∃ l, b.seenEdges = a.seenEdges ++ l
  nodeIds : ∃ l, b.nodeIds = a.nodeIds ++ l

theorem Ext.refl (a : GState) : Ext a a :=
  ⟨⟨[], by simp⟩, ⟨[], by simp⟩, ⟨[], by simp⟩, ⟨[], by simp⟩, ⟨[], by simp⟩⟩

theorem Ext.trans {a b c : GState} (h1 : Ext a b) (h2 : Ext b c) : Ext a c := by
  obtain ⟨⟨l1, e1⟩, ⟨l2, e2⟩, ⟨l3, e3⟩, ⟨l4, e4⟩, ⟨l5, e5⟩⟩ := h1
  obtain ⟨⟨m1, f1⟩, ⟨m2, f2⟩, ⟨m3, f3⟩, ⟨m4, f4⟩, ⟨m5, f5⟩⟩ := h2
  exact ⟨⟨l1 ++ m1, by rw [f1, e1, List.append_assoc]⟩,
         ⟨l2 ++ m2, by rw [f2, e2, List.append_assoc]⟩,
         ⟨l3 ++ m3, by rw [f3, e3, List.append_assoc]⟩,
         ⟨l4 ++ m4, by rw [f4, e4, List.append_assoc]⟩,
         ⟨l5 ++ m5, by rw [f5, e5, List.append_assoc]⟩⟩

theorem Ext.mem_edges {a b : GState} (h : Ext a b) {e : EdgeData} (he : e ∈ a.edges) :
    e ∈ b.edges := by
  obtain ⟨l, hl⟩ := h.edges
  rw [hl]
  exact List.mem_append_left l he

theorem Ext.mem_nodeIds {a b : GState} (h : Ext a b) {x : String} (hx : x ∈ a.nodeIds) :
    x ∈ b.nodeIds := by
  obtain ⟨l, hl⟩ := h.nodeIds
  rw [hl]
  exact List.mem_append_left l hx

theorem Ext.mem_seenNodes {a b : GState} (h : Ext a b) {k : String × Nat}
    (hk : k ∈ a.seenNodes) : k ∈ b.seenNodes := by
  obtain ⟨l, hl⟩ := h.seenNodes
  rw [hl]
  exact List.mem_append_left l hk

theorem Ext.len_edges {a b : GState} (h : Ext a b) : a.edges.length ≤ b.edges.length := by
  obtain ⟨l, hl⟩ := h.edges
  rw [hl, List.length_append]
  exact Nat.le_add_right _ _

theorem ext_addNodeNet (st : GState) (kind : String) (row : Row) :
    Ext st (addNodeNet st kind row) := by
  unfold addNodeNet
  split
  · exact Ext.refl st
  · exact ⟨⟨_, rfl⟩, ⟨[], by simp⟩, ⟨_, rfl⟩, ⟨[], by simp⟩, ⟨_, rfl⟩⟩

theorem ext_addEdgeNet (st : GState) (src dst ty : String) (m : List (String × String)) :
    Ext st (addEdgeNet st src dst ty m) := by
  unfold addEdgeNet
  split
  · exact Ext.refl st
  split
  · exact Ext.refl st
  · exact ⟨⟨[], by simp⟩, ⟨_, rfl⟩, ⟨[], by simp⟩, ⟨_, rfl⟩, ⟨[], by simp⟩⟩

theorem ext_addNodeSub (mn : Nat) (st : GState) (kind : String) (objId : Nat)
    (lb sb eb : Option String) : Ext st (addNodeSub mn st kind objId lb sb eb) := by
  unfold addNodeSub
  split
  · exact Ext.refl st
  split
  · exact Ext.refl st
  · exact ⟨⟨_, rfl⟩, ⟨[], by simp⟩, ⟨_, rfl⟩, ⟨[], by simp⟩, ⟨_, rfl⟩⟩

theorem ext_addEdgeSub (me : Nat) (st : GState) (src dst ty : String)
    (m : List (String × String)) : Ext st (addEdgeSub me st src dst ty m) := by
  unfold addEdgeSub
  split
  · exact Ext.refl st
  split
  · exact Ext.refl st
  split
  · exact Ext.refl st
  · exact ⟨⟨[], by simp⟩, ⟨_, rfl⟩, ⟨[], by simp⟩, ⟨_, rfl⟩, ⟨[], by simp⟩⟩

theorem ext_foldl {α : Type} (f : GState → α → GState) (hf : ∀ s x, Ext s (f s x)) :
    ∀ (xs : List α) (s : GState), Ext s (xs.foldl f s) := by
  intro xs
  induction xs with
  | nil => intro s; exact Ext.refl s
  | cons x rest ih => intro s; exact (hf s x).trans (ih (f s x))

theorem ext_foldl_fst {α : Type} (f : GState × Frontier → α → GState × Frontier)
    (hf : ∀ s x, Ext s.1 (f s x).1) :
    ∀ (xs : List α) (s : GState × Frontier), Ext s.1 (xs.foldl f s).1 := by
  intro xs
  induction xs with
  | nil => intro s; exact Ext.refl s.1
  | cons x rest ih => intro s; exact (hf s x).trans (ih (f s x))

theorem ext_foldPairs {α : Type} (f : GState → α → α → GState)
    (hf : ∀ s a b, Ext s (f s a b)) :
    ∀ (xs : List α) (s : GState), Ext s (foldPairs f s xs) := by
  intro xs
  induction xs with
  | nil => intro s; exact Ext.refl s
  | cons a rest ih =>
    intro s
    exact (ext_foldl (fun s b => f s a b) (fun s b => hf s a b) rest s).trans (ih _)

/-! ### The structural invariant shared by both builders -/

/-- Correspondences between the output arrays and the seen-sets, plus the two
target invariants (dedup of both seen-sets, referential closure). -/
structure StInv (st : GState) : Prop where
  idsEq : st.nodeIds = st.nodes.map (fun n => n.id)
  nodesCorr : st.nodes.map (fun n => (n.type, n.id)) =
    st.seenNodes.map (fun p => (p.1, nid p.1 p.2))
  seenNodesNodup : st.seenNodes.Nodup
  edgesCorr : st.seenEdges = st.edges.map (fun e => (e.source, e.target, e.type))
  seenEdgesNodup : st.seenEdges.Nodup
  closed : ∀ e ∈ st.edges, e.source ∈ st.nodeIds ∧ e.target ∈ st.nodeIds

theorem stInv_empty : StInv emptyG :=
  ⟨rfl, rfl, List.nodup_nil, rfl, List.nodup_nil, by intro e he; cases he⟩

theorem nodup_append_singleton {α : Type} {l : List α} {x : α}
    (h : l.Nodup) (hx : x ∉ l) : (l ++ [x]).Nodup := by
  simp [List.nodup_append, h, hx]

theorem stInv_addNodeSub (mn : Nat) (st : GState) (kind : String) (objId : Nat)
    (lb sb eb : Option String) (h : StInv st) :
    StInv (addNodeSub mn st kind objId lb sb eb) := by
  unfold addNodeSub
  split
  · exact h
  split
  · exact h
  rename_i hseen
  constructor
  · simp [List.map_append, h.idsEq]
  · simp [List.map_append, h.nodesCorr]
  · exact nodup_append_singleton h.seenNodesNodup hseen
  · simp [h.edgesCorr]
  · exact h.seenEdgesNodup
  · intro e he
    obtain ⟨h1, h2⟩ := h.closed e he
    exact ⟨List.mem_append_left _ h1, List.mem_append_left _ h2⟩

theorem stInv_addNodeNet_aux {st : GState} {kind : String} {row : Row} (nd : NodeData)
    (h : StInv st)
    (hdata : netNodeData kind row (nid kind (rowId row)) = [nd])
    (htype : nd.type = kind) (hid : nd.id = nid kind (rowId row)) :
    StInv (addNodeNet st kind row) := by
  unfold addNodeNet
  split
  · exact h
  rename_i hseen
  constructor
  · simp [hdata, List.map_append, h.idsEq, hid]
  · simp [hdata, List.map_append, h.nodesCorr, htype, hid]
  · exact nodup_append_singleton h.seenNodesNodup hseen
  · simp [h.edgesCorr]
  · exact h.seenEdgesNodup
  · intro e he
    obtain ⟨h1, h2⟩ := h.closed e he
    exact ⟨List.mem_append_left _ h1, List.mem_append_left _ h2⟩

theorem stInv_addNodeNet_person (st : GState) (p : Person) (h : StInv st) :
    StInv (addNodeNet st "person" (Row.person p)) :=
  stInv_addNodeNet_aux _ h rfl rfl rfl

theorem stInv_addNodeNet_project (st : GState) (pr : Project) (h : StInv st) :
    StInv (addNodeNet st "project" (Row.project pr)) :=
  stInv_addNodeNet_aux _ h rfl rfl rfl

theorem stInv_addNodeNet_task (st : GState) (t : Task) (h : StInv st) :
    StInv (addNodeNet st "task" (Row.task t)) :=
  stInv_addNodeNet_aux _ h rfl rfl rfl

theorem stInv_addNodeNet_group (st : GState) (g : Group) (h : StInv st) :
    StInv (addNodeNet st "group" (Row.group g)) :=
  stInv_addNodeNet_aux _ h rfl rfl rfl

theorem stInv_addEdgeNet (st : GState) (src dst ty : String) (m : List (String × String))
    (h : StInv st) : StInv (addEdgeNet st src dst ty m) := by
  unfold addEdgeNet
  split
  · exact h
  split
  · exact h
  rename_i hends hseen
  rw [not_or, not_not, not_not] at hends
  constructor
  · exact h.idsEq
  · exact h.nodesCorr
  · exact h.seenNodesNodup
  · simp [List.map_append, h.edgesCorr]
  · exact nodup_append_singleton h.seenEdgesNodup hseen
  · intro e he
    rcases List.mem_append.mp he with h1 | h1
    · exact h.closed e h1
    · rcases List.mem_singleton.mp h1 with rfl
      exact hends

theorem stInv_addEdgeSub (me : Nat) (st : GState) (src dst ty : String)
    (m : List (String × String)) (h : StInv st) :
    StInv (addEdgeSub me st src dst ty m) := by
  unfold addEdgeSub
  split
  · exact h
  split
  · exact h
  split
  · exact h
  rename_i hcap hends hseen
  rw [not_or, not_not, not_not] at hends
  constructor
  · exact h.idsEq
  · exact h.nodesCorr
  · exact h.seenNodesNodup
  · simp [List.map_append, h.edgesCorr]
  · exact nodup_append_singleton h.seenEdgesNodup hseen
  · intro e he
    rcases List.mem_append.mp he with h1 | h1
    · exact h.closed e h1
    · rcases List.mem_singleton.mp h1 with rfl
      exact hends

/-! ### Budget invariant for the subgraph builder -/

def CapInv (mn me : Nat) (st : GState) : Prop :=
  st.seenNodes.length ≤ mn ∧ st.seenEdges.length ≤ me

theorem capInv_empty (mn me : Nat) : CapInv mn me emptyG :=
  ⟨Nat.zero_le mn, Nat.zero_le me⟩

theorem capInv_addNodeSub (mn me : Nat) (st : GState) (kind : String) (objId : Nat)
    (lb sb eb : Option String) (h : CapInv mn me st) :
    CapInv mn me (addNodeSub mn st kind objId lb sb eb) := by
  unfold addNodeSub
  split
  · exact h
  split
  · exact h
  rename_i hcap hseen
  refine ⟨?_, h.2⟩
  simp only [List.length_append, List.length_singleton]
  omega

theorem capInv_addEdgeSub (mn me : Nat) (st : GState) (src dst ty : String)
    (m : List (String × String)) (h : CapInv mn me st) :
    CapInv mn me (addEdgeSub me st src dst ty m) := by
  unfold addEdgeSub
  split
  · exact h
  split
  · exact h
  split
  · exact h
  rename_i hcap hends hseen
  refine ⟨h.1, ?_⟩
  simp only [List.length_append, List.length_singleton]
  omega

/-- The combined invariant carried through the subgraph builder. -/
def SubInv (mn me : Nat) (st : GState) : Prop := StInv st ∧ CapInv mn me st

theorem subInv_empty (mn me : Nat) : SubInv mn me emptyG := ⟨stInv_empty, capInv_empty mn me⟩

theorem subInv_addNodeSub (mn me : Nat) (st : GState) (kind : String) (objId : Nat)
    (lb sb eb : Option String) (h : SubInv mn me st) :
    SubInv mn me (addNodeSub mn st kind objId lb sb eb) :=
  ⟨stInv_addNodeSub mn st kind objId lb sb eb h.1,
   capInv_addNodeSub mn me st kind objId lb sb eb h.2⟩

theorem subInv_addEdgeSub (mn me : Nat) (st : GState) (src dst ty : String)
    (m : List (String × String)) (h : SubInv mn me st) :
    SubInv mn me (addEdgeSub me st src dst ty m) :=
  ⟨stInv_addEdgeSub me st src dst ty m h.1,
   capInv_addEdgeSub mn me st src dst ty m h.2⟩

/-- The node-then-edge composite used by every expansion step. -/
theorem subInv_addPair (mn me : Nat) (st : GState) (kind : String) (objId : Nat)
    (lb sb eb : Option String) (src dst ty : String) (m : List (String × String))
    (h : SubInv mn me st) :
    SubInv mn me (addEdgeSub me (addNodeSub mn st kind objId lb sb eb) src dst ty m) :=
  subInv_addEdgeSub mn me _ src dst ty m (subInv_addNodeSub mn me st kind objId lb sb eb h)

theorem ext_addPair (mn me : Nat) (st : GState) (kind : String) (objId : Nat)
    (lb sb eb : Option String) (src dst ty : String) (m : List (String × String)) :
    Ext st (addEdgeSub me (addNodeSub mn st kind objId lb sb eb) src dst ty m) :=
  (ext_addNodeSub mn st kind objId lb sb eb).trans (ext_addEdgeSub me _ src dst ty m)

/-! ### Generic fold preservation -/

theorem foldl_pres {α : Type} {P : GState → Prop} (f : GState → α → GState)
    (hf : ∀ s x, P s → P (f s x)) :
    ∀ (xs : List α) (s : GState), P s → P (xs.foldl f s) := by
  intro xs
  induction xs with
  | nil => intro s hs; exact hs
  | cons x rest ih => intro s hs; exact ih (f s x) (hf s x hs)

theorem foldl_pres_fst {α : Type} {P : GState → Prop}
    (f : GState × Frontier → α → GState × Frontier)
    (hf : ∀ s x, P s.1 → P (f s x).1) :
    ∀ (xs : List α) (s : GState × Frontier), P s.1 → P (xs.foldl f s).1 := by
  intro xs
  induction xs with
  | nil => intro s hs; exact hs
  | cons x rest ih => intro s hs; exact ih (f s x) (hf s x hs)

theorem foldPairs_pres {α : Type} {P : GState → Prop} (f : GState → α → α → GState)
    (hf : ∀ s a b, P s → P (f s a b)) :
    ∀ (xs : List α) (s : GState), P s → P (foldPairs f s xs) := by
  intro xs
  induction xs with
  | nil => intro s hs; exact hs
  | cons a rest ih =>
    intro s hs
    exact ih _ (foldl_pres (fun s b => f s a b) (fun s b => hf s a b) rest s hs)

/-- Edge adders leave the node-side fields untouched. -/
theorem addEdgeSub_nodesSide (me : Nat) (st : GState) (src dst ty : String)
    (m : List (String × String)) :
    (addEdgeSub me st src dst ty m).nodes = st.nodes ∧
    (addEdgeSub me st src dst ty m).nodeIds = st.nodeIds ∧
    (addEdgeSub me st src dst ty m).seenNodes = st.seenNodes := by
  unfold addEdgeSub
  split
  · exact ⟨rfl, rfl, rfl⟩
  split
  · exact ⟨rfl, rfl, rfl⟩
  split
  · exact ⟨rfl, rfl, rfl⟩
  · exact ⟨rfl, rfl, rfl⟩

theorem addEdgeNet_nodesSide (st : GState) (src dst ty : String)
    (m : List (String × String)) :
    (addEdgeNet st src dst ty m).nodes = st.nodes ∧
    (addEdgeNet st src dst ty m).nodeIds = st.nodeIds ∧
    (addEdgeNet st src dst ty m).seenNodes = st.seenNodes := by
  unfold addEdgeNet
  split
  · exact ⟨rfl, rfl, rfl⟩
  split
  · exact ⟨rfl, rfl, rfl⟩
  · exact ⟨rfl, rfl, rfl⟩

/-! ### Invariant and extension lemmas for the full materializer phases -/

theorem stInv_netNodesPhase (db : Store) (st : GState) (h : StInv st) :
    StInv (netNodesPhase db st) := by
  unfold netNodesPhase
  exact foldl_pres _ (fun s g hs => stInv_addNodeNet_group s g hs) _ _
    (foldl_pres _ (fun s t hs => stInv_addNodeNet_task s t hs) _ _
      (foldl_pres _ (fun s pr hs => stInv_addNodeNet_project s pr hs) _ _
        (foldl_pres _ (fun s p hs => stInv_addNodeNet_person s p hs) _ _ h)))

theorem stInv_netRelEdges (db : Store) (st : GState) (h : StInv st) :
    StInv (netRelEdges db st) := by
  unfold netRelEdges
  refine foldl_pres _ ?_ _ st h
  intro s r hs
  split
  · exact stInv_addEdgeNet _ _ _ _ _ hs
  · exact hs

theorem stInv_netLeadEdges (db : Store) (st : GState) (h : StInv st) :
    StInv (netLeadEdges db st) := by
  unfold netLeadEdges
  refine foldl_pres _ ?_ _ st h
  intro s pl hs
  split
  · exact stInv_addEdgeNet _ _ _ _ _ hs
  · exact hs

theorem stInv_netTaskEdges (db : Store) (st : GState) (h : StInv st) :
    StInv (netTaskEdges db st) := by
  unfold netTaskEdges
  refine foldl_pres _ ?_ _ st h
  intro s t hs
  refine foldl_pres _ ?_ _ _ ?_
  · intro s2 ta hs2
    split
    · exact stInv_addEdgeNet _ _ _ _ _ hs2
    · exact hs2
  · cases t.projectId with
    | none => exact hs
    | some pid =>
      dsimp only
      split
      · exact stInv_addEdgeNet _ _ _ _ _ hs
      · exact hs

theorem stInv_netMemberEdges (db : Store) (st : GState) (h : StInv st) :
    StInv (netMemberEdges db st) := by
  unfold netMemberEdges
  refine foldl_pres _ ?_ _ st h
  intro s pg hs
  split
  · exact stInv_addEdgeNet _ _ _ _ _ hs
  · exact hs

theorem stInv_netProjGroupEdges (db : Store) (st : GState) (h : StInv st) :
    StInv (netProjGroupEdges db st) := by
  unfold netProjGroupEdges
  refine foldl_pres _ ?_ _ st h
  intro s pg hs
  split
  · exact stInv_addEdgeNet _ _ _ _ _ hs
  · exact hs

theorem stInv_netCollabStep (ty : String) (s : GState) (a b : Nat) (h : StInv s) :
    StInv (netCollabStep ty s a b) :=
  stInv_addEdgeNet _ _ _ _ _ (stInv_addEdgeNet _ _ _ _ _ h)

theorem stInv_netCollabTask (db : Store) (st : GState) (h : StInv st) :
    StInv (netCollabTask db st) := by
  unfold netCollabTask
  refine foldl_pres _ ?_ _ st h
  intro s entry hs
  exact foldPairs_pres _ (fun s2 a b hs2 => stInv_netCollabStep _ s2 a b hs2) _ s hs

theorem stInv_netCollabProject (db : Store) (st : GState) (h : StInv st) :
    StInv (netCollabProject db st) := by
  unfold netCollabProject
  refine foldl_pres _ ?_ _ st h
  intro s entry hs
  exact foldPairs_pres _ (fun s2 a b hs2 => stInv_netCollabStep _ s2 a b hs2) _ s hs

theorem stInv_getGraphNetwork (db : Store) : StInv (getGraphNetwork db) := by
  unfold getGraphNetwork
  exact stInv_netCollabProject db _ (stInv_netCollabTask db _ (stInv_netProjGroupEdges db _
    (stInv_netMemberEdges db _ (stInv_netTaskEdges db _ (stInv_netLeadEdges db _
      (stInv_netRelEdges db _ (stInv_netNodesPhase db _ stInv_empty)))))))

theorem ext_netNodesPhase (db : Store) (st : GState) : Ext st (netNodesPhase db st) := by
  unfold netNodesPhase
  exact ((((ext_foldl _ (fun s p => ext_addNodeNet s "person" (Row.person p)) _ st).trans
    (ext_foldl _ (fun s pr => ext_addNodeNet s "project" (Row.project pr)) _ _)).trans
      (ext_foldl _ (fun s t => ext_addNodeNet s "task" (Row.task t)) _ _)).trans
        (ext_foldl _ (fun s g => ext_addNodeNet s "group" (Row.group g)) _ _))

theorem ext_ite (st b : GState) (c : Prop) [Decidable c] (hf : Ext st b) :
    Ext st (if c then b else st) := by
  split
  · exact hf
  · exact Ext.refl st

theorem ext_netRelEdges (db : Store) (st : GState) : Ext st (netRelEdges db st) := by
  unfold netRelEdges
  refine ext_foldl _ ?_ _ st
  intro s r
  exact ext_ite s _ _ (ext_addEdgeNet s _ _ _ _)

theorem ext_netLeadEdges (db : Store) (st : GState) : Ext st (netLeadEdges db st) := by
  unfold netLeadEdges
  refine ext_foldl _ ?_ _ st
  intro s pl
  exact ext_ite s _ _ (ext_addEdgeNet s _ _ _ _)

theorem ext_netTaskEdges (db : Store) (st : GState) : Ext st (netTaskEdges db st) := by
  unfold netTaskEdges
  refine ext_foldl _ ?_ _ st
  intro s t
  refine Ext.trans (b := match t.projectId with
    | some pid =>
        if pid ≠ 0 ∧ pid ∈ projectIds db then
          addEdgeNet s (nid "task" t.id) (nid "project" pid) "PART_OF" []
        else s
    | none => s) ?_ ?_
  · cases t.projectId with
    | none => exact Ext.refl s
    | some pid =>
      dsimp only
      exact ext_ite s _ _ (ext_addEdgeNet s _ _ _ _)
  · refine ext_foldl _ ?_ _ _
    intro s2 ta
    exact ext_ite s2 _ _ (ext_addEdgeNet s2 _ _ _ _)

theorem ext_netMemberEdges (db : Store) (st : GState) : Ext st (netMemberEdges db st) := by
  unfold netMemberEdges
  refine ext_foldl _ ?_ _ st
  intro s pg
  exact ext_ite s _ _ (ext_addEdgeNet s _ _ _ _)

theorem ext_netProjGroupEdges (db : Store) (st : GState) :
    Ext st (netProjGroupEdges db st) := by
  unfold netProjGroupEdges
  refine ext_foldl _ ?_ _ st
  intro s pg
  exact ext_ite s _ _ (ext_addEdgeNet s _ _ _ _)

theorem ext_netCollabStep (ty : String) (s : GState) (a b : Nat) :
    Ext s (netCollabStep ty s a b) :=
  (ext_addEdgeNet s _ _ _ _).trans (ext_addEdgeNet _ _ _ _ _)

theorem ext_netCollabTask (db : Store) (st : GState) : Ext st (netCollabTask db st) := by
  unfold netCollabTask
  refine ext_foldl _ ?_ _ st
  intro s entry
  exact ext_foldPairs _ (fun s2 a b => ext_netCollabStep _ s2 a b) _ s

theorem ext_netCollabProject (db : Store) (st : GState) :
    Ext st (netCollabProject db st) := by
  unfold netCollabProject
  refine ext_foldl _ ?_ _ st
  intro s entry
  exact ext_foldPairs _ (fun s2 a b => ext_netCollabStep _ s2 a b) _ s

/-! ### Invariant and extension lemmas for the subgraph phases -/

theorem subInv_materializeCenters (db : Store) (mn me : Nat) (fr : Frontier) (st : GState)
    (h : SubInv mn me st) : SubInv mn me (materializeCenters db mn fr st) := by
  unfold materializeCenters
  exact foldl_pres _ (fun s g hs => subInv_addNodeSub mn me s _ _ _ _ _ hs) _ _
    (foldl_pres _ (fun s p hs => subInv_addNodeSub mn me s _ _ _ _ _ hs) _ _
      (foldl_pres _ (fun s t hs => subInv_addNodeSub mn me s _ _ _ _ _ hs) _ _
        (foldl_pres _ (fun s pr hs => subInv_addNodeSub mn me s _ _ _ _ _ hs) _ _ h)))

theorem subInv_projectExpansion (db : Store) (mn me : Nat) (projIds : List Nat)
    (s : GState × Frontier) (h : SubInv mn me s.1) :
    SubInv mn me (projectExpansion db mn me projIds s).1 := by
  unfold projectExpansion
  refine foldl_pres_fst _ ?_ _ _ (foldl_pres_fst _ ?_ _ _ (foldl_pres_fst _ ?_ _ _ h))
  · intro s2 pg hs2
    cases groupById db pg.2 with
    | none => exact hs2
    | some g => exact subInv_addPair mn me _ _ _ _ _ _ _ _ _ _ hs2
  · intro s2 pl hs2
    cases personById db pl.personId with
    | none => exact hs2
    | some p => exact subInv_addPair mn me _ _ _ _ _ _ _ _ _ _ hs2
  · intro s2 t hs2
    cases t.projectId with
    | none => exact hs2
    | some pid => exact subInv_addPair mn me _ _ _ _ _ _ _ _ _ _ hs2

theorem subInv_taskExpansion (db : Store) (mn me : Nat) (tIds : List Nat)
    (s : GState × Frontier) (h : SubInv mn me s.1) :
    SubInv mn me (taskExpansion db mn me tIds s).1 := by
  unfold taskExpansion
  refine foldl_pres_fst _ ?_ _ _ (foldl_pres_fst _ ?_ _ _ (foldl_pres_fst _ ?_ _ _ h))
  · intro s2 a hs2
    cases personById db a.personId with
    | none => exact hs2
    | some p => exact subInv_addPair mn me _ _ _ _ _ _ _ _ _ _ hs2
  · intro s2 pl hs2
    cases personById db pl.personId with
    | none => exact hs2
    | some p => exact subInv_addPair mn me _ _ _ _ _ _ _ _ _ _ hs2
  · intro s2 kv hs2
    cases projectById db kv.2 with
    | none => exact hs2
    | some pr => exact subInv_addPair mn me _ _ _ _ _ _ _ _ _ _ hs2

theorem subInv_personExpansion (db : Store) (mn me : Nat) (pIds : List Nat)
    (s : GState × Frontier) (h : SubInv mn me s.1) :
    SubInv mn me (personExpansion db mn me pIds s).1 := by
  unfold personExpansion
  refine foldl_pres_fst _ ?_ _ _ (foldl_pres_fst _ ?_ _ _ (foldl_pres_fst _ ?_ _ _
    (foldl_pres_fst _ ?_ _ _ (foldl_pres_fst _ ?_ _ _ h))))
  · intro s2 a hs2
    cases taskById db a.taskId with
    | none => exact hs2
    | some t => exact subInv_addPair mn me _ _ _ _ _ _ _ _ _ _ hs2
  · intro s2 pl hs2
    cases projectById db pl.projectId with
    | none => exact hs2
    | some pr => exact subInv_addPair mn me _ _ _ _ _ _ _ _ _ _ hs2
  · intro s2 pg hs2
    cases groupById db pg.2 with
    | none => exact hs2
    | some g => exact subInv_addPair mn me _ _ _ _ _ _ _ _ _ _ hs2
  · intro s2 r hs2
    cases personById db r.fromPersonId with
    | none => exact hs2
    | some src => exact subInv_addPair mn me _ _ _ _ _ _ _ _ _ _ hs2
  · intro s2 r hs2
    cases personById db r.toPersonId with
    | none => exact hs2
    | some tgt => exact subInv_addPair mn me _ _ _ _ _ _ _ _ _ _ hs2

theorem subInv_groupExpansion (db : Store) (mn me : Nat) (gIds : List Nat)
    (s : GState × Frontier) (h : SubInv mn me s.1) :
    SubInv mn me (groupExpansion db mn me gIds s).1 := by
  unfold groupExpansion
  refine foldl_pres_fst _ ?_ _ _ (foldl_pres_fst _ ?_ _ _ h)
  · intro s2 pg hs2
    cases projectById db pg.1 with
    | none => exact hs2
    | some pr => exact subInv_addPair mn me _ _ _ _ _ _ _ _ _ _ hs2
  · intro s2 pg hs2
    cases personById db pg.1 with
    | none => exact hs2
    | some p => exact subInv_addPair mn me _ _ _ _ _ _ _ _ _ _ hs2

theorem subInv_expandHop (db : Store) (mn me : Nat) (s : GState × Frontier)
    (h : SubInv mn me s.1) : SubInv mn me (expandHop db mn me s).1 := by
  unfold expandHop
  exact subInv_groupExpansion db mn me _ _ (subInv_personExpansion db mn me _ _
    (subInv_taskExpansion db mn me _ _ (subInv_projectExpansion db mn me _ _ h)))

theorem subInv_hopLoop (db : Store) (mn me : Nat) :
    ∀ (fuel : Nat) (s : GState × Frontier), SubInv mn me s.1 →
      SubInv mn me (hopLoop db mn me fuel s) := by
  intro fuel
  induction fuel with
  | zero => intro s h; exact h
  | succ k ih =>
    intro s h
    unfold hopLoop
    split
    · exact h
    split
    · exact h
    · exact ih _ (subInv_expandHop db mn me s h)

theorem subInv_subCollabStep (mn me : Nat) (ty : String) (s : GState) (a b : String)
    (h : SubInv mn me s) : SubInv mn me (subCollabStep me ty s a b) :=
  subInv_addEdgeSub mn me _ _ _ _ _ (subInv_addEdgeSub mn me s _ _ _ _ h)

theorem subInv_collabPass (db : Store) (mn me : Nat) (ic : Bool) (st : GState)
    (h : SubInv mn me st) : SubInv mn me (collabPass db me ic st) := by
  unfold collabPass
  split
  · refine foldl_pres _ ?_ _ _ (foldl_pres _ ?_ _ _ h)
    · intro s entry hs
      exact foldPairs_pres _ (fun s2 a b hs2 => subInv_subCollabStep mn me _ s2 a b hs2) _ s hs
    · intro s entry hs
      exact foldPairs_pres _ (fun s2 a b hs2 => subInv_subCollabStep mn me _ s2 a b hs2) _ s hs
  · exact h

theorem subInv_getEntitySubgraph (db : Store) (centers : List String) (degrees : Int)
    (mn me : Nat) (ic : Bool) :
    SubInv mn me (getEntitySubgraph db centers degrees mn me ic) := by
  unfold getEntitySubgraph
  dsimp only
  split
  · exact subInv_empty mn me
  · exact subInv_collabPass db mn me ic _ (subInv_hopLoop db mn me _ _
      (subInv_materializeCenters db mn me _ _ (subInv_empty mn me)))

/-! ### Consequences of the invariants -/

theorem stInv_closed_in_nodes {st : GState} (h : StInv st) :
    ∀ e ∈ st.edges, e.source ∈ st.nodes.map (fun n => n.id) ∧
      e.target ∈ st.nodes.map (fun n => n.id) := by
  intro e he
  have h2 := h.closed e he
  rwa [h.idsEq] at h2

theorem stInv_nodeKeys_nodup {st : GState} (h : StInv st) :
    (st.nodes.map (fun n => (n.type, n.id))).Nodup := by
  rw [h.nodesCorr]
  exact h.seenNodesNodup.map nidKey_inj

theorem stInv_edgeKeys_nodup {st : GState} (h : StInv st) :
    (st.edges.map (fun e => (e.source, e.target, e.type))).Nodup := by
  rw [← h.edgesCorr]
  exact h.seenEdgesNodup

theorem stInv_nodes_length {st : GState} (h : StInv st) :
    st.nodes.length = st.seenNodes.length := by
  have h2 := congrArg List.length h.nodesCorr
  simpa using h2

theorem stInv_edges_length {st : GState} (h : StInv st) :
    st.edges.length = st.seenEdges.length := by
  have h2 := congrArg List.length h.edgesCorr
  simpa using h2.symm

/-! ### First-wins and budget no-op facts about the adders -/

theorem addNodeNet_seen (st : GState) (kind : String) (row : Row)
    (h : (kind, rowId row) ∈ st.seenNodes) : addNodeNet st kind row = st := by
  unfold addNodeNet
  rw [if_pos h]

theorem addNodeSub_seen (mn : Nat) (st : GState) (kind : String) (objId : Nat)
    (lb sb eb : Option String) (h : (kind, objId) ∈ st.seenNodes) :
    addNodeSub mn st kind objId lb sb eb = st := by
  unfold addNodeSub
  by_cases hcap : mn ≤ st.seenNodes.length
  · rw [if_pos hcap]
  · rw [if_neg hcap, if_pos h]

theorem addEdgeNet_seen (st : GState) (src dst ty : String) (m : List (String × String))
    (h : (src, dst, ty) ∈ st.seenEdges) : addEdgeNet st src dst ty m = st := by
  unfold addEdgeNet
  by_cases hep : src ∉ st.nodeIds ∨ dst ∉ st.nodeIds
  · rw [if_pos hep]
  · rw [if_neg hep, if_pos h]

theorem addEdgeSub_seen (me : Nat) (st : GState) (src dst ty : String)
    (m : List (String × String)) (h : (src, dst, ty) ∈ st.seenEdges) :
    addEdgeSub me st src dst ty m = st := by
  unfold addEdgeSub
  by_cases hcap : me ≤ st.seenEdges.length
  · rw [if_pos hcap]
  · by_cases hep : src ∉ st.nodeIds ∨ dst ∉ st.nodeIds
    · rw [if_neg hcap, if_pos hep]
    · rw [if_neg hcap, if_neg hep, if_pos h]

theorem addNodeSub_capped (mn : Nat) (st : GState) (kind : String) (objId : Nat)
    (lb sb eb : Option String) (h : mn ≤ st.seenNodes.length) :
    addNodeSub mn st kind objId lb sb eb = st := by
  unfold addNodeSub
  rw [if_pos h]

theorem addEdgeSub_capped (me : Nat) (st : GState) (src dst ty : String)
    (m : List (String × String)) (h : me ≤ st.seenEdges.length) :
    addEdgeSub me st src dst ty m = st := by
  unfold addEdgeSub
  rw [if_pos h]

/-! ### A concrete store used by the witnesses and counterexamples -/

/-- One project with two leads, a task with two assignees, a dangling task,
one group, one explicit person relation. -/
def exStore : Store :=
  { people := [⟨1, "Alice", some "a@x"⟩, ⟨2, "Bob", none⟩, ⟨3, "Cara", none⟩]
    projects := [⟨1, "Proj", some "started", some "d"⟩]
    tasks := [⟨1, "T1", some "started", none, some 1⟩, ⟨2, "T2", none, none, some 99⟩]
    groups := [⟨1, "G"⟩]
    personRelations := [⟨1, 2, some "manages"⟩]
    projectLeads := [⟨1, 1, some "Responsible"⟩, ⟨1, 2, some "Accountable"⟩]
    taskAssignees := [⟨1, 1, some "Responsible"⟩, ⟨1, 2, some "Accountable"⟩]
    personGroup := [(1, 1)]
    projectGroup := [(1, 1)] }

/-! ### Claim theorems -/

/-- Claim C1 (referential closure): in every graph produced by
`get_graph_network` and by `get_entity_subgraph`, every edge's source and
target id occurs among the ids of the returned node array. -/
theorem c1_referential_closure :
    (∀ db : Store, ∀ e ∈ (getGraphNetwork db).edges,
        e.source ∈ (getGraphNetwork db).nodes.map (fun n => n.id) ∧
        e.target ∈ (getGraphNetwork db).nodes.map (fun n => n.id)) ∧
    (∀ (db : Store) (centers : List String) (degrees : Int) (mn me : Nat) (ic : Bool),
        ∀ e ∈ (getEntitySubgraph db centers degrees mn me ic).edges,
          e.source ∈ (getEntitySubgraph db centers degrees mn me ic).nodes.map (fun n => n.id) ∧
          e.target ∈ (getEntitySubgraph db centers degrees mn me ic).nodes.map (fun n => n.id)) := by
  constructor
  · intro db
    exact stInv_closed_in_nodes (stInv_getGraphNetwork db)
  · intro db centers degrees mn me ic
    exact stInv_closed_in_nodes (subInv_getEntitySubgraph db centers degrees mn me ic).1

/-- Witness for C1: the `MANAGES` edge of the example store has both endpoints
among the produced node ids. -/
theorem c1_witness :
    (⟨"person_1", "person_2", "MANAGES", []⟩ : EdgeData) ∈ (getGraphNetwork exStore).edges ∧
    ("person_1" ∈ (getGraphNetwork exStore).nodes.map (fun n => n.id) ∧
     "person_2" ∈ (getGraphNetwork exStore).nodes.map (fun n => n.id)) :=
  ⟨by decide, c1_referential_closure.1 exStore ⟨"person_1", "person_2", "MANAGES", []⟩ (by decide)⟩

/-- Claim C2 (dedup closure): no two produced nodes share a `(kind, id)` key
and no two produced edges share a `(source, target, type)` key, in either
builder; a repeated key leaves the builder state unchanged, so the first
occurrence's rendered attributes and metadata are kept. -/
theorem c2_dedup_closure :
    (∀ db : Store,
        ((getGraphNetwork db).nodes.map (fun n => (n.type, n.id))).Nodup ∧
        ((getGraphNetwork db).edges.map (fun e => (e.source, e.target, e.type))).Nodup) ∧
    (∀ (db : Store) (centers : List String) (degrees : Int) (mn me : Nat) (ic : Bool),
        ((getEntitySubgraph db centers degrees mn me ic).nodes.map
          (fun n => (n.type, n.id))).Nodup ∧
        ((getEntitySubgraph db centers degrees mn me ic).edges.map
          (fun e => (e.source, e.target, e.type))).Nodup) ∧
    (∀ (st : GState) (kind : String) (row : Row),
        (kind, rowId row) ∈ st.seenNodes → addNodeNet st kind row = st) ∧
    (∀ (mn : Nat) (st : GState) (kind : String) (objId : Nat) (lb sb eb : Option String),
        (kind, objId) ∈ st.seenNodes → addNodeSub mn st kind objId lb sb eb = st) ∧
    (∀ (st : GState) (src dst ty : String) (m : List (String × String)),
        (src, dst, ty) ∈ st.seenEdges → addEdgeNet st src dst ty m = st) ∧
    (∀ (me : Nat) (st : GState) (src dst ty : String) (m : List (String × String)),
        (src, dst, ty) ∈ st.seenEdges → addEdgeSub me st src dst ty m = st) := by
  refine ⟨?_, ?_, addNodeNet_seen, addNodeSub_seen, addEdgeNet_seen, addEdgeSub_seen⟩
  · intro db
    exact ⟨stInv_nodeKeys_nodup (stInv_getGraphNetwork db),
           stInv_edgeKeys_nodup (stInv_getGraphNetwork db)⟩
  · intro db centers degrees mn me ic
    exact ⟨stInv_nodeKeys_nodup (subInv_getEntitySubgraph db centers degrees mn me ic).1,
           stInv_edgeKeys_nodup (subInv_getEntitySubgraph db centers degrees mn me ic).1⟩

/-- Witness for C2: re-adding an already-seen node key leaves the state (and
so the first occurrence's attributes) unchanged. -/
theorem c2_witness :
    ("person", rowId (Row.person ⟨1, "Other", none⟩)) ∈
      (⟨[], [], [("person", 1)], [], []⟩ : GState).seenNodes ∧
    addNodeNet ⟨[], [], [("person", 1)], [], []⟩ "person" (Row.person ⟨1, "Other", none⟩) =
      ⟨[], [], [("person", 1)], [], []⟩ :=
  ⟨by decide, c2_dedup_closure.2.2.1 ⟨[], [], [("person", 1)], [], []⟩ "person"
    (Row.person ⟨1, "Other", none⟩) (by decide)⟩

/-- Claim C3 (budget respect): the subgraph builder returns at most `maxNodes`
nodes and `maxEdges` edges, and once a cap is reached every further add is a
silent no-op. -/
theorem c3_budget_respect :
    (∀ (db : Store) (centers : List String) (degrees : Int) (mn me : Nat) (ic : Bool),
        (getEntitySubgraph db centers degrees mn me ic).nodes.length ≤ mn ∧
        (getEntitySubgraph db centers degrees mn me ic).edges.length ≤ me) ∧
    (∀ (mn : Nat) (st : GState) (kind : String) (objId : Nat) (lb sb eb : Option String),
        mn ≤ st.seenNodes.length → addNodeSub mn st kind objId lb sb eb = st) ∧
    (∀ (me : Nat) (st : GState) (src dst ty : String) (m : List (String × String)),
        me ≤ st.seenEdges.length → addEdgeSub me st src dst ty m = st) := by
  refine ⟨?_, addNodeSub_capped, addEdgeSub_capped⟩
  intro db centers degrees mn me ic
  obtain ⟨hst, hcap⟩ := subInv_getEntitySubgraph db centers degrees mn me ic
  constructor
  · rw [stInv_nodes_length hst]
    exact hcap.1
  · rw [stInv_edges_length hst]
    exact hcap.2

/-- Witness for C3: a zero node budget silently rejects an add, and the
example traversal respects concrete budgets. -/
theorem c3_witness :
    ((0 : Nat) ≤ emptyG.seenNodes.length ∧
      addNodeSub 0 emptyG "person" 1 none none none = emptyG) ∧
    ((getEntitySubgraph exStore ["project_1"] 2 3 2 true).nodes.length ≤ 3 ∧
      (getEntitySubgraph exStore ["project_1"] 2 3 2 true).edges.length ≤ 2) :=
  ⟨⟨by decide, c3_budget_respect.2.1 0 emptyG "person" 1 none none none (by decide)⟩,
   c3_budget_respect.1 exStore ["project_1"] 2 3 2 true⟩

/-- Helper for C7: if every center token fails the id grammar, the traversal
returns the empty state before touching the store. -/
theorem subgraph_all_invalid (db : Store) (centers : List String) (degrees : Int)
    (mn me : Nat) (ic : Bool) (h : ∀ t ∈ centers, parseNodeId t = none) :
    getEntitySubgraph db centers degrees mn me ic = emptyG := by
  have hseed : seedFrontier centers = emptyFrontier := by
    unfold seedFrontier
    have haux : ∀ (l : List String) (fr : Frontier), (∀ t ∈ l, parseNodeId t = none) →
        l.foldl (fun fr token =>
          match parseNodeId token with
          | none => fr
          | some (kind, i) =>
            if kind = "project" then { fr with project := sadd fr.project i }
            else if kind = "task" then { fr with task := sadd fr.task i }
            else if kind = "person" then { fr with person := sadd fr.person i }
            else if kind = "group" then { fr with group := sadd fr.group i }
            else fr) fr = fr := by
      intro l
      induction l with
      | nil => intro fr _; rfl
      | cons t rest ih =>
        intro fr hl
        have ht := hl t (List.mem_cons_self t rest)
        have hrest := fun x hx => hl x (List.mem_cons_of_mem t hx)
        simp only [List.foldl_cons, ht]
        exact ih fr hrest
    exact haux centers emptyFrontier h
  unfold getEntitySubgraph
  rw [hseed]
  rfl

/-- Claim C7 (invalid-center total safety): `get_entity_subgraph` with only
malformed center tokens returns the well-formed empty graph, independently of
the store (so before any store query), and never fails. -/
theorem c7_invalid_center_safety :
    (∀ (db : Store) (degrees : Int) (mn me : Nat) (ic : Bool),
        getEntitySubgraph db ["bogus"] degrees mn me ic = emptyG) ∧
    (∀ (db : Store) (centers : List String) (degrees : Int) (mn me : Nat) (ic : Bool),
        (∀ t ∈ centers, parseNodeId t = none) →
        getEntitySubgraph db centers degrees mn me ic = emptyG) := by
  constructor
  · intro db degrees mn me ic
    exact subgraph_all_invalid db ["bogus"] degrees mn me ic (by decide)
  · exact subgraph_all_invalid

/-- Witness for C7: a concrete all-invalid call returns the empty state. -/
theorem c7_witness :
    (∀ t ∈ ["bogus", "x y", "task_"], parseNodeId t = none) ∧
    getEntitySubgraph exStore ["bogus", "x y", "task_"] 2 5 5 false = emptyG :=
  ⟨by decide, c7_invalid_center_safety.2 exStore ["bogus", "x y", "task_"] 2 5 5 false (by decide)⟩

/-- Claim C9 (RACI normalization of recognized forms): each of `"r"`, `"R"`,
`"Responsible"`, `" responsible "` normalizes to `Responsible`, and the
edge-type suffix computed from the stored normalized role is `R`. -/
theorem c9_raci_recognized_forms :
    normalizeRaci (some "r") = "Responsible" ∧
    normalizeRaci (some "R") = "Responsible" ∧
    normalizeRaci (some "Responsible") = "Responsible" ∧
    normalizeRaci (some " responsible ") = "Responsible" ∧
    raciSuffix (some (normalizeRaci (some "r"))) = "R" ∧
    raciSuffix (some (normalizeRaci (some "R"))) = "R" ∧
    raciSuffix (some (normalizeRaci (some "Responsible"))) = "R" ∧
    raciSuffix (some (normalizeRaci (some " responsible "))) = "R" := by
  decide

/-- Claim C10 (negative degrees clamped): the hop count is `max(0, degrees)`,
so any negative `degrees` behaves exactly like `degrees = 0`, with no error. -/
theorem c10_negative_degrees_clamped :
    ∀ (db : Store) (centers : List String) (degrees : Int) (mn me : Nat) (ic : Bool),
      degrees ≤ 0 →
      getEntitySubgraph db centers degrees mn me ic =
        getEntitySubgraph db centers 0 mn me ic := by
  intro db centers degrees mn me ic hd
  unfold getEntitySubgraph
  have h0 : (max 0 degrees).toNat = (max 0 (0 : Int)).toNat := by
    rw [max_eq_left hd, max_self]
  rw [h0]

/-- Witness for C10: degrees `-3` gives the same result as degrees `0`. -/
theorem c10_witness :
    (-3 : Int) ≤ 0 ∧
    getEntitySubgraph exStore ["person_1"] (-3) 4 4 true =
      getEntitySubgraph exStore ["person_1"] 0 4 4 true :=
  ⟨by decide, c10_negative_degrees_clamped exStore ["person_1"] (-3) 4 4 true (by decide)⟩

/-! ### Claim C5: RACI default for unrecognized input -/

/-- Claim C5 counterexample: the claimed default `Responsible`/`R` is wrong —
an empty role normalizes to `Informed`, and an unrecognized non-empty role
(stored as its capitalized passthrough) yields the suffix of its own first
letter, not `R`. -/
theorem c5_counterexample :
    normalizeRaci (some "") ≠ "Responsible" ∧
    normalizeRaci none ≠ "Responsible" ∧
    raciSuffix (some (normalizeRaci (some "xyz"))) ≠ "R" := by
  decide

/-- Claim C5 amended: an empty or absent role normalizes to `Informed` (while
the raw edge-suffix fallback for an empty/absent stored role is `R`); an
unrecognized non-empty role is passed through capitalized (`"xyz"` stores
`"Xyz"`, whose edge suffix is `X`), except that a first letter in R/A/C/I is
re-interpreted as that code (`"chief"` normalizes to `Consulted`). -/
theorem c5_amended :
    (∀ r : Option String, (r = none ∨ r = some "") →
        normalizeRaci r = "Informed" ∧ raciSuffix r = "R") ∧
    normalizeRaci (some "xyz") = "Xyz" ∧
    raciSuffix (some "Xyz") = "X" ∧
    normalizeRaci (some "chief") = "Consulted" := by
  refine ⟨?_, by decide, by decide, by decide⟩
  intro r hr
  rcases hr with rfl | rfl
  · exact ⟨by decide, by decide⟩
  · exact ⟨by decide, by decide⟩

/-- Witness for the amended C5 at the absent role. -/
theorem c5_witness :
    ((none : Option String) = none ∨ (none : Option String) = some "") ∧
    (normalizeRaci none = "Informed" ∧ raciSuffix none = "R") :=
  ⟨Or.inl rfl, c5_amended.1 none (Or.inl rfl)⟩

/-! ### Helper lemmas for the degrees-0 analysis (claim C4) -/

theorem hopLoop_zero (db : Store) (mn me : Nat) (s : GState × Frontier) :
    hopLoop db mn me 0 s = s.1 := rfl

theorem fuel_of_zero : (max (0 : Int) 0).toNat = 0 := rfl

theorem addNodeSub_edges (mn : Nat) (st : GState) (kind : String) (objId : Nat)
    (lb sb eb : Option String) : (addNodeSub mn st kind objId lb sb eb).edges = st.edges := by
  unfold addNodeSub
  split
  · rfl
  split
  · rfl
  · rfl

theorem materializeCenters_edges (db : Store) (mn : Nat) (fr : Frontier) (st : GState) :
    (materializeCenters db mn fr st).edges = st.edges := by
  unfold materializeCenters
  refine @foldl_pres _ (fun s => s.edges = st.edges) _ ?_ _ _
    (@foldl_pres _ (fun s => s.edges = st.edges) _ ?_ _ _
      (@foldl_pres _ (fun s => s.edges = st.edges) _ ?_ _ _
        (@foldl_pres _ (fun s => s.edges = st.edges) _ ?_ _ _ rfl))) <;>
    (intro s x hs; rw [addNodeSub_edges]; exact hs)

theorem subCollabStep_nodesSide (me : Nat) (ty : String) (s : GState) (a b : String) :
    (subCollabStep me ty s a b).nodes = s.nodes ∧
    (subCollabStep me ty s a b).nodeIds = s.nodeIds ∧
    (subCollabStep me ty s a b).seenNodes = s.seenNodes := by
  unfold subCollabStep
  obtain ⟨h1, h2, h3⟩ := addEdgeSub_nodesSide me (addEdgeSub me s a b ty []) b a ty []
  obtain ⟨g1, g2, g3⟩ := addEdgeSub_nodesSide me s a b ty []
  exact ⟨h1.trans g1, h2.trans g2, h3.trans g3⟩

theorem collabPass_nodesSide (db : Store) (me : Nat) (ic : Bool) (st : GState) :
    (collabPass db me ic st).nodes = st.nodes ∧
    (collabPass db me ic st).nodeIds = st.nodeIds ∧
    (collabPass db me ic st).seenNodes = st.seenNodes := by
  unfold collabPass
  split
  · refine @foldl_pres _
      (fun s => s.nodes = st.nodes ∧ s.nodeIds = st.nodeIds ∧ s.seenNodes = st.seenNodes)
      _ ?_ _ _ (@foldl_pres _
        (fun s => s.nodes = st.nodes ∧ s.nodeIds = st.nodeIds ∧ s.seenNodes = st.seenNodes)
        _ ?_ _ _ ⟨rfl, rfl, rfl⟩) <;>
      · intro s entry hs
        refine @foldPairs_pres _
          (fun s => s.nodes = st.nodes ∧ s.nodeIds = st.nodeIds ∧ s.seenNodes = st.seenNodes)
          _ ?_ _ s hs
        intro s2 a b hs2
        obtain ⟨h1, h2, h3⟩ := subCollabStep_nodesSide me _ s2 a b
        exact ⟨h1.trans hs2.1, h2.trans hs2.2.1, h3.trans hs2.2.2⟩
  · exact ⟨rfl, rfl, rfl⟩

theorem collabPass_not_included (db : Store) (me : Nat) (st : GState) :
    collabPass db me false st = st := by
  unfold collabPass
  rw [if_neg]
  rintro ⟨h, -⟩
  cases h

/-- With a single-id `present` list, the collaboration dictionaries are empty:
one node id cannot be both the person and the task (or project) endpoint. -/
theorem subTaskPeople_singleton (db : Store) (x : String) :
    subTaskPeople db [x] = [] := by
  unfold subTaskPeople
  refine List.foldl_fixed' ?_ _
  intro a
  dsimp only
  rw [if_neg]
  rintro ⟨h1, h2⟩
  rw [List.mem_singleton] at h1 h2
  have h3 : nid "person" a.personId = nid "task" a.taskId := h1.trans h2.symm
  have h4 := (nid_inj_kind no_underscore_person no_underscore_task h3).1
  exact absurd h4 (by decide)

theorem subProjLeads_singleton (db : Store) (x : String) :
    subProjLeads db [x] = [] := by
  unfold subProjLeads
  refine List.foldl_fixed' ?_ _
  intro pl
  dsimp only
  rw [if_neg]
  rintro ⟨h1, h2⟩
  rw [List.mem_singleton] at h1 h2
  have h3 : nid "person" pl.personId = nid "project" pl.projectId := h1.trans h2.symm
  have h4 := (nid_inj_kind no_underscore_person no_underscore_project h3).1
  exact absurd h4 (by decide)

theorem collabPass_id_of_empty_dicts (db : Store) (me : Nat) (ic : Bool) (st : GState)
    (h1 : subTaskPeople db st.nodeIds = []) (h2 : subProjLeads db st.nodeIds = []) :
    collabPass db me ic st = st := by
  unfold collabPass
  split
  · simp only [h1, h2, List.foldl_nil]
  · rfl

/-! ### Single-key node folds (used by the single-center analysis) -/

theorem foldl_addNodeSub_seen_all {α : Type} (mn : Nat) (kind : String) (i : Nat)
    (getId : α → Nat) (lf sf ef : α → Option String) (f : GState → α → GState)
    (hf : ∀ s x, f s x = addNodeSub mn s kind (getId x) (lf x) (sf x) (ef x)) :
    ∀ (rows : List α) (st : GState), (∀ r ∈ rows, getId r = i) →
      (kind, i) ∈ st.seenNodes → rows.foldl f st = st := by
  intro rows
  induction rows with
  | nil => intro st _ _; rfl
  | cons r rest ih =>
    intro st hall hseen
    have hr : getId r = i := hall r (List.mem_cons_self r rest)
    simp only [List.foldl_cons, hf, hr]
    rw [addNodeSub_seen mn st kind i _ _ _ hseen]
    exact ih st (fun x hx => hall x (List.mem_cons_of_mem r hx)) hseen

theorem foldl_addNodeSub_single {α : Type} (mn : Nat) (kind : String) (i : Nat)
    (getId : α → Nat) (lf sf ef : α → Option String) (f : GState → α → GState)
    (hf : ∀ s x, f s x = addNodeSub mn s kind (getId x) (lf x) (sf x) (ef x))
    (r : α) (rest : List α) (st : GState)
    (hall : ∀ x ∈ r :: rest, getId x = i)
    (hfresh : (kind, i) ∉ st.seenNodes) (hcap : st.seenNodes.length < mn) :
    (r :: rest).foldl f st =
      { st with
        seenNodes := st.seenNodes ++ [(kind, i)]
        nodeIds := st.nodeIds ++ [nid kind i]
        nodes := st.nodes ++ [{ id := nid kind i, type := kind, label := lf r,
                                status := sf r, email := ef r, detailDescription := none }] } := by
  have hr : getId r = i := hall r (List.mem_cons_self r rest)
  simp only [List.foldl_cons, hf, hr]
  have hstep : addNodeSub mn st kind i (lf r) (sf r) (ef r) =
      { st with
        seenNodes := st.seenNodes ++ [(kind, i)]
        nodeIds := st.nodeIds ++ [nid kind i]
        nodes := st.nodes ++ [{ id := nid kind i, type := kind, label := lf r,
                                status := sf r, email := ef r, detailDescription := none }] } := by
    unfold addNodeSub
    rw [if_neg (by omega), if_neg hfresh]
  rw [hstep]
  exact foldl_addNodeSub_seen_all mn kind i getId lf sf ef f hf rest _
    (fun x hx => hall x (List.mem_cons_of_mem r hx))
    (List.mem_append_right _ (List.mem_singleton.mpr rfl))

/-! ### Seed and materialization computations for a single center -/

theorem seedFrontier_single_project {c : String} {i : Nat}
    (hp : parseNodeId c = some ("project", i)) :
    seedFrontier [c] = ⟨[i], [], [], []⟩ := by
  unfold seedFrontier
  simp only [List.foldl_cons, List.foldl_nil, hp]
  simp [sadd, emptyFrontier]

theorem seedFrontier_single_task {c : String} {i : Nat}
    (hp : parseNodeId c = some ("task", i)) :
    seedFrontier [c] = ⟨[], [i], [], []⟩ := by
  unfold seedFrontier
  simp only [List.foldl_cons, List.foldl_nil, hp]
  simp [sadd, emptyFrontier]

theorem seedFrontier_single_person {c : String} {i : Nat}
    (hp : parseNodeId c = some ("person", i)) :
    seedFrontier [c] = ⟨[], [], [i], []⟩ := by
  unfold seedFrontier
  simp only [List.foldl_cons, List.foldl_nil, hp]
  simp [sadd, emptyFrontier]

theorem seedFrontier_single_group {c : String} {i : Nat}
    (hp : parseNodeId c = some ("group", i)) :
    seedFrontier [c] = ⟨[], [], [], [i]⟩ := by
  unfold seedFrontier
  simp only [List.foldl_cons, List.foldl_nil, hp]
  simp [sadd, emptyFrontier]

theorem materializeCenters_project_single (db : Store) (mn : Nat) (i : Nat)
    (hmn : 0 < mn) (hhas : i ∈ projectIds db) :
    ∃ r : Project, r ∈ db.projects ∧ r.id = i ∧
      materializeCenters db mn ⟨[i], [], [], []⟩ emptyG =
        ⟨[{ id := nid "project" i, type := "project", label := some r.name,
            status := r.status, email := none, detailDescription := none }],
         [], [("project", i)], [], [nid "project" i]⟩ := by
  obtain ⟨r0, hr0, hid0⟩ := List.mem_map.mp hhas
  have hmem : r0 ∈ db.projects.filter (fun p => decide (p.id ∈ ([i] : List Nat))) := by
    rw [List.mem_filter]
    exact ⟨hr0, by simp [hid0]⟩
  cases hrows : db.projects.filter (fun p => decide (p.id ∈ ([i] : List Nat))) with
  | nil => rw [hrows] at hmem; cases hmem
  | cons r rest =>
    have hall : ∀ x ∈ r :: rest, x.id = i := by
      intro x hx
      rw [← hrows] at hx
      have h2 := (List.mem_filter.mp hx).2
      simpa using h2
    have hrin : r ∈ db.projects := by
      have h2 : r ∈ r :: rest := List.mem_cons_self r rest
      rw [← hrows] at h2
      exact (List.mem_filter.mp h2).1
    refine ⟨r, hrin, hall r (List.mem_cons_self r rest), ?_⟩
    unfold materializeCenters
    dsimp only
    have he1 : (db.tasks.filter fun t => decide (t.id ∈ ([] : List Nat))) = [] :=
      List.filter_eq_nil_iff.mpr (fun a _ => by simp)
    have he2 : (db.people.filter fun p => decide (p.id ∈ ([] : List Nat))) = [] :=
      List.filter_eq_nil_iff.mpr (fun a _ => by simp)
    have he3 : (db.groups.filter fun g => decide (g.id ∈ ([] : List Nat))) = [] :=
      List.filter_eq_nil_iff.mpr (fun a _ => by simp)
    rw [hrows, he1, he2, he3]
    simp only [List.foldl_nil]
    rw [foldl_addNodeSub_single mn "project" i (fun p => p.id) (fun p => some p.name)
      (fun p => p.status) (fun _ => none)
      (fun s pr => addNodeSub mn s "project" pr.id (some pr.name) pr.status none)
      (fun _ _ => rfl) r rest emptyG hall (by simp [emptyG]) (by simpa [emptyG] using hmn)]
    rfl

theorem materializeCenters_task_single (db : Store) (mn : Nat) (i : Nat)
    (hmn : 0 < mn) (hhas : i ∈ taskIds db) :
    ∃ r : Task, r ∈ db.tasks ∧ r.id = i ∧
      materializeCenters db mn ⟨[], [i], [], []⟩ emptyG =
        ⟨[{ id := nid "task" i, type := "task", label := some r.name,
            status := r.status, email := none, detailDescription := none }],
         [], [("task", i)], [], [nid "task" i]⟩ := by
  obtain ⟨r0, hr0, hid0⟩ := List.mem_map.mp hhas
  have hmem : r0 ∈ db.tasks.filter (fun t => decide (t.id ∈ ([i] : List Nat))) := by
    rw [List.mem_filter]
    exact ⟨hr0, by simp [hid0]⟩
  cases hrows : db.tasks.filter (fun t => decide (t.id ∈ ([i] : List Nat))) with
  | nil => rw [hrows] at hmem; cases hmem
  | cons r rest =>
    have hall : ∀ x ∈ r :: rest, x.id = i := by
      intro x hx
      rw [← hrows] at hx
      have h2 := (List.mem_filter.mp hx).2
      simpa using h2
    have hrin : r ∈ db.tasks := by
      have h2 : r ∈ r :: rest := List.mem_cons_self r rest
      rw [← hrows] at h2
      exact (List.mem_filter.mp h2).1
    refine ⟨r, hrin, hall r (List.mem_cons_self r rest), ?_⟩
    unfold materializeCenters
    dsimp only
    have he1 : (db.projects.filter fun p => decide (p.id ∈ ([] : List Nat))) = [] :=
      List.filter_eq_nil_iff.mpr (fun a _ => by simp)
    have he2 : (db.people.filter fun p => decide (p.id ∈ ([] : List Nat))) = [] :=
      List.filter_eq_nil_iff.mpr (fun a _ => by simp)
    have he3 : (db.groups.filter fun g => decide (g.id ∈ ([] : List Nat))) = [] :=
      List.filter_eq_nil_iff.mpr (fun a _ => by simp)
    rw [hrows, he1, he2, he3]
    simp only [List.foldl_nil]
    rw [foldl_addNodeSub_single mn "task" i (fun t => t.id) (fun t => some t.name)
      (fun t => t.status) (fun _ => none)
      (fun s t => addNodeSub mn s "task" t.id (some t.name) t.status none)
      (fun _ _ => rfl) r rest emptyG hall (by simp [emptyG]) (by simpa [emptyG] using hmn)]
    rfl

theorem materializeCenters_person_single (db : Store) (mn : Nat) (i : Nat)
    (hmn : 0 < mn) (hhas : i ∈ peopleIds db) :
    ∃ r : Person, r ∈ db.people ∧ r.id = i ∧
      materializeCenters db mn ⟨[], [], [i], []⟩ emptyG =
        ⟨[{ id := nid "person" i, type := "person", label := some r.name,
            status := none, email := r.email, detailDescription := none }],
         [], [("person", i)], [], [nid "person" i]⟩ := by
  obtain ⟨r0, hr0, hid0⟩ := List.mem_map.mp hhas
  have hmem : r0 ∈ db.people.filter (fun p => decide (p.id ∈ ([i] : List Nat))) := by
    rw [List.mem_filter]
    exact ⟨hr0, by simp [hid0]⟩
  cases hrows : db.people.filter (fun p => decide (p.id ∈ ([i] : List Nat))) with
  | nil => rw [hrows] at hmem; cases hmem
  | cons r rest =>
    have hall : ∀ x ∈ r :: rest, x.id = i := by
      intro x hx
      rw [← hrows] at hx
      have h2 := (List.mem_filter.mp hx).2
      simpa using h2
    have hrin : r ∈ db.people := by
      have h2 : r ∈ r :: rest := List.mem_cons_self r rest
      rw [← hrows] at h2
      exact (List.mem_filter.mp h2).1
    refine ⟨r, hrin, hall r (List.mem_cons_self r rest), ?_⟩
    unfold materializeCenters
    dsimp only
    have he1 : (db.projects.filter fun p => decide (p.id ∈ ([] : List Nat))) = [] :=
      List.filter_eq_nil_iff.mpr (fun a _ => by simp)
    have he2 : (db.tasks.filter fun t => decide (t.id ∈ ([] : List Nat))) = [] :=
      List.filter_eq_nil_iff.mpr (fun a _ => by simp)
    have he3 : (db.groups.filter fun g => decide (g.id ∈ ([] : List Nat))) = [] :=
      List.filter_eq_nil_iff.mpr (fun a _ => by simp)
    rw [hrows, he1, he2, he3]
    simp only [List.foldl_nil]
    rw [foldl_addNodeSub_single mn "person" i (fun p => p.id) (fun p => some p.name)
      (fun _ => none) (fun p => p.email)
      (fun s p => addNodeSub mn s "person" p.id (some p.name) none p.email)
      (fun _ _ => rfl) r rest emptyG hall (by simp [emptyG]) (by simpa [emptyG] using hmn)]
    rfl

theorem materializeCenters_group_single (db : Store) (mn : Nat) (i : Nat)
    (hmn : 0 < mn) (hhas : i ∈ groupIds db) :
    ∃ r : Group, r ∈ db.groups ∧ r.id = i ∧
      materializeCenters db mn ⟨[], [], [], [i]⟩ emptyG =
        ⟨[{ id := nid "group" i, type := "group", label := some r.name,
            status := none, email := none, detailDescription := none }],
         [], [("group", i)], [], [nid "group" i]⟩ := by
  obtain ⟨r0, hr0, hid0⟩ := List.mem_map.mp hhas
  have hmem : r0 ∈ db.groups.filter (fun g => decide (g.id ∈ ([i] : List Nat))) := by
    rw [List.mem_filter]
    exact ⟨hr0, by simp [hid0]⟩
  cases hrows : db.groups.filter (fun g => decide (g.id ∈ ([i] : List Nat))) with
  | nil => rw [hrows] at hmem; cases hmem
  | cons r rest =>
    have hall : ∀ x ∈ r :: rest, x.id = i := by
      intro x hx
      rw [← hrows] at hx
      have h2 := (List.mem_filter.mp hx).2
      simpa using h2
    have hrin : r ∈ db.groups := by
      have h2 : r ∈ r :: rest := List.mem_cons_self r rest
      rw [← hrows] at h2
      exact (List.mem_filter.mp h2).1
    refine ⟨r, hrin, hall r (List.mem_cons_self r rest), ?_⟩
    unfold materializeCenters
    dsimp only
    have he1 : (db.projects.filter fun p => decide (p.id ∈ ([] : List Nat))) = [] :=
      List.filter_eq_nil_iff.mpr (fun a _ => by simp)
    have he2 : (db.tasks.filter fun t => decide (t.id ∈ ([] : List Nat))) = [] :=
      List.filter_eq_nil_iff.mpr (fun a _ => by simp)
    have he3 : (db.people.filter fun p => decide (p.id ∈ ([] : List Nat))) = [] :=
      List.filter_eq_nil_iff.mpr (fun a _ => by simp)
    rw [hrows, he1, he2, he3]
    simp only [List.foldl_nil]
    rw [foldl_addNodeSub_single mn "group" i (fun g => g.id) (fun g => some g.name)
      (fun _ => none) (fun _ => none)
      (fun s g => addNodeSub mn s "group" g.id (some g.name) none none)
      (fun _ _ => rfl) r rest emptyG hall (by simp [emptyG]) (by simpa [emptyG] using hmn)]
    rfl

/-- An entity of the parsed kind with this numeric id exists in the store. -/
def storeHasEntity (db : Store) (kind : String) (i : Nat) : Prop :=
  (kind = "person" ∧ i ∈ peopleIds db) ∨ (kind = "project" ∧ i ∈ projectIds db) ∨
  (kind = "task" ∧ i ∈ taskIds db) ∨ (kind = "group" ∧ i ∈ groupIds db)

/-- Claim C4 counterexample: with `degrees = 0`, `includeCollab = true` and
the three centers `task_1`, `person_1`, `person_2` over the example store, the
result contains two `COLLAB:TASK` edges, so a degrees-0 call does not return
zero edges for every centers list. -/
theorem c4_counterexample :
    (getEntitySubgraph exStore ["task_1", "person_1", "person_2"] 0 2000 4000 true).nodes.length
      = 3 ∧
    (getEntitySubgraph exStore ["task_1", "person_1", "person_2"] 0 2000 4000 true).edges.map
        (fun e => (e.source, e.target, e.type)) =
      [("person_1", "person_2", "COLLAB:TASK"), ("person_2", "person_1", "COLLAB:TASK")] := by
  constructor
  · decide
  · decide

/-- Claim C4 amended: with `degrees = 0` the hop loop does not run, so the
nodes are exactly the materialized centers regardless of `includeCollab`, and
with `includeCollab = false` the edge array is empty; collaboration edges may
still appear between several degrees-0 centers, but with a single valid
center whose entity exists (and a positive node budget) the result is exactly
that one node and an empty edge array. -/
theorem c4_amended :
    (∀ (db : Store) (centers : List String) (mn me : Nat) (ic : Bool),
        (getEntitySubgraph db centers 0 mn me ic).nodes =
          (getEntitySubgraph db centers 0 mn me false).nodes) ∧
    (∀ (db : Store) (centers : List String) (mn me : Nat),
        (getEntitySubgraph db centers 0 mn me false).edges = []) ∧
    (∀ (db : Store) (c k : String) (i mn me : Nat) (ic : Bool),
        parseNodeId c = some (k, i) → storeHasEntity db k i → 0 < mn →
        (getEntitySubgraph db [c] 0 mn me ic).nodes.map (fun n => n.id) = [nid k i] ∧
        (getEntitySubgraph db [c] 0 mn me ic).edges = []) := by
  refine ⟨?_, ?_, ?_⟩
  · intro db centers mn me ic
    unfold getEntitySubgraph
    dsimp only
    by_cases hE : (seedFrontier centers).isEmptyAll
    · rw [if_pos hE, if_pos hE]
    · rw [if_neg hE, if_neg hE, fuel_of_zero, hopLoop_zero]
      dsimp only
      rw [(collabPass_nodesSide db me ic _).1, collabPass_not_included db me _]
  · intro db centers mn me
    unfold getEntitySubgraph
    dsimp only
    by_cases hE : (seedFrontier centers).isEmptyAll
    · rw [if_pos hE]
      rfl
    · rw [if_neg hE, fuel_of_zero, hopLoop_zero]
      dsimp only
      rw [collabPass_not_included db me _]
      exact materializeCenters_edges db mn _ emptyG
  · intro db c k i mn me ic hp hhas hmn
    rcases parseNodeId_kind hp with hk | hk | hk | hk <;> subst hk
    · have hmem : i ∈ peopleIds db := by
        rcases hhas with ⟨-, h2⟩ | ⟨hbad, -⟩ | ⟨hbad, -⟩ | ⟨hbad, -⟩
        · exact h2
        · exact absurd hbad (by decide)
        · exact absurd hbad (by decide)
        · exact absurd hbad (by decide)
      unfold getEntitySubgraph
      dsimp only
      rw [seedFrontier_single_person hp, if_neg (by simp [Frontier.isEmptyAll]),
        fuel_of_zero, hopLoop_zero]
      obtain ⟨r, hrmem, hrid, hM⟩ := materializeCenters_person_single db mn i hmn hmem
      dsimp only
      rw [hM, collabPass_id_of_empty_dicts db me ic _
        (subTaskPeople_singleton db (nid "person" i)) (subProjLeads_singleton db (nid "person" i))]
      exact ⟨rfl, rfl⟩
    · have hmem : i ∈ projectIds db := by
        rcases hhas with ⟨hbad, -⟩ | ⟨-, h2⟩ | ⟨hbad, -⟩ | ⟨hbad, -⟩
        · exact absurd hbad (by decide)
        · exact h2
        · exact absurd hbad (by decide)
        · exact absurd hbad (by decide)
      unfold getEntitySubgraph
      dsimp only
      rw [seedFrontier_single_project hp, if_neg (by simp [Frontier.isEmptyAll]),
        fuel_of_zero, hopLoop_zero]
      obtain ⟨r, hrmem, hrid, hM⟩ := materializeCenters_project_single db mn i hmn hmem
      dsimp only
      rw [hM, collabPass_id_of_empty_dicts db me ic _
        (subTaskPeople_singleton db (nid "project" i)) (subProjLeads_singleton db (nid "project" i))]
      exact ⟨rfl, rfl⟩
    · have hmem : i ∈ taskIds db := by
        rcases hhas with ⟨hbad, -⟩ | ⟨hbad, -⟩ | ⟨-, h2⟩ | ⟨hbad, -⟩
        · exact absurd hbad (by decide)
        · exact absurd hbad (by decide)
        · exact h2
        · exact absurd hbad (by decide)
      unfold getEntitySubgraph
      dsimp only
      rw [seedFrontier_single_task hp, if_neg (by simp [Frontier.isEmptyAll]),
        fuel_of_zero, hopLoop_zero]
      obtain ⟨r, hrmem, hrid, hM⟩ := materializeCenters_task_single db mn i hmn hmem
      dsimp only
      rw [hM, collabPass_id_of_empty_dicts db me ic _
        (subTaskPeople_singleton db (nid "task" i)) (subProjLeads_singleton db (nid "task" i))]
      exact ⟨rfl, rfl⟩
    · have hmem : i ∈ groupIds db := by
        rcases hhas with ⟨hbad, -⟩ | ⟨hbad, -⟩ | ⟨hbad, -⟩ | ⟨-, h2⟩
        · exact absurd hbad (by decide)
        · exact absurd hbad (by decide)
        · exact absurd hbad (by decide)
        · exact h2
      unfold getEntitySubgraph
      dsimp only
      rw [seedFrontier_single_group hp, if_neg (by simp [Frontier.isEmptyAll]),
        fuel_of_zero, hopLoop_zero]
      obtain ⟨r, hrmem, hrid, hM⟩ := materializeCenters_group_single db mn i hmn hmem
      dsimp only
      rw [hM, collabPass_id_of_empty_dicts db me ic _
        (subTaskPeople_singleton db (nid "group" i)) (subProjLeads_singleton db (nid "group" i))]
      exact ⟨rfl, rfl⟩

/-- Witness for the amended C4 at a single valid person center. -/
theorem c4_witness :
    (parseNodeId "person_1" = some ("person", 1) ∧ storeHasEntity exStore "person" 1 ∧
      (0 : Nat) < 5) ∧
    ((getEntitySubgraph exStore ["person_1"] 0 5 5 true).nodes.map (fun n => n.id) =
        [nid "person" 1] ∧
      (getEntitySubgraph exStore ["person_1"] 0 5 5 true).edges = []) :=
  ⟨⟨by decide, Or.inl ⟨rfl, by decide⟩, by decide⟩,
   c4_amended.2.2 exStore "person_1" "person" 1 5 5 true (by decide)
     (Or.inl ⟨rfl, by decide⟩) (by decide)⟩

/-! ### Generic fold preservation and dictionary lemmas (collaboration pass) -/

theorem foldl_pres_gen {σ α : Type} {P : σ → Prop} (f : σ → α → σ)
    (hf : ∀ s x, P s → P (f s x)) : ∀ (xs : List α) (s : σ), P s → P (xs.foldl f s) := by
  intro xs
  induction xs with
  | nil => intro s hs; exact hs
  | cons x rest ih => intro s hs; exact ih (f s x) (hf s x hs)

theorem mem_saddStr_self (l : List String) (x : String) : x ∈ saddStr l x := by
  unfold saddStr
  split
  · assumption
  · exact List.mem_append_right _ (List.mem_singleton.mpr rfl)

theorem saddStr_mem_of {l : List String} {y : String} (x : String) (h : y ∈ l) :
    y ∈ saddStr l x := by
  unfold saddStr
  split
  · exact h
  · exact List.mem_append_left _ h

theorem dinsertStr_get (m : List (String × List String)) (k v : String) :
    ∃ vs, (k, vs) ∈ dinsertStr m k v ∧ v ∈ vs := by
  induction m with
  | nil => exact ⟨[v], List.mem_singleton.mpr rfl, List.mem_singleton.mpr rfl⟩
  | cons p rest ih =>
    obtain ⟨k1, vs⟩ := p
    by_cases hk : k1 = k
    · subst hk
      rw [dinsertStr, if_pos rfl]
      exact ⟨saddStr vs v, List.mem_cons_self _ _, mem_saddStr_self vs v⟩
    · rw [dinsertStr, if_neg hk]
      obtain ⟨vs2, hm, hv⟩ := ih
      exact ⟨vs2, List.mem_cons_of_mem _ hm, hv⟩

theorem dinsertStr_pres (m : List (String × List String)) (k2 v2 : String)
    {k x : String} (h : ∃ vs, (k, vs) ∈ m ∧ x ∈ vs) :
    ∃ vs, (k, vs) ∈ dinsertStr m k2 v2 ∧ x ∈ vs := by
  induction m with
  | nil =>
    obtain ⟨vs, hm, -⟩ := h
    cases hm
  | cons p rest ih =>
    obtain ⟨k1, vs⟩ := p
    obtain ⟨vs2, hm, hx⟩ := h
    by_cases hk : k1 = k2
    · subst hk
      rw [dinsertStr, if_pos rfl]
      rcases List.mem_cons.mp hm with heq | htail
      · have h1 : k = k1 := congrArg Prod.fst heq
        have h2 : vs2 = vs := congrArg Prod.snd heq
        subst h1
        subst h2
        exact ⟨saddStr vs2 v2, List.mem_cons_self _ _, saddStr_mem_of v2 hx⟩
      · exact ⟨vs2, List.mem_cons_of_mem _ htail, hx⟩
    · rw [dinsertStr, if_neg hk]
      rcases List.mem_cons.mp hm with heq | htail
      · exact ⟨vs2, heq ▸ List.mem_cons_self _ _, hx⟩
      · obtain ⟨vs3, hm3, hx3⟩ := ih ⟨vs2, htail, hx⟩
        exact ⟨vs3, List.mem_cons_of_mem _ hm3, hx3⟩

theorem dinsertStr_keys (m : List (String × List String)) (k v : String) :
    (dinsertStr m k v).map Prod.fst = m.map Prod.fst ∨
    ((dinsertStr m k v).map Prod.fst = m.map Prod.fst ++ [k] ∧ k ∉ m.map Prod.fst) := by
  induction m with
  | nil => exact Or.inr ⟨by simp [dinsertStr], by simp⟩
  | cons p rest ih =>
    obtain ⟨k1, vs⟩ := p
    by_cases hk : k1 = k
    · subst hk
      rw [dinsertStr, if_pos rfl]
      exact Or.inl (by simp)
    · rw [dinsertStr, if_neg hk]
      rcases ih with h2 | ⟨h2, h3⟩
      · exact Or.inl (by simp [h2])
      · refine Or.inr ⟨by simp [h2], ?_⟩
        simp only [List.map_cons, List.mem_cons]
        rintro (rfl | h4)
        · exact hk rfl
        · exact h3 h4

theorem dinsertStr_keys_nodup (m : List (String × List String)) (k v : String)
    (h : (m.map Prod.fst).Nodup) : ((dinsertStr m k v).map Prod.fst).Nodup := by
  rcases dinsertStr_keys m k v with h2 | ⟨h2, h3⟩
  · rw [h2]; exact h
  · rw [h2]
    exact nodup_append_singleton h h3

theorem assoc_nodup_unique {κ β : Type} {m : List (κ × β)}
    (h : (m.map Prod.fst).Nodup) {k : κ} {v v' : β}
    (h1 : (k, v) ∈ m) (h2 : (k, v') ∈ m) : v = v' := by
  induction m with
  | nil => cases h1
  | cons p rest ih =>
    obtain ⟨k1, v1⟩ := p
    have hnd := List.nodup_cons.mp h
    rcases List.mem_cons.mp h1 with he1 | ht1 <;> rcases List.mem_cons.mp h2 with he2 | ht2
    · have e1 : v = v1 := congrArg Prod.snd he1
      have e2 : v' = v1 := congrArg Prod.snd he2
      rw [e1, e2]
    · have e1 : k = k1 := congrArg Prod.fst he1
      have : k1 ∈ rest.map Prod.fst := e1 ▸ List.mem_map.mpr ⟨(k, v'), ht2, rfl⟩
      exact absurd this hnd.1
    · have e2 : k = k1 := congrArg Prod.fst he2
      have : k1 ∈ rest.map Prod.fst := e2 ▸ List.mem_map.mpr ⟨(k, v), ht1, rfl⟩
      exact absurd this hnd.1
    · exact ih hnd.2 ht1 ht2

theorem dinsertNat_get (m : List (Nat × List Nat)) (k v : Nat) :
    ∃ vs, (k, vs) ∈ dinsertNat m k v ∧ v ∈ vs := by
  induction m with
  | nil => exact ⟨[v], List.mem_singleton.mpr rfl, List.mem_singleton.mpr rfl⟩
  | cons p rest ih =>
    obtain ⟨k1, vs⟩ := p
    by_cases hk : k1 = k
    · subst hk
      rw [dinsertNat, if_pos rfl]
      exact ⟨vs ++ [v], List.mem_cons_self _ _,
        List.mem_append_right _ (List.mem_singleton.mpr rfl)⟩
    · rw [dinsertNat, if_neg hk]
      obtain ⟨vs2, hm, hv⟩ := ih
      exact ⟨vs2, List.mem_cons_of_mem _ hm, hv⟩

theorem dinsertNat_pres (m : List (Nat × List Nat)) (k2 v2 : Nat)
    {k x : Nat} (h : ∃ vs, (k, vs) ∈ m ∧ x ∈ vs) :
    ∃ vs, (k, vs) ∈ dinsertNat m k2 v2 ∧ x ∈ vs := by
  induction m with
  | nil =>
    obtain ⟨vs, hm, -⟩ := h
    cases hm
  | cons p rest ih =>
    obtain ⟨k1, vs⟩ := p
    obtain ⟨vs2, hm, hx⟩ := h
    by_cases hk : k1 = k2
    · subst hk
      rw [dinsertNat, if_pos rfl]
      rcases List.mem_cons.mp hm with heq | htail
      · have h1 : k = k1 := congrArg Prod.fst heq
        have h2 : vs2 = vs := congrArg Prod.snd heq
        subst h1
        subst h2
        exact ⟨vs2 ++ [v2], List.mem_cons_self _ _, List.mem_append_left _ hx⟩
      · exact ⟨vs2, List.mem_cons_of_mem _ htail, hx⟩
    · rw [dinsertNat, if_neg hk]
      rcases List.mem_cons.mp hm with heq | htail
      · exact ⟨vs2, heq ▸ List.mem_cons_self _ _, hx⟩
      · obtain ⟨vs3, hm3, hx3⟩ := ih ⟨vs2, htail, hx⟩
        exact ⟨vs3, List.mem_cons_of_mem _ hm3, hx3⟩

theorem dinsertNat_keys (m : List (Nat × List Nat)) (k v : Nat) :
    (dinsertNat m k v).map Prod.fst = m.map Prod.fst ∨
    ((dinsertNat m k v).map Prod.fst = m.map Prod.fst ++ [k] ∧ k ∉ m.map Prod.fst) := by
  induction m with
  | nil => exact Or.inr ⟨by simp [dinsertNat], by simp⟩
  | cons p rest ih =>
    obtain ⟨k1, vs⟩ := p
    by_cases hk : k1 = k
    · subst hk
      rw [dinsertNat, if_pos rfl]
      exact Or.inl (by simp)
    · rw [dinsertNat, if_neg hk]
      rcases ih with h2 | ⟨h2, h3⟩
      · exact Or.inl (by simp [h2])
      · refine Or.inr ⟨by simp [h2], ?_⟩
        simp only [List.map_cons, List.mem_cons]
        rintro (rfl | h4)
        · exact hk rfl
        · exact h3 h4

theorem dinsertNat_keys_nodup (m : List (Nat × List Nat)) (k v : Nat)
    (h : (m.map Prod.fst).Nodup) : ((dinsertNat m k v).map Prod.fst).Nodup := by
  rcases dinsertNat_keys m k v with h2 | ⟨h2, h3⟩
  · rw [h2]; exact h
  · rw [h2]
    exact nodup_append_singleton h h3

/-! ### Membership through the sorted set rendering -/

theorem mem_insNat {x y : Nat} : ∀ {l : List Nat}, x ∈ l ∨ x = y → x ∈ insNat y l := by
  intro l
  induction l with
  | nil =>
    rintro (h | rfl)
    · cases h
    · exact List.mem_singleton.mpr rfl
  | cons z rest ih =>
    intro h
    rw [insNat]
    split
    · rcases h with h2 | rfl
      · exact List.mem_cons_of_mem _ h2
      · exact List.mem_cons_self _ _
    · rcases h with h2 | rfl
      · rcases List.mem_cons.mp h2 with rfl | h3
        · exact List.mem_cons_self _ _
        · exact List.mem_cons_of_mem _ (ih (Or.inl h3))
      · exact List.mem_cons_of_mem _ (ih (Or.inr rfl))

theorem mem_sortNat {x : Nat} : ∀ {l : List Nat}, x ∈ l → x ∈ sortNat l := by
  intro l
  induction l with
  | nil => intro h; cases h
  | cons y rest ih =>
    intro h
    rcases List.mem_cons.mp h with rfl | h2
    · exact mem_insNat (Or.inr rfl)
    · exact mem_insNat (Or.inl (ih h2))

theorem mem_sortedDedupNat {x : Nat} {l : List Nat} (h : x ∈ l) : x ∈ sortedDedupNat l :=
  mem_sortNat (List.mem_dedup.mpr h)

theorem mem_insStr {x y : String} : ∀ {l : List String}, x ∈ l ∨ x = y → x ∈ insStr y l := by
  intro l
  induction l with
  | nil =>
    rintro (h | rfl)
    · cases h
    · exact List.mem_singleton.mpr rfl
  | cons z rest ih =>
    intro h
    rw [insStr]
    split
    · rcases h with h2 | rfl
      · rcases List.mem_cons.mp h2 with rfl | h3
        · exact List.mem_cons_self _ _
        · exact List.mem_cons_of_mem _ (ih (Or.inl h3))
      · exact List.mem_cons_of_mem _ (ih (Or.inr rfl))
    · rcases h with h2 | rfl
      · exact List.mem_cons_of_mem _ h2
      · exact List.mem_cons_self _ _

theorem mem_sortStr {x : String} : ∀ {l : List String}, x ∈ l → x ∈ sortStr l := by
  intro l
  induction l with
  | nil => intro h; cases h
  | cons y rest ih =>
    intro h
    rcases List.mem_cons.mp h with rfl | h2
    · exact mem_insStr (Or.inr rfl)
    · exact mem_insStr (Or.inl (ih h2))

/-! ### Edge production by the adders -/

/-- The graph contains a directed edge with this structural key. -/
def hasEdgeKey (st : GState) (src dst ty : String) : Prop :=
  ∃ e ∈ st.edges, e.source = src ∧ e.target = dst ∧ e.type = ty

theorem Ext.hasEdgeKey_mono {a b : GState} (h : Ext a b) {src dst ty : String}
    (hk : hasEdgeKey a src dst ty) : hasEdgeKey b src dst ty := by
  obtain ⟨e, he, h1, h2, h3⟩ := hk
  exact ⟨e, h.mem_edges he, h1, h2, h3⟩

theorem addEdgeNet_makes (st : GState) (src dst ty : String) (m : List (String × String))
    (h : StInv st) (hs : src ∈ st.nodeIds) (hd : dst ∈ st.nodeIds) :
    hasEdgeKey (addEdgeNet st src dst ty m) src dst ty := by
  unfold addEdgeNet
  rw [if_neg (by rw [not_or, not_not, not_not]; exact ⟨hs, hd⟩)]
  by_cases hseen : (src, dst, ty) ∈ st.seenEdges
  · rw [if_pos hseen]
    rw [h.edgesCorr] at hseen
    obtain ⟨e, he, hkey⟩ := List.mem_map.mp hseen
    rw [Prod.mk.injEq, Prod.mk.injEq] at hkey
    exact ⟨e, he, hkey.1, hkey.2.1, hkey.2.2⟩
  · rw [if_neg hseen]
    exact ⟨{ source := src, target := dst, type := ty, meta := m },
      List.mem_append_right _ (List.mem_singleton.mpr rfl), rfl, rfl, rfl⟩

theorem addEdgeSub_makes (me : Nat) (st : GState) (src dst ty : String)
    (m : List (String × String)) (h : StInv st) (hs : src ∈ st.nodeIds)
    (hd : dst ∈ st.nodeIds) (hlen : st.edges.length < me) :
    hasEdgeKey (addEdgeSub me st src dst ty m) src dst ty := by
  unfold addEdgeSub
  have hsl : st.seenEdges.length = st.edges.length := (stInv_edges_length h).symm
  rw [if_neg (by omega), if_neg (by rw [not_or, not_not, not_not]; exact ⟨hs, hd⟩)]
  by_cases hseen : (src, dst, ty) ∈ st.seenEdges
  · rw [if_pos hseen]
    rw [h.edgesCorr] at hseen
    obtain ⟨e, he, hkey⟩ := List.mem_map.mp hseen
    rw [Prod.mk.injEq, Prod.mk.injEq] at hkey
    exact ⟨e, he, hkey.1, hkey.2.1, hkey.2.2⟩
  · rw [if_neg hseen]
    exact ⟨{ source := src, target := dst, type := ty, meta := m },
      List.mem_append_right _ (List.mem_singleton.mpr rfl), rfl, rfl, rfl⟩

theorem stInv_subCollabStep (me : Nat) (ty : String) (s : GState) (a b : String)
    (h : StInv s) : StInv (subCollabStep me ty s a b) :=
  stInv_addEdgeSub me _ _ _ _ _ (stInv_addEdgeSub me s _ _ _ _ h)

theorem ext_subCollabStep (me : Nat) (ty : String) (s : GState) (a b : String) :
    Ext s (subCollabStep me ty s a b) :=
  (ext_addEdgeSub me s _ _ _ _).trans (ext_addEdgeSub me _ _ _ _ _)

theorem netCollabStep_nodesSide (ty : String) (s : GState) (a b : Nat) :
    (netCollabStep ty s a b).nodes = s.nodes ∧
    (netCollabStep ty s a b).nodeIds = s.nodeIds ∧
    (netCollabStep ty s a b).seenNodes = s.seenNodes := by
  unfold netCollabStep
  obtain ⟨h1, h2, h3⟩ := addEdgeNet_nodesSide (addEdgeNet s _ _ _ _) _ _ _ _
  obtain ⟨g1, g2, g3⟩ := addEdgeNet_nodesSide s _ _ _ _
  exact ⟨h1.trans g1, h2.trans g2, h3.trans g3⟩

theorem subCollabStep_makes (me : Nat) (ty : String) (st : GState) (a b : String)
    (h : StInv st) (ha : a ∈ st.nodeIds) (hb : b ∈ st.nodeIds)
    (hlen : (subCollabStep me ty st a b).edges.length < me) :
    hasEdgeKey (subCollabStep me ty st a b) a b ty ∧
    hasEdgeKey (subCollabStep me ty st a b) b a ty := by
  have hext2 : Ext (addEdgeSub me st a b ty []) (subCollabStep me ty st a b) :=
    ext_addEdgeSub me _ _ _ _ _
  have hext1 : Ext st (addEdgeSub me st a b ty []) := ext_addEdgeSub me st _ _ _ _
  have hlen1 : st.edges.length < me :=
    lt_of_le_of_lt (le_trans hext1.len_edges hext2.len_edges) hlen
  constructor
  · exact hext2.hasEdgeKey_mono (addEdgeSub_makes me st a b ty [] h ha hb hlen1)
  · have h1 : StInv (addEdgeSub me st a b ty []) := stInv_addEdgeSub me st a b ty [] h
    obtain ⟨-, hid, -⟩ := addEdgeSub_nodesSide me st a b ty []
    have hlen2 : (addEdgeSub me st a b ty []).edges.length < me :=
      lt_of_le_of_lt hext2.len_edges hlen
    exact addEdgeSub_makes me _ b a ty [] h1 (hid ▸ hb) (hid ▸ ha) hlen2

theorem netCollabStep_makes (ty : String) (st : GState) (a b : Nat)
    (h : StInv st) (ha : nid "person" a ∈ st.nodeIds) (hb : nid "person" b ∈ st.nodeIds) :
    hasEdgeKey (netCollabStep ty st a b) (nid "person" a) (nid "person" b) ty ∧
    hasEdgeKey (netCollabStep ty st a b) (nid "person" b) (nid "person" a) ty := by
  have hext2 : Ext (addEdgeNet st (nid "person" a) (nid "person" b) ty [])
      (netCollabStep ty st a b) := ext_addEdgeNet _ _ _ _ _
  constructor
  · exact hext2.hasEdgeKey_mono (addEdgeNet_makes st _ _ ty [] h ha hb)
  · have h1 : StInv (addEdgeNet st (nid "person" a) (nid "person" b) ty []) :=
      stInv_addEdgeNet st _ _ ty [] h
    obtain ⟨-, hid, -⟩ := addEdgeNet_nodesSide st (nid "person" a) (nid "person" b) ty []
    exact addEdgeNet_makes _ _ _ ty [] h1 (hid ▸ hb) (hid ▸ ha)

/-! ### Pair coverage: the double loop emits both directions for every pair -/

theorem foldl_subCollab_visit (me : Nat) (ty : String) (x B : String) :
    ∀ (rest : List String) (st : GState), StInv st → x ∈ st.nodeIds → B ∈ st.nodeIds →
      B ∈ rest →
      (rest.foldl (fun s b => subCollabStep me ty s x b) st).edges.length < me →
      hasEdgeKey (rest.foldl (fun s b => subCollabStep me ty s x b) st) x B ty ∧
      hasEdgeKey (rest.foldl (fun s b => subCollabStep me ty s x b) st) B x ty := by
  intro rest
  induction rest with
  | nil => intro st _ _ _ hB; cases hB
  | cons b rest2 ih =>
    intro st hinv hx hBids hBmem hlen
    simp only [List.foldl_cons] at hlen ⊢
    have hextRest : Ext (subCollabStep me ty st x b)
        (rest2.foldl (fun s b => subCollabStep me ty s x b) (subCollabStep me ty st x b)) :=
      ext_foldl _ (fun s y => ext_subCollabStep me ty s x y) rest2 _
    rcases List.mem_cons.mp hBmem with rfl | hB2
    · have hstep := subCollabStep_makes me ty st x B hinv hx hBids
        (lt_of_le_of_lt hextRest.len_edges hlen)
      exact ⟨hextRest.hasEdgeKey_mono hstep.1, hextRest.hasEdgeKey_mono hstep.2⟩
    · have hinv2 := stInv_subCollabStep me ty st x b hinv
      obtain ⟨-, hid, -⟩ := subCollabStep_nodesSide me ty st x b
      exact ih (subCollabStep me ty st x b) hinv2 (hid ▸ hx) (hid ▸ hBids) hB2 hlen

theorem foldPairs_subCollab_cover (me : Nat) (ty : String) (A B : String) (hAB : A ≠ B) :
    ∀ (xs : List String) (st : GState), StInv st → A ∈ st.nodeIds → B ∈ st.nodeIds →
      A ∈ xs → B ∈ xs →
      (foldPairs (subCollabStep me ty) st xs).edges.length < me →
      hasEdgeKey (foldPairs (subCollabStep me ty) st xs) A B ty ∧
      hasEdgeKey (foldPairs (subCollabStep me ty) st xs) B A ty := by
  intro xs
  induction xs with
  | nil => intro st _ _ _ hA; cases hA
  | cons x rest ih =>
    intro st hinv hAids hBids hA hB hlen
    rw [foldPairs] at hlen ⊢
    have hextInner : Ext st (rest.foldl (fun s b => subCollabStep me ty s x b) st) :=
      ext_foldl _ (fun s y => ext_subCollabStep me ty s x y) rest st
    have hextOuter : Ext (rest.foldl (fun s b => subCollabStep me ty s x b) st)
        (foldPairs (subCollabStep me ty)
          (rest.foldl (fun s b => subCollabStep me ty s x b) st) rest) :=
      ext_foldPairs _ (fun s a b => ext_subCollabStep me ty s a b) rest _
    have hinv1 : StInv (rest.foldl (fun s b => subCollabStep me ty s x b) st) :=
      foldl_pres _ (fun s y hs => stInv_subCollabStep me ty s x y hs) rest st hinv
    rcases List.mem_cons.mp hA with rfl | hA2
    · have hB2 : B ∈ rest := by
        rcases List.mem_cons.mp hB with rfl | h2
        · exact absurd rfl hAB
        · exact h2
      have hv := foldl_subCollab_visit me ty A B rest st hinv hAids hBids hB2
        (lt_of_le_of_lt hextOuter.len_edges hlen)
      exact ⟨hextOuter.hasEdgeKey_mono hv.1, hextOuter.hasEdgeKey_mono hv.2⟩
    · rcases List.mem_cons.mp hB with rfl | hB2
      · have hv := foldl_subCollab_visit me ty B A rest st hinv hBids hAids hA2
          (lt_of_le_of_lt hextOuter.len_edges hlen)
        exact ⟨hextOuter.hasEdgeKey_mono hv.2, hextOuter.hasEdgeKey_mono hv.1⟩
      · exact ih _ hinv1 (hextInner.mem_nodeIds hAids) (hextInner.mem_nodeIds hBids) hA2 hB2 hlen

theorem foldl_netCollab_visit (ty : String) (x B : Nat) :
    ∀ (rest : List Nat) (st : GState), StInv st → nid "person" x ∈ st.nodeIds →
      nid "person" B ∈ st.nodeIds → B ∈ rest →
      hasEdgeKey (rest.foldl (fun s b => netCollabStep ty s x b) st)
        (nid "person" x) (nid "person" B) ty ∧
      hasEdgeKey (rest.foldl (fun s b => netCollabStep ty s x b) st)
        (nid "person" B) (nid "person" x) ty := by
  intro rest
  induction rest with
  | nil => intro st _ _ _ hB; cases hB
  | cons b rest2 ih =>
    intro st hinv hx hBids hBmem
    simp only [List.foldl_cons]
    have hextRest : Ext (netCollabStep ty st x b)
        (rest2.foldl (fun s b => netCollabStep ty s x b) (netCollabStep ty st x b)) :=
      ext_foldl _ (fun s y => ext_netCollabStep ty s x y) rest2 _
    rcases List.mem_cons.mp hBmem with rfl | hB2
    · have hstep := netCollabStep_makes ty st x B hinv hx hBids
      exact ⟨hextRest.hasEdgeKey_mono hstep.1, hextRest.hasEdgeKey_mono hstep.2⟩
    · have hinv2 := stInv_netCollabStep ty st x b hinv
      obtain ⟨-, hid, -⟩ := netCollabStep_nodesSide ty st x b
      exact ih (netCollabStep ty st x b) hinv2 (hid ▸ hx) (hid ▸ hBids) hB2

theorem foldPairs_netCollab_cover (ty : String) (A B : Nat) (hAB : A ≠ B) :
    ∀ (xs : List Nat) (st : GState), StInv st → nid "person" A ∈ st.nodeIds →
      nid "person" B ∈ st.nodeIds → A ∈ xs → B ∈ xs →
      hasEdgeKey (foldPairs (netCollabStep ty) st xs) (nid "person" A) (nid "person" B) ty ∧
      hasEdgeKey (foldPairs (netCollabStep ty) st xs) (nid "person" B) (nid "person" A) ty := by
  intro xs
  induction xs with
  | nil => intro st _ _ _ hA; cases hA
  | cons x rest ih =>
    intro st hinv hAids hBids hA hB
    rw [foldPairs]
    have hextInner : Ext st (rest.foldl (fun s b => netCollabStep ty s x b) st) :=
      ext_foldl _ (fun s y => ext_netCollabStep ty s x y) rest st
    have hextOuter : Ext (rest.foldl (fun s b => netCollabStep ty s x b) st)
        (foldPairs (netCollabStep ty)
          (rest.foldl (fun s b => netCollabStep ty s x b) st) rest) :=
      ext_foldPairs _ (fun s a b => ext_netCollabStep ty s a b) rest _
    have hinv1 : StInv (rest.foldl (fun s b => netCollabStep ty s x b) st) :=
      foldl_pres _ (fun s y hs => stInv_netCollabStep ty s x y hs) rest st hinv
    rcases List.mem_cons.mp hA with rfl | hA2
    · have hB2 : B ∈ rest := by
        rcases List.mem_cons.mp hB with rfl | h2
        · exact absurd rfl hAB
        · exact h2
      have hv := foldl_netCollab_visit ty A B rest st hinv hAids hBids hB2
      exact ⟨hextOuter.hasEdgeKey_mono hv.1, hextOuter.hasEdgeKey_mono hv.2⟩
    · rcases List.mem_cons.mp hB with rfl | hB2
      · have hv := foldl_netCollab_visit ty B A rest st hinv hBids hAids hA2
        exact ⟨hextOuter.hasEdgeKey_mono hv.2, hextOuter.hasEdgeKey_mono hv.1⟩
      · exact ih _ hinv1 (hextInner.mem_nodeIds hAids) (hextInner.mem_nodeIds hBids) hA2 hB2

/-! ### Entry membership in the collaboration dictionaries -/

theorem foldl_dinsertStr_exists {α : Type} (cond : α → Prop) [DecidablePred cond]
    (key val : α → String) :
    ∀ (rows : List α) (m0 : List (String × List String)) (r : α), r ∈ rows → cond r →
      ∃ vs, (key r, vs) ∈
          rows.foldl (fun m a => if cond a then dinsertStr m (key a) (val a) else m) m0 ∧
        val r ∈ vs := by
  intro rows
  induction rows with
  | nil => intro m0 r hr; cases hr
  | cons a rest ih =>
    intro m0 r hr hc
    simp only [List.foldl_cons]
    rcases List.mem_cons.mp hr with rfl | hr2
    · rw [if_pos hc]
      refine @foldl_pres_gen _ _ (fun m => ∃ vs, (key r, vs) ∈ m ∧ val r ∈ vs) _ ?_ rest _
        (dinsertStr_get m0 (key r) (val r))
      intro m y hm
      split
      · exact dinsertStr_pres m _ _ hm
      · exact hm
    · exact ih _ r hr2 hc

theorem foldl_dinsertNat_exists {α : Type} (cond : α → Prop) [DecidablePred cond]
    (key val : α → Nat) :
    ∀ (rows : List α) (m0 : List (Nat × List Nat)) (r : α), r ∈ rows → cond r →
      ∃ vs, (key r, vs) ∈
          rows.foldl (fun m a => if cond a then dinsertNat m (key a) (val a) else m) m0 ∧
        val r ∈ vs := by
  intro rows
  induction rows with
  | nil => intro m0 r hr; cases hr
  | cons a rest ih =>
    intro m0 r hr hc
    simp only [List.foldl_cons]
    rcases List.mem_cons.mp hr with rfl | hr2
    · rw [if_pos hc]
      refine @foldl_pres_gen _ _ (fun m => ∃ vs, (key r, vs) ∈ m ∧ val r ∈ vs) _ ?_ rest _
        (dinsertNat_get m0 (key r) (val r))
      intro m y hm
      split
      · exact dinsertNat_pres m _ _ hm
      · exact hm
    · exact ih _ r hr2 hc

theorem subTaskPeople_mem (db : Store) (present : List String) (r : TaskAssignee)
    (hr : r ∈ db.taskAssignees)
    (hTp : nid "task" r.taskId ∈ present) (hAp : nid "person" r.personId ∈ present) :
    ∃ vs, (nid "task" r.taskId, vs) ∈ subTaskPeople db present ∧
      nid "person" r.personId ∈ vs := by
  have hT : r.taskId ∈ (present.filter (fun i => pyStartsWith i "task_")).map idNum := by
    refine List.mem_map.mpr ⟨nid "task" r.taskId, ?_, idNum_nid no_underscore_task r.taskId⟩
    exact List.mem_filter.mpr ⟨hTp, startsWith_task_nid r.taskId⟩
  have hrf : r ∈ db.taskAssignees.filter (fun a =>
      decide (a.taskId ∈ (present.filter (fun i => pyStartsWith i "task_")).map idNum)) :=
    List.mem_filter.mpr ⟨hr, by simpa using hT⟩
  exact foldl_dinsertStr_exists
    (fun a => nid "person" a.personId ∈ present ∧ nid "task" a.taskId ∈ present)
    (fun a => nid "task" a.taskId) (fun a => nid "person" a.personId)
    _ [] r hrf ⟨hAp, hTp⟩

theorem subProjLeads_mem (db : Store) (present : List String) (pl : ProjectLead)
    (hpl : pl ∈ db.projectLeads)
    (hPp : nid "project" pl.projectId ∈ present) (hAp : nid "person" pl.personId ∈ present) :
    ∃ vs, (nid "project" pl.projectId, vs) ∈ subProjLeads db present ∧
      nid "person" pl.personId ∈ vs := by
  have hP : pl.projectId ∈ (present.filter (fun i => pyStartsWith i "project_")).map idNum := by
    refine List.mem_map.mpr
      ⟨nid "project" pl.projectId, ?_, idNum_nid no_underscore_project pl.projectId⟩
    exact List.mem_filter.mpr ⟨hPp, startsWith_project_nid pl.projectId⟩
  have hrf : pl ∈ db.projectLeads.filter (fun q =>
      decide (q.projectId ∈ (present.filter (fun i => pyStartsWith i "project_")).map idNum)) :=
    List.mem_filter.mpr ⟨hpl, by simpa using hP⟩
  exact foldl_dinsertStr_exists
    (fun q => nid "person" q.personId ∈ present ∧ nid "project" q.projectId ∈ present)
    (fun q => nid "project" q.projectId) (fun q => nid "person" q.personId)
    _ [] pl hrf ⟨hAp, hPp⟩

theorem taskToPeople_mem_aux (db : Store) (t : Task) (r : TaskAssignee)
    (hrt : r.taskId = t.id) (hp : r.personId ∈ peopleIds db) (hr : r ∈ db.taskAssignees) :
    ∀ (rows : List Task) (m0 : List (Nat × List Nat)), t ∈ rows →
      ∃ vs, (t.id, vs) ∈ rows.foldl (fun m t =>
          (taskAssigneesOf db t.id).foldl (fun m2 ta =>
            if ta.personId ∈ peopleIds db then dinsertNat m2 t.id ta.personId else m2) m) m0 ∧
        r.personId ∈ vs := by
  intro rows
  induction rows with
  | nil => intro m0 h; cases h
  | cons tk rest ih =>
    intro m0 hmem
    simp only [List.foldl_cons]
    rcases List.mem_cons.mp hmem with rfl | h2
    · have hrin : r ∈ taskAssigneesOf db t.id :=
        List.mem_filter.mpr ⟨hr, by simpa using hrt⟩
      have hstep := foldl_dinsertNat_exists (fun ta => ta.personId ∈ peopleIds db)
        (fun _ => t.id) (fun ta => ta.personId) (taskAssigneesOf db t.id) m0 r hrin hp
      refine @foldl_pres_gen (List (Nat × List Nat)) Task
        (fun m => ∃ vs, (t.id, vs) ∈ m ∧ r.personId ∈ vs) _ ?_ rest _ hstep
      intro m y hm
      refine @foldl_pres_gen (List (Nat × List Nat)) TaskAssignee
        (fun m => ∃ vs, (t.id, vs) ∈ m ∧ r.personId ∈ vs) _ ?_ _ m hm
      intro m2 ta hm2
      split
      · exact dinsertNat_pres m2 _ _ hm2
      · exact hm2
    · exact ih _ h2

theorem taskToPeople_mem (db : Store) (t : Task) (r : TaskAssignee)
    (ht : t ∈ db.tasks) (hr : r ∈ db.taskAssignees) (hrt : r.taskId = t.id)
    (hp : r.personId ∈ peopleIds db) :
    ∃ vs, (t.id, vs) ∈ taskToPeople db ∧ r.personId ∈ vs := by
  unfold taskToPeople
  exact taskToPeople_mem_aux db t r hrt hp hr db.tasks [] ht

theorem projToLeads_mem (db : Store) (pl : ProjectLead) (hpl : pl ∈ db.projectLeads)
    (hp : pl.personId ∈ peopleIds db) (hpr : pl.projectId ∈ projectIds db) :
    ∃ vs, (pl.projectId, vs) ∈ projToLeads db ∧ pl.personId ∈ vs := by
  unfold projToLeads
  exact foldl_dinsertNat_exists
    (fun q => q.personId ∈ peopleIds db ∧ q.projectId ∈ projectIds db)
    (fun q => q.projectId) (fun q => q.personId) db.projectLeads [] pl hpl ⟨hp, hpr⟩

theorem taskToPeople_keys_nodup (db : Store) : ((taskToPeople db).map Prod.fst).Nodup := by
  unfold taskToPeople
  refine @foldl_pres_gen (List (Nat × List Nat)) Task (fun m => (m.map Prod.fst).Nodup)
    _ ?_ _ [] (by simp)
  intro m t hm
  refine @foldl_pres_gen (List (Nat × List Nat)) TaskAssignee (fun m => (m.map Prod.fst).Nodup)
    _ ?_ _ m hm
  intro m2 ta hm2
  split
  · exact dinsertNat_keys_nodup m2 _ _ hm2
  · exact hm2

theorem projToLeads_keys_nodup (db : Store) : ((projToLeads db).map Prod.fst).Nodup := by
  unfold projToLeads
  refine @foldl_pres_gen (List (Nat × List Nat)) ProjectLead (fun m => (m.map Prod.fst).Nodup)
    _ ?_ _ [] (by simp)
  intro m pl hm
  split
  · exact dinsertNat_keys_nodup m _ _ hm
  · exact hm

theorem subTaskPeople_keys_nodup (db : Store) (present : List String) :
    ((subTaskPeople db present).map Prod.fst).Nodup := by
  unfold subTaskPeople
  refine @foldl_pres_gen (List (String × List String)) TaskAssignee
    (fun m => (m.map Prod.fst).Nodup) _ ?_ _ [] (by simp)
  intro m a hm
  dsimp only
  split
  · exact dinsertStr_keys_nodup m _ _ hm
  · exact hm

theorem subProjLeads_keys_nodup (db : Store) (present : List String) :
    ((subProjLeads db present).map Prod.fst).Nodup := by
  unfold subProjLeads
  refine @foldl_pres_gen (List (String × List String)) ProjectLead
    (fun m => (m.map Prod.fst).Nodup) _ ?_ _ [] (by simp)
  intro m a hm
  dsimp only
  split
  · exact dinsertStr_keys_nodup m _ _ hm
  · exact hm

/-! ### Node presence in the full materializer -/

theorem addNodeNet_mem_nodeIds (st : GState) (kind : String) (row : Row) (h : StInv st) :
    nid kind (rowId row) ∈ (addNodeNet st kind row).nodeIds := by
  unfold addNodeNet
  split
  · rename_i hseen
    have h1 : (kind, nid kind (rowId row)) ∈ st.seenNodes.map (fun p => (p.1, nid p.1 p.2)) :=
      List.mem_map.mpr ⟨(kind, rowId row), hseen, rfl⟩
    rw [← h.nodesCorr] at h1
    obtain ⟨n, hn, hkey⟩ := List.mem_map.mp h1
    have h2 : n.id = nid kind (rowId row) := congrArg Prod.snd hkey
    rw [h.idsEq]
    exact List.mem_map.mpr ⟨n, hn, h2⟩
  · exact List.mem_append_right _ (List.mem_singleton.mpr rfl)

theorem foldl_addNodeNet_mem {α : Type} (kind : String) (mk : α → Row)
    (f : GState → α → GState)
    (hf : ∀ s x, f s x = addNodeNet s kind (mk x))
    (hpres : ∀ s x, StInv s → StInv (f s x)) :
    ∀ (rows : List α) (st : GState) (r : α), StInv st → r ∈ rows →
      nid kind (rowId (mk r)) ∈ (rows.foldl f st).nodeIds := by
  intro rows
  induction rows with
  | nil => intro st r _ hr; cases hr
  | cons a rest ih =>
    intro st r hinv hr
    simp only [List.foldl_cons]
    rcases List.mem_cons.mp hr with rfl | hr2
    · have hExt : Ext (f st r) (rest.foldl f (f st r)) :=
        ext_foldl f (fun s x => by rw [hf]; exact ext_addNodeNet s kind (mk x)) rest (f st r)
      refine hExt.mem_nodeIds ?_
      rw [hf]
      exact addNodeNet_mem_nodeIds st kind (mk r) hinv
    · exact ih (f st a) r (hpres st a hinv) hr2

theorem netNodesPhase_mem_person (db : Store) (st : GState) (h : StInv st)
    {p : Person} (hp : p ∈ db.people) :
    nid "person" p.id ∈ (netNodesPhase db st).nodeIds := by
  unfold netNodesPhase
  have h1 : nid "person" p.id ∈
      (db.people.foldl (fun s p => addNodeNet s "person" (Row.person p)) st).nodeIds :=
    foldl_addNodeNet_mem "person" Row.person _ (fun _ _ => rfl)
      (fun s x hs => stInv_addNodeNet_person s x hs) db.people st p h hp
  exact (((ext_foldl _ (fun s pr => ext_addNodeNet s "project" (Row.project pr)) _ _).trans
    (ext_foldl _ (fun s t => ext_addNodeNet s "task" (Row.task t)) _ _)).trans
    (ext_foldl _ (fun s g => ext_addNodeNet s "group" (Row.group g)) _ _)).mem_nodeIds h1

theorem netNodesPhase_mem_project (db : Store) (st : GState) (h : StInv st)
    {pr : Project} (hp : pr ∈ db.projects) :
    nid "project" pr.id ∈ (netNodesPhase db st).nodeIds := by
  unfold netNodesPhase
  have h1 : nid "project" pr.id ∈
      ((db.projects.foldl (fun s pr => addNodeNet s "project" (Row.project pr))
        (db.people.foldl (fun s p => addNodeNet s "person" (Row.person p)) st))).nodeIds :=
    foldl_addNodeNet_mem "project" Row.project _ (fun _ _ => rfl)
      (fun s x hs => stInv_addNodeNet_project s x hs) db.projects _ pr
      (foldl_pres _ (fun s x hs => stInv_addNodeNet_person s x hs) db.people st h) hp
  exact ((ext_foldl _ (fun s t => ext_addNodeNet s "task" (Row.task t)) _ _).trans
    (ext_foldl _ (fun s g => ext_addNodeNet s "group" (Row.group g)) _ _)).mem_nodeIds h1

theorem netNodesPhase_mem_task (db : Store) (st : GState) (h : StInv st)
    {t : Task} (ht : t ∈ db.tasks) :
    nid "task" t.id ∈ (netNodesPhase db st).nodeIds := by
  unfold netNodesPhase
  have h1 : nid "task" t.id ∈
      (db.tasks.foldl (fun s t => addNodeNet s "task" (Row.task t))
        (db.projects.foldl (fun s pr => addNodeNet s "project" (Row.project pr))
          (db.people.foldl (fun s p => addNodeNet s "person" (Row.person p)) st))).nodeIds :=
    foldl_addNodeNet_mem "task" Row.task _ (fun _ _ => rfl)
      (fun s x hs => stInv_addNodeNet_task s x hs) db.tasks _ t
      (foldl_pres _ (fun s x hs => stInv_addNodeNet_project s x hs) db.projects _
        (foldl_pres _ (fun s x hs => stInv_addNodeNet_person s x hs) db.people st h)) ht
  exact (ext_foldl _ (fun s g => ext_addNodeNet s "group" (Row.group g)) _ _).mem_nodeIds h1

/-- The materializer state after all explicit edge phases, before the derived
collaboration edges. -/
def netBeforeCollab (db : Store) : GState :=
  netProjGroupEdges db (netMemberEdges db (netTaskEdges db (netLeadEdges db
    (netRelEdges db (netNodesPhase db emptyG)))))

theorem getGraphNetwork_eq (db : Store) :
    getGraphNetwork db = netCollabProject db (netCollabTask db (netBeforeCollab db)) := rfl

theorem netBeforeCollab_stinv (db : Store) : StInv (netBeforeCollab db) :=
  stInv_netProjGroupEdges db _ (stInv_netMemberEdges db _ (stInv_netTaskEdges db _
    (stInv_netLeadEdges db _ (stInv_netRelEdges db _ (stInv_netNodesPhase db _ stInv_empty)))))

theorem netBeforeCollab_ext_nodes (db : Store) :
    Ext (netNodesPhase db emptyG) (netBeforeCollab db) :=
  ((((ext_netRelEdges db _).trans (ext_netLeadEdges db _)).trans
    (ext_netTaskEdges db _)).trans (ext_netMemberEdges db _)).trans (ext_netProjGroupEdges db _)

theorem netBeforeCollab_person_present (db : Store) {A : Nat} (hA : A ∈ peopleIds db) :
    nid "person" A ∈ (netBeforeCollab db).nodeIds := by
  obtain ⟨p, hp, hpid⟩ := List.mem_map.mp hA
  have h1 := netNodesPhase_mem_person db emptyG stInv_empty hp
  rw [hpid] at h1
  exact (netBeforeCollab_ext_nodes db).mem_nodeIds h1

theorem netBeforeCollab_project_present (db : Store) {P : Nat} (hP : P ∈ projectIds db) :
    nid "project" P ∈ (netBeforeCollab db).nodeIds := by
  obtain ⟨pr, hpr, hprid⟩ := List.mem_map.mp hP
  have h1 := netNodesPhase_mem_project db emptyG stInv_empty hpr
  rw [hprid] at h1
  exact (netBeforeCollab_ext_nodes db).mem_nodeIds h1

theorem netBeforeCollab_task_present (db : Store) {T : Nat} (hT : T ∈ taskIds db) :
    nid "task" T ∈ (netBeforeCollab db).nodeIds := by
  obtain ⟨t, ht, htid⟩ := List.mem_map.mp hT
  have h1 := netNodesPhase_mem_task db emptyG stInv_empty ht
  rw [htid] at h1
  exact (netBeforeCollab_ext_nodes db).mem_nodeIds h1

/-! ### Both collaboration directions in the full materializer -/

theorem stInv_netCollabEntryStep (ty : String) (s : GState) (entry : Nat × List Nat)
    (h : StInv s) : StInv (foldPairs (netCollabStep ty) s (sortedDedupNat entry.2)) :=
  foldPairs_pres _ (fun s2 a b hs2 => stInv_netCollabStep ty s2 a b hs2) _ s h

theorem ext_netCollabEntryStep (ty : String) (s : GState) (entry : Nat × List Nat) :
    Ext s (foldPairs (netCollabStep ty) s (sortedDedupNat entry.2)) :=
  ext_foldPairs _ (fun s2 a b => ext_netCollabStep ty s2 a b) _ s

theorem net_collab_task_pair (db : Store) (t : Task) (r1 r2 : TaskAssignee)
    (ht : t ∈ db.tasks) (hr1 : r1 ∈ db.taskAssignees) (hr2 : r2 ∈ db.taskAssignees)
    (ht1 : r1.taskId = t.id) (ht2 : r2.taskId = t.id)
    (hp1 : r1.personId ∈ peopleIds db) (hp2 : r2.personId ∈ peopleIds db)
    (hne : r1.personId ≠ r2.personId) :
    hasEdgeKey (getGraphNetwork db) (nid "person" r1.personId) (nid "person" r2.personId)
      "COLLAB:TASK" ∧
    hasEdgeKey (getGraphNetwork db) (nid "person" r2.personId) (nid "person" r1.personId)
      "COLLAB:TASK" := by
  obtain ⟨vs1, hent1, hAvs⟩ := taskToPeople_mem db t r1 ht hr1 ht1 hp1
  obtain ⟨vs2, hent2, hBvs⟩ := taskToPeople_mem db t r2 ht hr2 ht2 hp2
  have hvs : vs1 = vs2 := assoc_nodup_unique (taskToPeople_keys_nodup db) hent1 hent2
  subst hvs
  rw [getGraphNetwork_eq db]
  obtain ⟨l1, l2, hsplit⟩ := List.append_of_mem hent1
  have hkeys : hasEdgeKey (netCollabTask db (netBeforeCollab db))
      (nid "person" r1.personId) (nid "person" r2.personId) "COLLAB:TASK" ∧
      hasEdgeKey (netCollabTask db (netBeforeCollab db))
      (nid "person" r2.personId) (nid "person" r1.personId) "COLLAB:TASK" := by
    unfold netCollabTask
    rw [hsplit, List.foldl_append, List.foldl_cons]
    have hinv1 : StInv (l1.foldl (fun s entry =>
        foldPairs (netCollabStep "COLLAB:TASK") s (sortedDedupNat entry.2))
        (netBeforeCollab db)) :=
      foldl_pres _ (fun s e hs => stInv_netCollabEntryStep "COLLAB:TASK" s e hs) l1 _
        (netBeforeCollab_stinv db)
    have hext1 : Ext (netBeforeCollab db) (l1.foldl (fun s entry =>
        foldPairs (netCollabStep "COLLAB:TASK") s (sortedDedupNat entry.2))
        (netBeforeCollab db)) :=
      ext_foldl _ (fun s e => ext_netCollabEntryStep "COLLAB:TASK" s e) l1 _
    have hcov := foldPairs_netCollab_cover "COLLAB:TASK" r1.personId r2.personId hne
      (sortedDedupNat vs1) _ hinv1
      (hext1.mem_nodeIds (netBeforeCollab_person_present db hp1))
      (hext1.mem_nodeIds (netBeforeCollab_person_present db hp2))
      (mem_sortedDedupNat hAvs) (mem_sortedDedupNat hBvs)
    have hext2 : Ext (foldPairs (netCollabStep "COLLAB:TASK")
        (l1.foldl (fun s entry =>
          foldPairs (netCollabStep "COLLAB:TASK") s (sortedDedupNat entry.2))
          (netBeforeCollab db)) (sortedDedupNat vs1))
        (l2.foldl (fun s entry =>
          foldPairs (netCollabStep "COLLAB:TASK") s (sortedDedupNat entry.2))
          (foldPairs (netCollabStep "COLLAB:TASK")
            (l1.foldl (fun s entry =>
              foldPairs (netCollabStep "COLLAB:TASK") s (sortedDedupNat entry.2))
              (netBeforeCollab db)) (sortedDedupNat vs1))) :=
      ext_foldl _ (fun s e => ext_netCollabEntryStep "COLLAB:TASK" s e) l2 _
    exact ⟨hext2.hasEdgeKey_mono hcov.1, hext2.hasEdgeKey_mono hcov.2⟩
  exact ⟨(ext_netCollabProject db _).hasEdgeKey_mono hkeys.1,
         (ext_netCollabProject db _).hasEdgeKey_mono hkeys.2⟩

theorem net_collab_project_pair (db : Store) (pl1 pl2 : ProjectLead)
    (h1 : pl1 ∈ db.projectLeads) (h2 : pl2 ∈ db.projectLeads)
    (hpp : pl1.projectId = pl2.projectId) (hP : pl1.projectId ∈ projectIds db)
    (hp1 : pl1.personId ∈ peopleIds db) (hp2 : pl2.personId ∈ peopleIds db)
    (hne : pl1.personId ≠ pl2.personId) :
    hasEdgeKey (getGraphNetwork db) (nid "person" pl1.personId) (nid "person" pl2.personId)
      "COLLAB:PROJECT" ∧
    hasEdgeKey (getGraphNetwork db) (nid "person" pl2.personId) (nid "person" pl1.personId)
      "COLLAB:PROJECT" := by
  obtain ⟨vs1, hent1, hAvs⟩ := projToLeads_mem db pl1 h1 hp1 hP
  obtain ⟨vs2, hent2, hBvs⟩ := projToLeads_mem db pl2 h2 hp2 (hpp ▸ hP)
  rw [← hpp] at hent2
  have hvs : vs1 = vs2 := assoc_nodup_unique (projToLeads_keys_nodup db) hent1 hent2
  subst hvs
  rw [getGraphNetwork_eq db]
  obtain ⟨l1, l2, hsplit⟩ := List.append_of_mem hent1
  have hinvT : StInv (netCollabTask db (netBeforeCollab db)) :=
    stInv_netCollabTask db _ (netBeforeCollab_stinv db)
  have hextT : Ext (netBeforeCollab db) (netCollabTask db (netBeforeCollab db)) :=
    ext_netCollabTask db _
  unfold netCollabProject
  rw [hsplit, List.foldl_append, List.foldl_cons]
  have hinv1 : StInv (l1.foldl (fun s entry =>
      foldPairs (netCollabStep "COLLAB:PROJECT") s (sortedDedupNat entry.2))
      (netCollabTask db (netBeforeCollab db))) :=
    foldl_pres _ (fun s e hs => stInv_netCollabEntryStep "COLLAB:PROJECT" s e hs) l1 _ hinvT
  have hext1 : Ext (netCollabTask db (netBeforeCollab db)) (l1.foldl (fun s entry =>
      foldPairs (netCollabStep "COLLAB:PROJECT") s (sortedDedupNat entry.2))
      (netCollabTask db (netBeforeCollab db))) :=
    ext_foldl _ (fun s e => ext_netCollabEntryStep "COLLAB:PROJECT" s e) l1 _
  have hcov := foldPairs_netCollab_cover "COLLAB:PROJECT" pl1.personId pl2.personId hne
    (sortedDedupNat vs1) _ hinv1
    (hext1.mem_nodeIds (hextT.mem_nodeIds (netBeforeCollab_person_present db hp1)))
    (hext1.mem_nodeIds (hextT.mem_nodeIds (netBeforeCollab_person_present db hp2)))
    (mem_sortedDedupNat hAvs) (mem_sortedDedupNat hBvs)
  have hext2 : Ext (foldPairs (netCollabStep "COLLAB:PROJECT")
      (l1.foldl (fun s entry =>
        foldPairs (netCollabStep "COLLAB:PROJECT") s (sortedDedupNat entry.2))
        (netCollabTask db (netBeforeCollab db))) (sortedDedupNat vs1))
      (l2.foldl (fun s entry =>
        foldPairs (netCollabStep "COLLAB:PROJECT") s (sortedDedupNat entry.2))
        (foldPairs (netCollabStep "COLLAB:PROJECT")
          (l1.foldl (fun s entry =>
            foldPairs (netCollabStep "COLLAB:PROJECT") s (sortedDedupNat entry.2))
            (netCollabTask db (netBeforeCollab db))) (sortedDedupNat vs1))) :=
    ext_foldl _ (fun s e => ext_netCollabEntryStep "COLLAB:PROJECT" s e) l2 _
  exact ⟨hext2.hasEdgeKey_mono hcov.1, hext2.hasEdgeKey_mono hcov.2⟩

/-! ### Both collaboration directions in the subgraph post-pass -/

theorem stInv_subCollabEntryStep (me : Nat) (ty : String) (s : GState)
    (entry : String × List String) (h : StInv s) :
    StInv (foldPairs (subCollabStep me ty) s (sortStr entry.2)) :=
  foldPairs_pres _ (fun s2 a b hs2 => stInv_subCollabStep me ty s2 a b hs2) _ s h

theorem ext_subCollabEntryStep (me : Nat) (ty : String) (s : GState)
    (entry : String × List String) :
    Ext s (foldPairs (subCollabStep me ty) s (sortStr entry.2)) :=
  ext_foldPairs _ (fun s2 a b => ext_subCollabStep me ty s2 a b) _ s

theorem collabPass_task_pair (db : Store) (me : Nat) (st0 : GState) (r1 r2 : TaskAssignee)
    (hinv : StInv st0)
    (hr1 : r1 ∈ db.taskAssignees) (hr2 : r2 ∈ db.taskAssignees)
    (htt : r1.taskId = r2.taskId) (hne : r1.personId ≠ r2.personId)
    (hT : nid "task" r1.taskId ∈ st0.nodeIds)
    (hA : nid "person" r1.personId ∈ st0.nodeIds)
    (hB : nid "person" r2.personId ∈ st0.nodeIds)
    (hlen : (collabPass db me true st0).edges.length < me) :
    hasEdgeKey (collabPass db me true st0) (nid "person" r1.personId)
      (nid "person" r2.personId) "COLLAB:TASK" ∧
    hasEdgeKey (collabPass db me true st0) (nid "person" r2.personId)
      (nid "person" r1.personId) "COLLAB:TASK" := by
  have hT2 : nid "task" r2.taskId ∈ st0.nodeIds := htt ▸ hT
  obtain ⟨vs1, hent1, hAvs⟩ := subTaskPeople_mem db st0.nodeIds r1 hr1 hT hA
  obtain ⟨vs2, hent2, hBvs⟩ := subTaskPeople_mem db st0.nodeIds r2 hr2 hT2 hB
  rw [← htt] at hent2
  have hvs : vs1 = vs2 := assoc_nodup_unique (subTaskPeople_keys_nodup db st0.nodeIds)
    hent1 hent2
  subst hvs
  unfold collabPass at hlen ⊢
  rw [if_pos ⟨rfl, List.ne_nil_of_mem hT⟩] at hlen ⊢
  dsimp only at hlen ⊢
  obtain ⟨l1, l2, hsplit⟩ := List.append_of_mem hent1
  rw [hsplit, List.foldl_append, List.foldl_cons] at hlen ⊢
  have hinv1 : StInv (l1.foldl (fun s entry =>
      foldPairs (subCollabStep me "COLLAB:TASK") s (sortStr entry.2)) st0) :=
    foldl_pres _ (fun s e hs => stInv_subCollabEntryStep me "COLLAB:TASK" s e hs) l1 _ hinv
  have hext1 : Ext st0 (l1.foldl (fun s entry =>
      foldPairs (subCollabStep me "COLLAB:TASK") s (sortStr entry.2)) st0) :=
    ext_foldl _ (fun s e => ext_subCollabEntryStep me "COLLAB:TASK" s e) l1 _
  have hextAfter : Ext (foldPairs (subCollabStep me "COLLAB:TASK")
      (l1.foldl (fun s entry =>
        foldPairs (subCollabStep me "COLLAB:TASK") s (sortStr entry.2)) st0) (sortStr vs1))
      ((subProjLeads db st0.nodeIds).foldl (fun s entry =>
        foldPairs (subCollabStep me "COLLAB:PROJECT") s (sortStr entry.2))
        (l2.foldl (fun s entry =>
          foldPairs (subCollabStep me "COLLAB:TASK") s (sortStr entry.2))
          (foldPairs (subCollabStep me "COLLAB:TASK")
            (l1.foldl (fun s entry =>
              foldPairs (subCollabStep me "COLLAB:TASK") s (sortStr entry.2)) st0)
            (sortStr vs1)))) :=
    (ext_foldl _ (fun s e => ext_subCollabEntryStep me "COLLAB:TASK" s e) l2 _).trans
      (ext_foldl _ (fun s e => ext_subCollabEntryStep me "COLLAB:PROJECT" s e) _ _)
  have hcov := foldPairs_subCollab_cover me "COLLAB:TASK"
    (nid "person" r1.personId) (nid "person" r2.personId)
    (fun hc => hne (nid_inj_num hc)) (sortStr vs1) _ hinv1
    (hext1.mem_nodeIds hA) (hext1.mem_nodeIds hB)
    (mem_sortStr hAvs) (mem_sortStr hBvs)
    (lt_of_le_of_lt hextAfter.len_edges hlen)
  exact ⟨hextAfter.hasEdgeKey_mono hcov.1, hextAfter.hasEdgeKey_mono hcov.2⟩

theorem collabPass_project_pair (db : Store) (me : Nat) (st0 : GState)
    (pl1 pl2 : ProjectLead) (hinv : StInv st0)
    (h1 : pl1 ∈ db.projectLeads) (h2 : pl2 ∈ db.projectLeads)
    (hpp : pl1.projectId = pl2.projectId) (hne : pl1.personId ≠ pl2.personId)
    (hP : nid "project" pl1.projectId ∈ st0.nodeIds)
    (hA : nid "person" pl1.personId ∈ st0.nodeIds)
    (hB : nid "person" pl2.personId ∈ st0.nodeIds)
    (hlen : (collabPass db me true st0).edges.length < me) :
    hasEdgeKey (collabPass db me true st0) (nid "person" pl1.personId)
      (nid "person" pl2.personId) "COLLAB:PROJECT" ∧
    hasEdgeKey (collabPass db me true st0) (nid "person" pl2.personId)
      (nid "person" pl1.personId) "COLLAB:PROJECT" := by
  have hP2 : nid "project" pl2.projectId ∈ st0.nodeIds := hpp ▸ hP
  obtain ⟨vs1, hent1, hAvs⟩ := subProjLeads_mem db st0.nodeIds pl1 h1 hP hA
  obtain ⟨vs2, hent2, hBvs⟩ := subProjLeads_mem db st0.nodeIds pl2 h2 hP2 hB
  rw [← hpp] at hent2
  have hvs : vs1 = vs2 := assoc_nodup_unique (subProjLeads_keys_nodup db st0.nodeIds)
    hent1 hent2
  subst hvs
  unfold collabPass at hlen ⊢
  rw [if_pos ⟨rfl, List.ne_nil_of_mem hP⟩] at hlen ⊢
  dsimp only at hlen ⊢
  obtain ⟨l1, l2, hsplit⟩ := List.append_of_mem hent1
  rw [hsplit, List.foldl_append, List.foldl_cons] at hlen ⊢
  have hinvT : StInv ((subTaskPeople db st0.nodeIds).foldl (fun s entry =>
      foldPairs (subCollabStep me "COLLAB:TASK") s (sortStr entry.2)) st0) :=
    foldl_pres _ (fun s e hs => stInv_subCollabEntryStep me "COLLAB:TASK" s e hs) _ _ hinv
  have hextT : Ext st0 ((subTaskPeople db st0.nodeIds).foldl (fun s entry =>
      foldPairs (subCollabStep me "COLLAB:TASK") s (sortStr entry.2)) st0) :=
    ext_foldl _ (fun s e => ext_subCollabEntryStep me "COLLAB:TASK" s e) _ _
  have hinv1 : StInv (l1.foldl (fun s entry =>
      foldPairs (subCollabStep me "COLLAB:PROJECT") s (sortStr entry.2))
      ((subTaskPeople db st0.nodeIds).foldl (fun s entry =>
        foldPairs (subCollabStep me "COLLAB:TASK") s (sortStr entry.2)) st0)) :=
    foldl_pres _ (fun s e hs => stInv_subCollabEntryStep me "COLLAB:PROJECT" s e hs) l1 _ hinvT
  have hext1 : Ext ((subTaskPeople db st0.nodeIds).foldl (fun s entry =>
      foldPairs (subCollabStep me "COLLAB:TASK") s (sortStr entry.2)) st0)
      (l1.foldl (fun s entry =>
        foldPairs (subCollabStep me "COLLAB:PROJECT") s (sortStr entry.2))
        ((subTaskPeople db st0.nodeIds).foldl (fun s entry =>
          foldPairs (subCollabStep me "COLLAB:TASK") s (sortStr entry.2)) st0)) :=
    ext_foldl _ (fun s e => ext_subCollabEntryStep me "COLLAB:PROJECT" s e) l1 _
  have hextAfter : Ext (foldPairs (subCollabStep me "COLLAB:PROJECT")
      (l1.foldl (fun s entry =>
        foldPairs (subCollabStep me "COLLAB:PROJECT") s (sortStr entry.2))
        ((subTaskPeople db st0.nodeIds).foldl (fun s entry =>
          foldPairs (subCollabStep me "COLLAB:TASK") s (sortStr entry.2)) st0))
      (sortStr vs1))
      (l2.foldl (fun s entry =>
        foldPairs (subCollabStep me "COLLAB:PROJECT") s (sortStr entry.2))
        (foldPairs (subCollabStep me "COLLAB:PROJECT")
          (l1.foldl (fun s entry =>
            foldPairs (subCollabStep me "COLLAB:PROJECT") s (sortStr entry.2))
            ((subTaskPeople db st0.nodeIds).foldl (fun s entry =>
              foldPairs (subCollabStep me "COLLAB:TASK") s (sortStr entry.2)) st0))
          (sortStr vs1))) :=
    ext_foldl _ (fun s e => ext_subCollabEntryStep me "COLLAB:PROJECT" s e) l2 _
  have hcov := foldPairs_subCollab_cover me "COLLAB:PROJECT"
    (nid "person" pl1.personId) (nid "person" pl2.personId)
    (fun hc => hne (nid_inj_num hc)) (sortStr vs1) _ hinv1
    (hext1.mem_nodeIds (hextT.mem_nodeIds hA)) (hext1.mem_nodeIds (hextT.mem_nodeIds hB))
    (mem_sortStr hAvs) (mem_sortStr hBvs)
    (lt_of_le_of_lt hextAfter.len_edges hlen)
  exact ⟨hextAfter.hasEdgeKey_mono hcov.1, hextAfter.hasEdgeKey_mono hcov.2⟩

theorem getEntitySubgraph_eq_collab (db : Store) (centers : List String) (degrees : Int)
    (mn me : Nat) (ic : Bool) (hE : ¬ (seedFrontier centers).isEmptyAll) :
    getEntitySubgraph db centers degrees mn me ic =
      collabPass db me ic (hopLoop db mn me (max 0 degrees).toNat
        (materializeCenters db mn (seedFrontier centers) emptyG, seedFrontier centers)) := by
  unfold getEntitySubgraph
  dsimp only
  rw [if_neg hE]

theorem subgraph_inner_stinv (db : Store) (centers : List String) (degrees : Int)
    (mn me : Nat) :
    StInv (hopLoop db mn me (max 0 degrees).toNat
      (materializeCenters db mn (seedFrontier centers) emptyG, seedFrontier centers)) :=
  (subInv_hopLoop db mn me _ _
    (subInv_materializeCenters db mn me _ _ (subInv_empty mn me))).1

theorem sub_collab_task_pair (db : Store) (centers : List String) (degrees : Int)
    (mn me : Nat) (r1 r2 : TaskAssignee)
    (hr1 : r1 ∈ db.taskAssignees) (hr2 : r2 ∈ db.taskAssignees)
    (htt : r1.taskId = r2.taskId) (hne : r1.personId ≠ r2.personId)
    (hT : nid "task" r1.taskId ∈
      (getEntitySubgraph db centers degrees mn me true).nodes.map (fun n => n.id))
    (hA : nid "person" r1.personId ∈
      (getEntitySubgraph db centers degrees mn me true).nodes.map (fun n => n.id))
    (hB : nid "person" r2.personId ∈
      (getEntitySubgraph db centers degrees mn me true).nodes.map (fun n => n.id))
    (hlen : (getEntitySubgraph db centers degrees mn me true).edges.length < me) :
    hasEdgeKey (getEntitySubgraph db centers degrees mn me true)
      (nid "person" r1.personId) (nid "person" r2.personId) "COLLAB:TASK" ∧
    hasEdgeKey (getEntitySubgraph db centers degrees mn me true)
      (nid "person" r2.personId) (nid "person" r1.personId) "COLLAB:TASK" := by
  by_cases hE : (seedFrontier centers).isEmptyAll
  · have heq : getEntitySubgraph db centers degrees mn me true = emptyG := by
      unfold getEntitySubgraph
      dsimp only
      rw [if_pos hE]
    rw [heq] at hT
    simp [emptyG] at hT
  · have heq := getEntitySubgraph_eq_collab db centers degrees mn me true hE
    rw [heq] at hT hA hB hlen ⊢
    have hinv := subgraph_inner_stinv db centers degrees mn me
    rw [(collabPass_nodesSide db me true _).1] at hT hA hB
    rw [← hinv.idsEq] at hT hA hB
    exact collabPass_task_pair db me _ r1 r2 hinv hr1 hr2 htt hne hT hA hB hlen

theorem sub_collab_project_pair (db : Store) (centers : List String) (degrees : Int)
    (mn me : Nat) (pl1 pl2 : ProjectLead)
    (h1 : pl1 ∈ db.projectLeads) (h2 : pl2 ∈ db.projectLeads)
    (hpp : pl1.projectId = pl2.projectId) (hne : pl1.personId ≠ pl2.personId)
    (hP : nid "project" pl1.projectId ∈
      (getEntitySubgraph db centers degrees mn me true).nodes.map (fun n => n.id))
    (hA : nid "person" pl1.personId ∈
      (getEntitySubgraph db centers degrees mn me true).nodes.map (fun n => n.id))
    (hB : nid "person" pl2.personId ∈
      (getEntitySubgraph db centers degrees mn me true).nodes.map (fun n => n.id))
    (hlen : (getEntitySubgraph db centers degrees mn me true).edges.length < me) :
    hasEdgeKey (getEntitySubgraph db centers degrees mn me true)
      (nid "person" pl1.personId) (nid "person" pl2.personId) "COLLAB:PROJECT" ∧
    hasEdgeKey (getEntitySubgraph db centers degrees mn me true)
      (nid "person" pl2.personId) (nid "person" pl1.personId) "COLLAB:PROJECT" := by
  by_cases hE : (seedFrontier centers).isEmptyAll
  · have heq : getEntitySubgraph db centers degrees mn me true = emptyG := by
      unfold getEntitySubgraph
      dsimp only
      rw [if_pos hE]
    rw [heq] at hP
    simp [emptyG] at hP
  · have heq := getEntitySubgraph_eq_collab db centers degrees mn me true hE
    rw [heq] at hP hA hB hlen ⊢
    have hinv := subgraph_inner_stinv db centers degrees mn me
    rw [(collabPass_nodesSide db me true _).1] at hP hA hB
    rw [← hinv.idsEq] at hP hA hB
    exact collabPass_project_pair db me _ pl1 pl2 hinv h1 h2 hpp hne hP hA hB hlen

/-- Claim C6 counterexample: in the subgraph builder, both assignee person
nodes of task 1 are present but the task node itself is not, and no
`COLLAB:TASK` edge is produced — presence of the two person nodes alone does
not suffice. -/
theorem c6_counterexample :
    ((⟨1, 1, some "Responsible"⟩ : TaskAssignee) ∈ exStore.taskAssignees ∧
     (⟨1, 2, some "Accountable"⟩ : TaskAssignee) ∈ exStore.taskAssignees) ∧
    ("person_1" ∈ (getEntitySubgraph exStore ["person_1", "person_2"] 0 2000 4000 true).nodes.map
        (fun n => n.id) ∧
     "person_2" ∈ (getEntitySubgraph exStore ["person_1", "person_2"] 0 2000 4000 true).nodes.map
        (fun n => n.id)) ∧
    (getEntitySubgraph exStore ["person_1", "person_2"] 0 2000 4000 true).edges = [] :=
  ⟨⟨by decide, by decide⟩, ⟨by decide, by decide⟩, by decide⟩

/-- Claim C6 amended: in the full materializer, co-assignees of one task (and
co-leads of one project) that exist as persons always get both directed
collaboration edges; in the bounded traversal the same holds provided the
shared task (resp. project) node is itself present in the result and the edge
budget is not exhausted. -/
theorem c6_collab_symmetry :
    (∀ (db : Store) (t : Task) (r1 r2 : TaskAssignee),
        t ∈ db.tasks → r1 ∈ db.taskAssignees → r2 ∈ db.taskAssignees →
        r1.taskId = t.id → r2.taskId = t.id →
        r1.personId ∈ peopleIds db → r2.personId ∈ peopleIds db →
        r1.personId ≠ r2.personId →
        hasEdgeKey (getGraphNetwork db) (nid "person" r1.personId) (nid "person" r2.personId)
          "COLLAB:TASK" ∧
        hasEdgeKey (getGraphNetwork db) (nid "person" r2.personId) (nid "person" r1.personId)
          "COLLAB:TASK") ∧
    (∀ (db : Store) (pl1 pl2 : ProjectLead),
        pl1 ∈ db.projectLeads → pl2 ∈ db.projectLeads →
        pl1.projectId = pl2.projectId → pl1.projectId ∈ projectIds db →
        pl1.personId ∈ peopleIds db → pl2.personId ∈ peopleIds db →
        pl1.personId ≠ pl2.personId →
        hasEdgeKey (getGraphNetwork db) (nid "person" pl1.personId) (nid "person" pl2.personId)
          "COLLAB:PROJECT" ∧
        hasEdgeKey (getGraphNetwork db) (nid "person" pl2.personId) (nid "person" pl1.personId)
          "COLLAB:PROJECT") ∧
    (∀ (db : Store) (centers : List String) (degrees : Int) (mn me : Nat)
        (r1 r2 : TaskAssignee),
        r1 ∈ db.taskAssignees → r2 ∈ db.taskAssignees →
        r1.taskId = r2.taskId → r1.personId ≠ r2.personId →
        nid "task" r1.taskId ∈
          (getEntitySubgraph db centers degrees mn me true).nodes.map (fun n => n.id) →
        nid "person" r1.personId ∈
          (getEntitySubgraph db centers degrees mn me true).nodes.map (fun n => n.id) →
        nid "person" r2.personId ∈
          (getEntitySubgraph db centers degrees mn me true).nodes.map (fun n => n.id) →
        (getEntitySubgraph db centers degrees mn me true).edges.length < me →
        hasEdgeKey (getEntitySubgraph db centers degrees mn me true)
          (nid "person" r1.personId) (nid "person" r2.personId) "COLLAB:TASK" ∧
        hasEdgeKey (getEntitySubgraph db centers degrees mn me true)
          (nid "person" r2.personId) (nid "person" r1.personId) "COLLAB:TASK") ∧
    (∀ (db : Store) (centers : List String) (degrees : Int) (mn me : Nat)
        (pl1 pl2 : ProjectLead),
        pl1 ∈ db.projectLeads → pl2 ∈ db.projectLeads →
        pl1.projectId = pl2.projectId → pl1.personId ≠ pl2.personId →
        nid "project" pl1.projectId ∈
          (getEntitySubgraph db centers degrees mn me true).nodes.map (fun n => n.id) →
        nid "person" pl1.personId ∈
          (getEntitySubgraph db centers degrees mn me true).nodes.map (fun n => n.id) →
        nid "person" pl2.personId ∈
          (getEntitySubgraph db centers degrees mn me true).nodes.map (fun n => n.id) →
        (getEntitySubgraph db centers degrees mn me true).edges.length < me →
        hasEdgeKey (getEntitySubgraph db centers degrees mn me true)
          (nid "person" pl1.personId) (nid "person" pl2.personId) "COLLAB:PROJECT" ∧
        hasEdgeKey (getEntitySubgraph db centers degrees mn me true)
          (nid "person" pl2.personId) (nid "person" pl1.personId) "COLLAB:PROJECT") := by
  refine ⟨net_collab_task_pair, net_collab_project_pair, ?_, ?_⟩
  · intro db centers degrees mn me r1 r2 hr1 hr2 htt hne hT hA hB hlen
    exact sub_collab_task_pair db centers degrees mn me r1 r2 hr1 hr2 htt hne hT hA hB hlen
  · intro db centers degrees mn me pl1 pl2 h1 h2 hpp hne hP hA hB hlen
    exact sub_collab_project_pair db centers degrees mn me pl1 pl2 h1 h2 hpp hne hP hA hB hlen

/-- Witness for the amended C6: both `COLLAB:TASK` directions for the two
assignees of task 1 in the example store's full graph. -/
theorem c6_witness :
    ((⟨1, "T1", some "started", none, some 1⟩ : Task) ∈ exStore.tasks ∧
     (⟨1, 1, some "Responsible"⟩ : TaskAssignee) ∈ exStore.taskAssignees ∧
     (⟨1, 2, some "Accountable"⟩ : TaskAssignee) ∈ exStore.taskAssignees) ∧
    (hasEdgeKey (getGraphNetwork exStore) (nid "person" 1) (nid "person" 2) "COLLAB:TASK" ∧
     hasEdgeKey (getGraphNetwork exStore) (nid "person" 2) (nid "person" 1) "COLLAB:TASK") :=
  ⟨⟨by decide, by decide, by decide⟩,
   c6_collab_symmetry.1 exStore ⟨1, "T1", some "started", none, some 1⟩
     ⟨1, 1, some "Responsible"⟩ ⟨1, 2, some "Accountable"⟩
     (by decide) (by decide) (by decide) (by decide) (by decide)
     (by decide) (by decide) (by decide)⟩

/-! ### Edge provenance in the full materializer (claim C8) -/

theorem addEdgeNet_edges_sub (st : GState) (src dst ty : String) (m : List (String × String)) :
    ∀ e ∈ (addEdgeNet st src dst ty m).edges,
      e ∈ st.edges ∨ (e.source = src ∧ e.target = dst ∧ e.type = ty) := by
  unfold addEdgeNet
  split
  · intro e he; exact Or.inl he
  split
  · intro e he; exact Or.inl he
  · intro e he
    rcases List.mem_append.mp he with h1 | h1
    · exact Or.inl h1
    · rcases List.mem_singleton.mp h1 with rfl
      exact Or.inr ⟨rfl, rfl, rfl⟩

/-- The provenance disjunction for every edge of the full materializer. -/
def NetEdgeShape (db : Store) (e : EdgeData) : Prop :=
  (∃ x : Nat, e.source = nid "person" x) ∨
  (∃ s2 : String, e.type = "RACI:" ++ s2) ∨
  (∃ t ∈ db.tasks, ∃ pid : Nat, t.projectId = some pid ∧ pid ≠ 0 ∧ pid ∈ projectIds db ∧
    e.source = nid "task" t.id ∧ e.target = nid "project" pid ∧ e.type = "PART_OF") ∨
  (∃ s2 : String, e.type = "ASSIGNEE:" ++ s2) ∨
  e.type = "MEMBER_OF" ∨ e.type = "IN_GROUP" ∨
  e.type = "COLLAB:TASK" ∨ e.type = "COLLAB:PROJECT"

theorem netNodesPhase_edges (db : Store) (st : GState) :
    (netNodesPhase db st).edges = st.edges := by
  unfold netNodesPhase
  have hstep : ∀ (s : GState) (kind : String) (row : Row),
      (addNodeNet s kind row).edges = s.edges := by
    intro s kind row
    unfold addNodeNet
    split
    · rfl
    · rfl
  refine @foldl_pres _ (fun s => s.edges = st.edges) _ ?_ _ _
    (@foldl_pres _ (fun s => s.edges = st.edges) _ ?_ _ _
      (@foldl_pres _ (fun s => s.edges = st.edges) _ ?_ _ _
        (@foldl_pres _ (fun s => s.edges = st.edges) _ ?_ _ _ rfl))) <;>
    (intro s x hs; rw [hstep]; exact hs)

theorem netShape_getGraphNetwork (db : Store) :
    ∀ e ∈ (getGraphNetwork db).edges, NetEdgeShape db e := by
  have hP : ∀ e ∈ (netNodesPhase db emptyG).edges, NetEdgeShape db e := by
    rw [netNodesPhase_edges db emptyG]
    intro e he
    cases he
  have h1 : ∀ e ∈ (netRelEdges db (netNodesPhase db emptyG)).edges, NetEdgeShape db e := by
    unfold netRelEdges
    refine @foldl_pres _ (fun s => ∀ e ∈ s.edges, NetEdgeShape db e) _ ?_ _ _ hP
    intro s r hs
    split
    · intro e he
      rcases addEdgeNet_edges_sub s _ _ _ _ e he with h2 | ⟨hsrc, -, -⟩
      · exact hs e h2
      · exact Or.inl ⟨r.fromPersonId, hsrc⟩
    · exact hs
  have h2 : ∀ e ∈ (netLeadEdges db (netRelEdges db (netNodesPhase db emptyG))).edges,
      NetEdgeShape db e := by
    unfold netLeadEdges
    refine @foldl_pres _ (fun s => ∀ e ∈ s.edges, NetEdgeShape db e) _ ?_ _ _ h1
    intro s pl hs
    split
    · intro e he
      rcases addEdgeNet_edges_sub s _ _ _ _ e he with h3 | ⟨-, -, hty⟩
      · exact hs e h3
      · exact Or.inr (Or.inl ⟨raciSuffix pl.role, hty⟩)
    · exact hs
  have h3 : ∀ e ∈ (netTaskEdges db (netLeadEdges db (netRelEdges db
      (netNodesPhase db emptyG)))).edges, NetEdgeShape db e := by
    unfold netTaskEdges
    refine @List.foldlRecOn _ _ (fun s : GState => ∀ e ∈ s.edges, NetEdgeShape db e)
      db.tasks _ _ h2 ?_
    intro s hs t htmem
    dsimp only
    refine @foldl_pres _ (fun s => ∀ e ∈ s.edges, NetEdgeShape db e) _ ?_ _ _ ?_
    · intro s2 ta hs2
      split
      · intro e he
        rcases addEdgeNet_edges_sub s2 _ _ _ _ e he with h4 | ⟨-, -, hty⟩
        · exact hs2 e h4
        · exact Or.inr (Or.inr (Or.inr (Or.inl ⟨raciSuffix ta.role, hty⟩)))
      · exact hs2
    · cases hpid : t.projectId with
      | none => exact hs
      | some pid =>
        dsimp only
        split
        · rename_i hcond
          intro e he
          rcases addEdgeNet_edges_sub s _ _ _ _ e he with h4 | ⟨hsrc, htgt, hty⟩
          · exact hs e h4
          · exact Or.inr (Or.inr (Or.inl
              ⟨t, htmem, pid, hpid, hcond.1, hcond.2, hsrc, htgt, hty⟩))
        · exact hs
  have h4 : ∀ e ∈ (netMemberEdges db (netTaskEdges db (netLeadEdges db (netRelEdges db
      (netNodesPhase db emptyG))))).edges, NetEdgeShape db e := by
    unfold netMemberEdges
    refine @foldl_pres _ (fun s => ∀ e ∈ s.edges, NetEdgeShape db e) _ ?_ _ _ h3
    intro s pg hs
    split
    · intro e he
      rcases addEdgeNet_edges_sub s _ _ _ _ e he with h5 | ⟨-, -, hty⟩
      · exact hs e h5
      · exact Or.inr (Or.inr (Or.inr (Or.inr (Or.inl hty))))
    · exact hs
  have h5 : ∀ e ∈ (netBeforeCollab db).edges, NetEdgeShape db e := by
    unfold netBeforeCollab netProjGroupEdges
    refine @foldl_pres _ (fun s => ∀ e ∈ s.edges, NetEdgeShape db e) _ ?_ _ _ h4
    intro s pg hs
    split
    · intro e he
      rcases addEdgeNet_edges_sub s _ _ _ _ e he with h6 | ⟨-, -, hty⟩
      · exact hs e h6
      · exact Or.inr (Or.inr (Or.inr (Or.inr (Or.inr (Or.inl hty)))))
    · exact hs
  have hstepT : ∀ (ty : String) (P : EdgeData → Prop) (s : GState) (a b : Nat),
      (∀ e2 ∈ s.edges, NetEdgeShape db e2) →
      (∀ e2 ∈ (netCollabStep ty s a b).edges,
        e2 ∈ s.edges ∨ e2.type = ty) := by
    intro ty P s a b hs e2 he2
    unfold netCollabStep at he2
    rcases addEdgeNet_edges_sub _ _ _ _ _ e2 he2 with h7 | ⟨-, -, hty⟩
    · rcases addEdgeNet_edges_sub _ _ _ _ _ e2 h7 with h8 | ⟨-, -, hty⟩
      · exact Or.inl h8
      · exact Or.inr hty
    · exact Or.inr hty
  have h6 : ∀ e ∈ (netCollabTask db (netBeforeCollab db)).edges, NetEdgeShape db e := by
    unfold netCollabTask
    refine @foldl_pres _ (fun s => ∀ e ∈ s.edges, NetEdgeShape db e) _ ?_ _ _ h5
    intro s entry hs
    refine @foldPairs_pres _ (fun s => ∀ e ∈ s.edges, NetEdgeShape db e) _ ?_ _ s hs
    intro s2 a b hs2 e he
    rcases hstepT "COLLAB:TASK" (NetEdgeShape db) s2 a b hs2 e he with h7 | h7
    · exact hs2 e h7
    · exact Or.inr (Or.inr (Or.inr (Or.inr (Or.inr (Or.inr (Or.inl h7))))))
  rw [getGraphNetwork_eq db]
  unfold netCollabProject
  refine @foldl_pres _ (fun s => ∀ e ∈ s.edges, NetEdgeShape db e) _ ?_ _ _ h6
  intro s entry hs
  refine @foldPairs_pres _ (fun s => ∀ e ∈ s.edges, NetEdgeShape db e) _ ?_ _ s hs
  intro s2 a b hs2 e he
  rcases hstepT "COLLAB:PROJECT" (NetEdgeShape db) s2 a b hs2 e he with h7 | h7
  · exact hs2 e h7
  · exact Or.inr (Or.inr (Or.inr (Or.inr (Or.inr (Or.inr (Or.inr h7))))))

theorem raci_ne_partof (x : String) : "RACI:" ++ x ≠ "PART_OF" := by
  intro h
  have h2 := congrArg String.data h
  rw [String.data_append] at h2
  rw [show "RACI:".data = ['R', 'A', 'C', 'I', ':'] from rfl, List.cons_append] at h2
  have h3 : 'R' = 'P' := by injection (h2.trans (show "PART_OF".data = 'P' :: "ART_OF".data from rfl))
  exact absurd h3 (by decide)

theorem assignee_ne_partof (x : String) : "ASSIGNEE:" ++ x ≠ "PART_OF" := by
  intro h
  have h2 := congrArg String.data h
  rw [String.data_append] at h2
  rw [show "ASSIGNEE:".data = ['A', 'S', 'S', 'I', 'G', 'N', 'E', 'E', ':'] from rfl,
    List.cons_append] at h2
  have h3 : 'A' = 'P' := by injection (h2.trans (show "PART_OF".data = 'P' :: "ART_OF".data from rfl))
  exact absurd h3 (by decide)

/-- Every task row yields a node in the full materializer output. -/
theorem net_task_node_present (db : Store) (t : Task) (ht : t ∈ db.tasks) :
    nid "task" t.id ∈ (getGraphNetwork db).nodes.map (fun n => n.id) := by
  have h1 : nid "task" t.id ∈ (getGraphNetwork db).nodeIds := by
    rw [getGraphNetwork_eq db]
    exact (ext_netCollabProject db _).mem_nodeIds ((ext_netCollabTask db _).mem_nodeIds
      (netBeforeCollab_task_present db (List.mem_map.mpr ⟨t, ht, rfl⟩)))
  rwa [(stInv_getGraphNetwork db).idsEq] at h1

theorem net_no_dangling_partof (db : Store) (t : Task) (p : Nat)
    (hnd : (taskIds db).Nodup) (ht : t ∈ db.tasks) (hp : t.projectId = some p)
    (hmiss : p ∉ projectIds db) :
    ¬ ∃ e ∈ (getGraphNetwork db).edges, e.source = nid "task" t.id ∧ e.type = "PART_OF" := by
  rintro ⟨e, he, hsrc, hty⟩
  rcases netShape_getGraphNetwork db e he with ⟨x, hx⟩ | ⟨s2, hs2⟩ |
    ⟨t2, ht2, pid, hpid, hne0, hpmem, hsrc2, -, -⟩ | ⟨s2, hs2⟩ | hc | hc | hc | hc
  · have h2 : nid "task" t.id = nid "person" x := hsrc ▸ hx
    have h3 := (nid_inj_kind no_underscore_task no_underscore_person h2).1
    exact absurd h3 (by decide)
  · exact raci_ne_partof s2 (hs2 ▸ hty)
  · have h2 : nid "task" t2.id = nid "task" t.id := hsrc2.symm.trans hsrc
    have h3 : t2.id = t.id := nid_inj_num h2
    have hnd2 : (db.tasks.map (fun x => x.id)).Nodup := hnd
    have h4 : t2 = t := List.inj_on_of_nodup_map hnd2 ht2 ht h3
    rw [h4, hp] at hpid
    injection hpid with h5
    exact hmiss (h5 ▸ hpmem)
  · exact assignee_ne_partof s2 (hs2 ▸ hty)
  · rw [hc] at hty; exact absurd hty (by decide)
  · rw [hc] at hty; exact absurd hty (by decide)
  · rw [hc] at hty; exact absurd hty (by decide)
  · rw [hc] at hty; exact absurd hty (by decide)

theorem net_valid_partof_present (db : Store) (t : Task) (p : Nat)
    (ht : t ∈ db.tasks) (hp : t.projectId = some p) (hne0 : p ≠ 0)
    (hmem : p ∈ projectIds db) :
    hasEdgeKey (getGraphNetwork db) (nid "task" t.id) (nid "project" p) "PART_OF" := by
  have hinv4 : StInv (netLeadEdges db (netRelEdges db (netNodesPhase db emptyG))) :=
    stInv_netLeadEdges db _ (stInv_netRelEdges db _ (stInv_netNodesPhase db _ stInv_empty))
  have hext4 : Ext (netNodesPhase db emptyG)
      (netLeadEdges db (netRelEdges db (netNodesPhase db emptyG))) :=
    (ext_netRelEdges db _).trans (ext_netLeadEdges db _)
  have hTpres : nid "task" t.id ∈
      (netLeadEdges db (netRelEdges db (netNodesPhase db emptyG))).nodeIds :=
    hext4.mem_nodeIds (netNodesPhase_mem_task db emptyG stInv_empty ht)
  have hPpres : nid "project" p ∈
      (netLeadEdges db (netRelEdges db (netNodesPhase db emptyG))).nodeIds := by
    obtain ⟨pr, hpr, hprid⟩ := List.mem_map.mp hmem
    have h2 := netNodesPhase_mem_project db emptyG stInv_empty hpr
    rw [hprid] at h2
    exact hext4.mem_nodeIds h2
  have hkey : hasEdgeKey (netTaskEdges db (netLeadEdges db (netRelEdges db
      (netNodesPhase db emptyG)))) (nid "task" t.id) (nid "project" p) "PART_OF" := by
    unfold netTaskEdges
    obtain ⟨l1, l2, hsplit⟩ := List.append_of_mem ht
    rw [hsplit, List.foldl_append, List.foldl_cons]
    have hstepE : ∀ (s : GState) (x : Task), Ext s ((taskAssigneesOf db x.id).foldl
        (fun s2 ta => if ta.personId ∈ peopleIds db then
          addEdgeNet s2 (nid "person" ta.personId) (nid "task" x.id)
            ("ASSIGNEE:" ++ raciSuffix ta.role) [] else s2)
        (match x.projectId with
         | some pid =>
             if pid ≠ 0 ∧ pid ∈ projectIds db then
               addEdgeNet s (nid "task" x.id) (nid "project" pid) "PART_OF" []
             else s
         | none => s)) := by
      intro s x
      refine Ext.trans (b := (match x.projectId with
         | some pid =>
             if pid ≠ 0 ∧ pid ∈ projectIds db then
               addEdgeNet s (nid "task" x.id) (nid "project" pid) "PART_OF" []
             else s
         | none => s)) ?_ ?_
      · cases x.projectId with
        | none => exact Ext.refl s
        | some pid =>
          dsimp only
          exact ext_ite s _ _ (ext_addEdgeNet s _ _ _ _)
      · refine ext_foldl _ ?_ _ _
        intro s2 ta
        exact ext_ite s2 _ _ (ext_addEdgeNet s2 _ _ _ _)
    have hinvP : StInv (l1.foldl (fun s t => (taskAssigneesOf db t.id).foldl
        (fun s2 ta => if ta.personId ∈ peopleIds db then
          addEdgeNet s2 (nid "person" ta.personId) (nid "task" t.id)
            ("ASSIGNEE:" ++ raciSuffix ta.role) [] else s2)
        (match t.projectId with
         | some pid =>
             if pid ≠ 0 ∧ pid ∈ projectIds db then
               addEdgeNet s (nid "task" t.id) (nid "project" pid) "PART_OF" []
             else s
         | none => s)) (netLeadEdges db (netRelEdges db (netNodesPhase db emptyG)))) := by
      refine foldl_pres _ ?_ l1 _ hinv4
      intro s x hs
      refine foldl_pres _ ?_ _ _ ?_
      · intro s2 ta hs2
        split
        · exact stInv_addEdgeNet _ _ _ _ _ hs2
        · exact hs2
      · cases x.projectId with
        | none => exact hs
        | some pid =>
          dsimp only
          split
          · exact stInv_addEdgeNet _ _ _ _ _ hs
          · exact hs
    have hextP : Ext (netLeadEdges db (netRelEdges db (netNodesPhase db emptyG)))
        (l1.foldl (fun s t => (taskAssigneesOf db t.id).foldl
          (fun s2 ta => if ta.personId ∈ peopleIds db then
            addEdgeNet s2 (nid "person" ta.personId) (nid "task" t.id)
              ("ASSIGNEE:" ++ raciSuffix ta.role) [] else s2)
          (match t.projectId with
           | some pid =>
               if pid ≠ 0 ∧ pid ∈ projectIds db then
                 addEdgeNet s (nid "task" t.id) (nid "project" pid) "PART_OF" []
               else s
           | none => s)) (netLeadEdges db (netRelEdges db (netNodesPhase db emptyG)))) :=
      ext_foldl _ (fun s x => hstepE s x) l1 _
    have hadd : hasEdgeKey (addEdgeNet (l1.foldl (fun s t => (taskAssigneesOf db t.id).foldl
        (fun s2 ta => if ta.personId ∈ peopleIds db then
          addEdgeNet s2 (nid "person" ta.personId) (nid "task" t.id)
            ("ASSIGNEE:" ++ raciSuffix ta.role) [] else s2)
        (match t.projectId with
         | some pid =>
             if pid ≠ 0 ∧ pid ∈ projectIds db then
               addEdgeNet s (nid "task" t.id) (nid "project" pid) "PART_OF" []
             else s
         | none => s)) (netLeadEdges db (netRelEdges db (netNodesPhase db emptyG))))
        (nid "task" t.id) (nid "project" p) "PART_OF" [])
        (nid "task" t.id) (nid "project" p) "PART_OF" :=
      addEdgeNet_makes _ _ _ _ [] hinvP (hextP.mem_nodeIds hTpres) (hextP.mem_nodeIds hPpres)
    dsimp only
    rw [hp]
    dsimp only
    rw [if_pos ⟨hne0, hmem⟩]
    refine (Ext.trans ?_ (ext_foldl _ (fun s x => hstepE s x) l2 _)).hasEdgeKey_mono hadd
    refine ext_foldl _ ?_ _ _
    intro s2 ta
    exact ext_ite s2 _ _ (ext_addEdgeNet s2 _ _ _ _)
  rw [getGraphNetwork_eq db]
  exact ((((ext_netMemberEdges db _).trans (ext_netProjGroupEdges db _)).trans
    (ext_netCollabTask db _)).trans (ext_netCollabProject db _)).hasEdgeKey_mono hkey

/-- Claim C8 (dangling-reference elimination): in `get_graph_network`, every
task row always becomes a node; when a task's `project_id` does not refer to
any existing project, no `PART_OF` edge is emitted from that task node (so
the dangling reference is silently dropped rather than producing a dangling
edge), and when the referenced project does exist (and the id is truthy),
the `PART_OF` edge from the task node to the project node is present. -/
theorem c8_dangling_elimination (db : Store) (t : Task) (p : Nat)
    (hnd : (taskIds db).Nodup) (ht : t ∈ db.tasks) (hp : t.projectId = some p) :
    nid "task" t.id ∈ (getGraphNetwork db).nodes.map (fun n => n.id) ∧
    (p ∉ projectIds db →
      ¬ ∃ e ∈ (getGraphNetwork db).edges,
        e.source = nid "task" t.id ∧ e.type = "PART_OF") ∧
    (p ≠ 0 → p ∈ projectIds db →
      hasEdgeKey (getGraphNetwork db) (nid "task" t.id) (nid "project" p) "PART_OF") :=
  ⟨net_task_node_present db t ht,
   fun hmiss => net_no_dangling_partof db t p hnd ht hp hmiss,
   fun hne0 hmem => net_valid_partof_present db t p ht hp hne0 hmem⟩

/-- Concrete instance of claim C8: in the example store, task 2 references
the nonexistent project 99, so it appears as a node with no outgoing
`PART_OF` edge. -/
theorem c8_witness :
    nid "task" (2 : Nat) ∈ (getGraphNetwork exStore).nodes.map (fun n => n.id) ∧
    ((99 : Nat) ∉ projectIds exStore →
      ¬ ∃ e ∈ (getGraphNetwork exStore).edges,
        e.source = nid "task" (2 : Nat) ∧ e.type = "PART_OF") ∧
    ((99 : Nat) ≠ 0 → (99 : Nat) ∈ projectIds exStore →
      hasEdgeKey (getGraphNetwork exStore) (nid "task" (2 : Nat))
        (nid "project" (99 : Nat)) "PART_OF") :=
  c8_dangling_elimination exStore ⟨2, "T2", none, none, some 99⟩ 99
    (by decide) (by decide) rfl

end AIPMO
